import Mathlib

/-!  Verification development for the off-chain order-book matching engine.

Shallow embedding of
  * the order-book replica (`src/matcher/src/orderbook_simulator.rs`),
  * the dispatcher batch pass (`src/matcher/src/matcher.rs`),
  * the pending-change bookkeeping (`src/matcher/src/match_simulator.rs`),
  * the sequencer cold-sync queue walk (`src/matcher/src/sync.rs`).

The Rust code stores all prices, amounts and identifiers as 256-bit
unsigned integers (`ethers::types::U256`) whose `+`/`-` panic on
overflow/underflow; we embed them as `Nat`.  Every subtraction performed
by the code is either explicitly saturating (`saturating_sub`, which is
exactly `Nat` subtraction) or guarded on the runs we reason about.
`HashMap` is embedded as an association list with first-match lookup;
`insert` overwrites, `remove` erases, `get_mut` maps in place, matching
the `HashMap` semantics key for key.

Every unbounded `while` walk of a linked structure in the source is
embedded with explicit fuel `table length + 1`.  A terminating Rust walk
never revisits a node (the walk is deterministic, so a revisit means
divergence), hence visits at most `length + 1` nodes and agrees with the
fuelled embedding; on states where Rust would diverge the embedding cuts
off after the fuel is spent. -/

/-- 256-bit unsigned machine integers of the source, embedded as `Nat`. -/
abbrev U256 := Nat

/-- Association list with `Nat` keys: the embedding of Rust `HashMap<U256, _>`. -/
abbrev Tbl (α : Type) := List (Nat × α)

namespace Tbl

/-- First-match lookup, the embedding of `HashMap::get`. -/
def lookup : Tbl α → Nat → Option α
  | [], _ => none
  | (k2, v) :: t, k => if k2 = k then some v else lookup t k

/-- Remove the (first) binding of a key, the embedding of `HashMap::remove`. -/
def erase : Tbl α → Nat → Tbl α
  | [], _ => []
  | (k2, v) :: t, k => if k2 = k then t else (k2, v) :: erase t k

/-- Overwriting insert, the embedding of `HashMap::insert`. -/
def insert (l : Tbl α) (k : Nat) (v : α) : Tbl α := (k, v) :: erase l k

/-- In-place update of an existing binding (no-op when the key is absent),
the embedding of the `if let Some(x) = map.get_mut(&k) { … }` pattern. -/
def modify : Tbl α → Nat → (α → α) → Tbl α
  | [], _, _ => []
  | (k2, v) :: t, k, f => (if k2 = k then (k2, f v) else (k2, v)) :: modify t k f

/-- Key-presence test, the embedding of `HashMap::contains_key`. -/
def contains (l : Tbl α) (k : Nat) : Bool := (lookup l k).isSome

/-- The keys of the table, in storage order. -/
def keys : Tbl α → List Nat
  | [] => []
  | (k, _) :: t => k :: keys t

end Tbl

/-! ## Data model of the replica (`orderbook_simulator.rs`) -/

/-- Mirror of `SimOrder` in `orderbook_simulator.rs`. -/
structure SimOrder where
  id : Nat
  amount : Nat
  filled_amount : Nat
  is_market_order : Bool
  price_level : Nat
  next_order_id : Nat
  prev_order_id : Nat
deriving DecidableEq, Repr

/-- Mirror of `SimPriceLevel` in `orderbook_simulator.rs`. -/
structure SimPriceLevel where
  price : Nat
  total_volume : Nat
  head_order_id : Nat
  tail_order_id : Nat
  next_price : Nat
  prev_price : Nat
deriving DecidableEq, Repr

/-- Mirror of `OrderBookSimulator` in `orderbook_simulator.rs`. -/
structure OrderBookSimulator where
  ask_head : Nat
  ask_tail : Nat
  bid_head : Nat
  bid_tail : Nat
  market_ask_head : Nat
  market_ask_tail : Nat
  market_bid_head : Nat
  market_bid_tail : Nat
  price_levels : Tbl SimPriceLevel
  orders : Tbl SimOrder
deriving DecidableEq, Repr

namespace OrderBookSimulator

/-- Mirror of `OrderBookSimulator::new`. -/
def new : OrderBookSimulator := ⟨0, 0, 0, 0, 0, 0, 0, 0, [], []⟩

/-- Mirror of `get_price_level_key`: ask levels are keyed by the price
itself, bid levels by `price | (1 << 255)`. -/
def get_price_level_key (price : Nat) (is_ask : Bool) : Nat :=
  if is_ask then price else Nat.lor price (2 ^ 255)

/-- Walk loop of `find_insert_position` (the `while !current_price.is_zero()`
loop), with explicit fuel. -/
def find_insert_position_go (s : OrderBookSimulator) (is_ask : Bool) (price : Nat) :
    Nat → Nat → Nat → Nat
  | 0, _, prev_price => prev_price
  | fuel + 1, current_price, prev_price =>
    if current_price = 0 then prev_price
    else
      match Tbl.lookup s.price_levels (get_price_level_key current_price is_ask) with
      | some level =>
        if (if is_ask then price ≤ level.price else level.price ≤ price) then prev_price
        else find_insert_position_go s is_ask price fuel level.next_price current_price
      | none => prev_price

/-- Mirror of `find_insert_position` in `orderbook_simulator.rs`: the
`insertAfterPrice` oracle computed against the current state. -/
def find_insert_position (s : OrderBookSimulator) (price : Nat) (is_ask : Bool) : Nat :=
  let key := get_price_level_key price is_ask
  if Tbl.contains s.price_levels key then price
  else
    let head := if is_ask then s.ask_head else s.bid_head
    if head = 0 then 0
    else find_insert_position_go s is_ask price (s.price_levels.length + 1) head 0

/-- Mirror of `insert_price_level_into_list`. -/
def insert_price_level_into_list (s : OrderBookSimulator) (price : Nat) (is_ask : Bool)
    (insert_after_price : Nat) : OrderBookSimulator :=
  let key := get_price_level_key price is_ask
  if insert_after_price = 0 then
    let old_head := if is_ask then s.ask_head else s.bid_head
    let s1 :=
      if old_head ≠ 0 then
        let old_head_key := get_price_level_key old_head is_ask
        let sa := { s with price_levels := (Tbl.modify s.price_levels old_head_key
                      (fun l => { l with prev_price := price })) }
        { sa with price_levels := (Tbl.modify sa.price_levels key
                      (fun l => { l with next_price := old_head })) }
      else
        if is_ask then { s with ask_tail := price } else { s with bid_tail := price }
    if is_ask then { s1 with ask_head := price } else { s1 with bid_head := price }
  else
    let insert_after_key := get_price_level_key insert_after_price is_ask
    let next_price := match Tbl.lookup s.price_levels insert_after_key with
      | some prev_level => prev_level.next_price
      | none => 0
    let s1 := { s with price_levels := (Tbl.modify s.price_levels key
                  (fun l => { l with prev_price := insert_after_price, next_price := next_price })) }
    let s2 := { s1 with price_levels := (Tbl.modify s1.price_levels insert_after_key
                  (fun l => { l with next_price := price })) }
    if next_price ≠ 0 then
      let next_key := get_price_level_key next_price is_ask
      { s2 with price_levels := (Tbl.modify s2.price_levels next_key
          (fun l => { l with prev_price := price })) }
    else
      if is_ask then { s2 with ask_tail := price } else { s2 with bid_tail := price }

/-- Mirror of `find_or_create_price_level`. -/
def find_or_create_price_level (s : OrderBookSimulator) (price : Nat) (is_ask : Bool)
    (insert_after_price : Nat) : OrderBookSimulator :=
  let key := get_price_level_key price is_ask
  if Tbl.contains s.price_levels key then s
  else
    let new_level : SimPriceLevel := ⟨price, 0, 0, 0, 0, 0⟩
    let s1 := { s with price_levels := Tbl.insert s.price_levels key new_level }
    insert_price_level_into_list s1 price is_ask insert_after_price

/-- Mirror of `insert_order_into_price_level`.  Note the source inserts at
the *head* of the level's order list when `insert_after_order == 0`. -/
def insert_order_into_price_level (s : OrderBookSimulator) (price_level_id : Nat)
    (order_id : Nat) (insert_after_order : Nat) (is_ask : Bool) : OrderBookSimulator :=
  let level_key := get_price_level_key price_level_id is_ask
  match Tbl.lookup s.orders order_id with
  | none => s
  | some order0 =>
    let order_amount := order0.amount
    let s1 :=
      if insert_after_order = 0 then
        let old_head := match Tbl.lookup s.price_levels level_key with
          | some level => level.head_order_id
          | none => 0
        let sa :=
          if old_head ≠ 0 then
            let sb := { s with orders := (Tbl.modify s.orders old_head
                          (fun o => { o with prev_order_id := order_id })) }
            { sb with orders := (Tbl.modify sb.orders order_id
                          (fun o => { o with next_order_id := old_head })) }
          else
            { s with price_levels := (Tbl.modify s.price_levels level_key
                (fun l => { l with tail_order_id := order_id })) }
        { sa with price_levels := (Tbl.modify sa.price_levels level_key
            (fun l => { l with head_order_id := order_id })) }
      else
        let next_order_id := match Tbl.lookup s.orders insert_after_order with
          | some prev_order => prev_order.next_order_id
          | none => 0
        let sa := { s with orders := (Tbl.modify s.orders order_id
                      (fun o => { o with prev_order_id := insert_after_order, next_order_id := next_order_id })) }
        let sb := { sa with orders := (Tbl.modify sa.orders insert_after_order
                      (fun o => { o with next_order_id := order_id })) }
        if next_order_id ≠ 0 then
          { sb with orders := (Tbl.modify sb.orders next_order_id
              (fun o => { o with prev_order_id := order_id })) }
        else
          { sb with price_levels := (Tbl.modify sb.price_levels level_key
              (fun l => { l with tail_order_id := order_id })) }
    { s1 with price_levels := (Tbl.modify s1.price_levels level_key
        (fun l => { l with total_volume := l.total_volume + order_amount })) }

/-- Mirror of `remove_order_from_price_level`. -/
def remove_order_from_price_level (s : OrderBookSimulator) (price_level_id : Nat)
    (order_id : Nat) (is_ask : Bool) : OrderBookSimulator :=
  match Tbl.lookup s.orders order_id with
  | none => s
  | some order0 =>
    let prev_order_id := order0.prev_order_id
    let next_order_id := order0.next_order_id
    let s1 :=
      if prev_order_id ≠ 0 then
        { s with orders := (Tbl.modify s.orders prev_order_id
            (fun o => { o with next_order_id := next_order_id })) }
      else
        let level_key := get_price_level_key price_level_id is_ask
        { s with price_levels := (Tbl.modify s.price_levels level_key
            (fun l => { l with head_order_id := next_order_id })) }
    if next_order_id ≠ 0 then
      { s1 with orders := (Tbl.modify s1.orders next_order_id
          (fun o => { o with prev_order_id := prev_order_id })) }
    else
      let level_key := get_price_level_key price_level_id is_ask
      { s1 with price_levels := (Tbl.modify s1.price_levels level_key
          (fun l => { l with tail_order_id := prev_order_id })) }

/-- Mirror of `remove_price_level`. -/
def remove_price_level (s : OrderBookSimulator) (price_level_id : Nat) (is_ask : Bool) :
    OrderBookSimulator :=
  let level_key := get_price_level_key price_level_id is_ask
  match Tbl.lookup s.price_levels level_key with
  | none => s
  | some level =>
    let prev_price := level.prev_price
    let next_price := level.next_price
    let s1 :=
      if prev_price ≠ 0 then
        let prev_key := get_price_level_key prev_price is_ask
        { s with price_levels := (Tbl.modify s.price_levels prev_key
            (fun l => { l with next_price := next_price })) }
      else
        if is_ask then { s with ask_head := next_price } else { s with bid_head := next_price }
    let s2 :=
      if next_price ≠ 0 then
        let next_key := get_price_level_key next_price is_ask
        { s1 with price_levels := (Tbl.modify s1.price_levels next_key
            (fun l => { l with prev_price := prev_price })) }
      else
        if is_ask then { s1 with ask_tail := prev_price } else { s1 with bid_tail := prev_price }
    { s2 with price_levels := Tbl.erase s2.price_levels level_key }

/-- Mirror of `remove_filled_order`. -/
def remove_filled_order (s : OrderBookSimulator) (order_id : Nat) (is_ask : Bool) :
    OrderBookSimulator :=
  match Tbl.lookup s.orders order_id with
  | none => s
  | some order0 =>
    let price_level_id := order0.price_level
    let s1 := remove_order_from_price_level s price_level_id order_id is_ask
    let level_key := get_price_level_key price_level_id is_ask
    let should_remove_level := match Tbl.lookup s1.price_levels level_key with
      | some level => decide (level.head_order_id = 0)
      | none => false
    let s2 := if should_remove_level then remove_price_level s1 price_level_id is_ask else s1
    { s2 with orders := Tbl.erase s2.orders order_id }

/-- Mirror of `execute_trade`: returns the updated state and the `bool`
the source returns (`false` signals the matching loop to stop). -/
def execute_trade (s : OrderBookSimulator) (bid_order_id ask_order_id : Nat) :
    OrderBookSimulator × Bool :=
  match Tbl.lookup s.orders bid_order_id with
  | none => (s, false)
  | some bid0 =>
    match Tbl.lookup s.orders ask_order_id with
    | none => (s, false)
    | some ask0 =>
      let bid_remaining := bid0.amount - bid0.filled_amount
      let bid_price_level := bid0.price_level
      let ask_remaining := ask0.amount - ask0.filled_amount
      let ask_price_level := ask0.price_level
      let trade_amount := min bid_remaining ask_remaining
      if trade_amount = 0 then (s, false)
      else
        let s1 := { s with orders := (Tbl.modify s.orders bid_order_id
                      (fun o => { o with filled_amount := o.filled_amount + trade_amount })) }
        let s2 := { s1 with orders := (Tbl.modify s1.orders ask_order_id
                      (fun o => { o with filled_amount := o.filled_amount + trade_amount })) }
        let bid_key := get_price_level_key bid_price_level false
        let s3 := { s2 with price_levels := (Tbl.modify s2.price_levels bid_key
                      (fun l => { l with total_volume := l.total_volume - trade_amount })) }
        let ask_key := get_price_level_key ask_price_level true
        let s4 := { s3 with price_levels := (Tbl.modify s3.price_levels ask_key
                      (fun l => { l with total_volume := l.total_volume - trade_amount })) }
        let bid_fully_filled := match Tbl.lookup s4.orders bid_order_id with
          | some o => decide (o.amount ≤ o.filled_amount)
          | none => false
        let s5 := if bid_fully_filled then remove_filled_order s4 bid_order_id false else s4
        let ask_fully_filled := match Tbl.lookup s5.orders ask_order_id with
          | some o => decide (o.amount ≤ o.filled_amount)
          | none => false
        let s6 := if ask_fully_filled then remove_filled_order s5 ask_order_id true else s5
        (s6, true)

/-- Mirror of `match_orders_internal` (the `for _ in 0..max_iterations`
loop), by recursion on the remaining iteration budget. -/
def match_orders_internal : Nat → OrderBookSimulator → OrderBookSimulator
  | 0, s => s
  | fuel + 1, s =>
    if s.bid_head = 0 ∨ s.ask_head = 0 then s
    else
      match Tbl.lookup s.price_levels (get_price_level_key s.bid_head false) with
      | none => s
      | some bid_level =>
        match Tbl.lookup s.price_levels (get_price_level_key s.ask_head true) with
        | none => s
        | some ask_level =>
          if bid_level.price < ask_level.price then s
          else if bid_level.head_order_id = 0 ∨ ask_level.head_order_id = 0 then s
          else
            if (execute_trade s bid_level.head_order_id ask_level.head_order_id).2 then
              match_orders_internal fuel
                (execute_trade s bid_level.head_order_id ask_level.head_order_id).1
            else (execute_trade s bid_level.head_order_id ask_level.head_order_id).1

/-- Mirror of `remove_market_order_from_list`. -/
def remove_market_order_from_list (s : OrderBookSimulator) (order_id : Nat) (is_ask : Bool) :
    OrderBookSimulator :=
  match Tbl.lookup s.orders order_id with
  | none => s
  | some order0 =>
    let prev_order_id := order0.prev_order_id
    let next_order_id := order0.next_order_id
    let s1 :=
      if prev_order_id ≠ 0 then
        { s with orders := (Tbl.modify s.orders prev_order_id
            (fun o => { o with next_order_id := next_order_id })) }
      else
        if is_ask then { s with market_ask_head := next_order_id }
        else { s with market_bid_head := next_order_id }
    if next_order_id ≠ 0 then
      { s1 with orders := (Tbl.modify s1.orders next_order_id
          (fun o => { o with prev_order_id := prev_order_id })) }
    else
      if is_ask then { s1 with market_ask_tail := prev_order_id }
      else { s1 with market_bid_tail := prev_order_id }

/-- Mirror of `execute_market_trade`. -/
def execute_market_trade (s : OrderBookSimulator) (market_order_id limit_order_id : Nat)
    (is_market_ask : Bool) : OrderBookSimulator × Bool :=
  match Tbl.lookup s.orders market_order_id with
  | none => (s, false)
  | some m0 =>
    match Tbl.lookup s.orders limit_order_id with
    | none => (s, false)
    | some l0 =>
      let market_remaining := m0.amount - m0.filled_amount
      let limit_remaining := l0.amount - l0.filled_amount
      let limit_price_level := l0.price_level
      let trade_amount := min market_remaining limit_remaining
      if trade_amount = 0 then (s, false)
      else
        let s1 := { s with orders := (Tbl.modify s.orders market_order_id
                      (fun o => { o with filled_amount := o.filled_amount + trade_amount })) }
        let s2 := { s1 with orders := (Tbl.modify s1.orders limit_order_id
                      (fun o => { o with filled_amount := o.filled_amount + trade_amount })) }
        let limit_is_ask := !is_market_ask
        let limit_key := get_price_level_key limit_price_level limit_is_ask
        let s3 := { s2 with price_levels := (Tbl.modify s2.price_levels limit_key
                      (fun l => { l with total_volume := l.total_volume - trade_amount })) }
        let market_fully_filled := match Tbl.lookup s3.orders market_order_id with
          | some o => decide (o.amount ≤ o.filled_amount)
          | none => false
        let s4 :=
          if market_fully_filled then
            let sa := remove_market_order_from_list s3 market_order_id is_market_ask
            { sa with orders := Tbl.erase sa.orders market_order_id }
          else s3
        let limit_fully_filled := match Tbl.lookup s4.orders limit_order_id with
          | some o => decide (o.amount ≤ o.filled_amount)
          | none => false
        let s5 := if limit_fully_filled then remove_filled_order s4 limit_order_id limit_is_ask
                  else s4
        (s5, true)
/-- First loop of `match_market_orders_internal` (market bids against the
best ask); returns the state and the unused iteration budget. -/
def match_market_bid_loop : Nat → OrderBookSimulator → OrderBookSimulator × Nat
  | 0, s => (s, 0)
  | fuel + 1, s =>
    let market_bid_head := s.market_bid_head
    let ask_head := s.ask_head
    if market_bid_head = 0 ∨ ask_head = 0 then (s, fuel + 1)
    else
      let ask_key := get_price_level_key ask_head true
      match Tbl.lookup s.price_levels ask_key with
      | none => (s, fuel + 1)
      | some level =>
        if level.head_order_id = 0 then (s, fuel + 1)
        else
          let r := execute_market_trade s market_bid_head level.head_order_id false
          if r.2 then match_market_bid_loop fuel r.1 else (r.1, fuel + 1)

/-- Second loop of `match_market_orders_internal` (market asks against the
best bid). -/
def match_market_ask_loop : Nat → OrderBookSimulator → OrderBookSimulator
  | 0, s => s
  | fuel + 1, s =>
    let market_ask_head := s.market_ask_head
    let bid_head := s.bid_head
    if market_ask_head = 0 ∨ bid_head = 0 then s
    else
      let bid_key := get_price_level_key bid_head false
      match Tbl.lookup s.price_levels bid_key with
      | none => s
      | some level =>
        if level.head_order_id = 0 then s
        else
          let r := execute_market_trade s market_ask_head level.head_order_id true
          if r.2 then match_market_ask_loop fuel r.1 else r.1

/-- Mirror of `match_market_orders_internal`: the two loops share one
iteration counter bounded by `max_iterations`. -/
def match_market_orders_internal (max_iterations : Nat) (s : OrderBookSimulator) :
    OrderBookSimulator :=
  let r := match_market_bid_loop max_iterations s
  match_market_ask_loop r.2 r.1

/-- Mirror of `try_match_after_insertion`: limit-vs-limit matching, then
market-vs-limit matching, both with `max_iterations = 50`. -/
def try_match_after_insertion (s : OrderBookSimulator) : OrderBookSimulator :=
  match_market_orders_internal 50 (match_orders_internal 50 s)

/-- Mirror of `simulate_insert_order`: returns the mutated state together
with the `insertAfterPrice` hint the source returns. -/
def simulate_insert_order (s : OrderBookSimulator) (order_id price amount : Nat)
    (is_ask : Bool) : OrderBookSimulator × Nat :=
  let insert_after_price := find_insert_position s price is_ask
  let s1 := find_or_create_price_level s price is_ask insert_after_price
  let order : SimOrder := ⟨order_id, amount, 0, false, price, 0, 0⟩
  let s2 := { s1 with orders := Tbl.insert s1.orders order_id order }
  let s3 := insert_order_into_price_level s2 price order_id 0 is_ask
  let s4 := try_match_after_insertion s3
  (s4, insert_after_price)

/-- Mirror of `simulate_remove_order`. -/
def simulate_remove_order (s : OrderBookSimulator) (order_id : Nat) (is_ask : Bool) :
    OrderBookSimulator × Bool :=
  match Tbl.lookup s.orders order_id with
  | none => (s, false)
  | some order0 =>
    let price_level_id := order0.price_level
    let s1 := remove_order_from_price_level s price_level_id order_id is_ask
    let level_key := get_price_level_key price_level_id is_ask
    let should_remove_level := match Tbl.lookup s1.price_levels level_key with
      | some level => decide (level.head_order_id = 0)
      | none => false
    let s2 := if should_remove_level then remove_price_level s1 price_level_id is_ask else s1
    ({ s2 with orders := Tbl.erase s2.orders order_id }, true)

/-- Mirror of `insert_market_order_at_tail`. -/
def insert_market_order_at_tail (s : OrderBookSimulator) (order_id : Nat) (is_ask : Bool) :
    OrderBookSimulator :=
  let old_tail := if is_ask then s.market_ask_tail else s.market_bid_tail
  if old_tail = 0 then
    if is_ask then { s with market_ask_head := order_id, market_ask_tail := order_id }
    else { s with market_bid_head := order_id, market_bid_tail := order_id }
  else
    let s1 := { s with orders := (Tbl.modify s.orders old_tail
                  (fun o => { o with next_order_id := order_id })) }
    let s2 := { s1 with orders := (Tbl.modify s1.orders order_id
                  (fun o => { o with prev_order_id := old_tail })) }
    if is_ask then { s2 with market_ask_tail := order_id }
    else { s2 with market_bid_tail := order_id }

/-- Mirror of `simulate_insert_market_order`. -/
def simulate_insert_market_order (s : OrderBookSimulator) (order_id amount : Nat)
    (is_ask : Bool) : OrderBookSimulator :=
  let order : SimOrder := ⟨order_id, amount, 0, true, 0, 0, 0⟩
  let s1 := { s with orders := Tbl.insert s.orders order_id order }
  let s2 := insert_market_order_at_tail s1 order_id is_ask
  try_match_after_insertion s2

/-- Walk loop of `get_price_levels`, with explicit fuel. -/
def get_price_levels_go (s : OrderBookSimulator) (is_ask : Bool) :
    Nat → Nat → List Nat
  | 0, _ => []
  | fuel + 1, current =>
    if current = 0 then []
    else
      current :: (match Tbl.lookup s.price_levels (get_price_level_key current is_ask) with
        | some level => get_price_levels_go s is_ask fuel level.next_price
        | none => [])

/-- Mirror of `get_price_levels`: the prices visited walking a side from
its head via `next_price`. -/
def get_price_levels (s : OrderBookSimulator) (is_ask : Bool) : List Nat :=
  get_price_levels_go s is_ask (s.price_levels.length + 1)
    (if is_ask then s.ask_head else s.bid_head)

/-- Walk loop of `get_orders_at_price`, with explicit fuel. -/
def get_orders_at_price_go (s : OrderBookSimulator) : Nat → Nat → List Nat
  | 0, _ => []
  | fuel + 1, current =>
    if current = 0 then []
    else
      current :: (match Tbl.lookup s.orders current with
        | some order0 => get_orders_at_price_go s fuel order0.next_order_id
        | none => [])

/-- Mirror of `get_orders_at_price`: the order ids linked in the order
list of the level at `(price, is_ask)`. -/
def get_orders_at_price (s : OrderBookSimulator) (price : Nat) (is_ask : Bool) : List Nat :=
  match Tbl.lookup s.price_levels (get_price_level_key price is_ask) with
  | some level => get_orders_at_price_go s (s.orders.length + 1) level.head_order_id
  | none => []

/-- Remaining quantity `amount − filled` of the orders named by a list of
ids (an absent id contributes nothing), used to state volume accounting. -/
def remaining_sum (s : OrderBookSimulator) : List Nat → Nat
  | [] => 0
  | oid :: t =>
    (match Tbl.lookup s.orders oid with
      | some o => o.amount - o.filled_amount
      | none => 0) + remaining_sum s t

end OrderBookSimulator

/-! ## Walk-ordering predicates -/

namespace OrderBookSimulator

/-- Boolean test that a list of prices is strictly ascending. -/
def ascendingB : List Nat → Bool
  | [] => true
  | [_] => true
  | a :: b :: t => decide (a < b) && ascendingB (b :: t)

/-- Boolean test that a list of prices is strictly descending. -/
def descendingB : List Nat → Bool
  | [] => true
  | [_] => true
  | a :: b :: t => decide (b < a) && descendingB (b :: t)

end OrderBookSimulator

/-! ## Basic lemmas about the table embedding -/

namespace Tbl

theorem lookup_erase_ne (l : Tbl α) (k k2 : Nat) (h : k2 ≠ k) :
    lookup (erase l k) k2 = lookup l k2 := by
  induction l with
  | nil => rfl
  | cons p t ih =>
    obtain ⟨k3, v⟩ := p
    by_cases hk : k3 = k
    · subst hk
      simp [erase, lookup, Ne.symm h]
    · by_cases h3 : k3 = k2 <;> simp [erase, lookup, hk, h3, h, ih]

theorem lookup_insert_self (l : Tbl α) (k : Nat) (v : α) :
    lookup (insert l k v) k = some v := by
  simp [insert, lookup]

theorem lookup_insert_ne (l : Tbl α) (k k2 : Nat) (v : α) (h : k2 ≠ k) :
    lookup (insert l k v) k2 = lookup l k2 := by
  simp only [insert, lookup, if_neg (Ne.symm h)]
  exact lookup_erase_ne l k k2 h

theorem lookup_modify (l : Tbl α) (k k2 : Nat) (f : α → α) :
    lookup (modify l k f) k2 =
      if k2 = k then (lookup l k2).map f else lookup l k2 := by
  induction l with
  | nil => simp [modify, lookup]
  | cons p t ih =>
    obtain ⟨k3, v⟩ := p
    simp only [modify]
    by_cases hk : k3 = k
    · rw [if_pos hk]
      by_cases h3 : k3 = k2
      · subst h3
        simp [lookup, hk]
      · simp [lookup, h3, ih]
    · rw [if_neg hk]
      by_cases h3 : k3 = k2
      · subst h3
        simp [lookup, hk]
      · simp [lookup, h3, ih]

theorem lookup_modify_self (l : Tbl α) (k : Nat) (f : α → α) :
    lookup (modify l k f) k = (lookup l k).map f := by
  simp [lookup_modify]

theorem lookup_modify_ne (l : Tbl α) (k k2 : Nat) (f : α → α) (h : k2 ≠ k) :
    lookup (modify l k f) k2 = lookup l k2 := by
  simp [lookup_modify, h]

theorem keys_modify (l : Tbl α) (k : Nat) (f : α → α) :
    keys (modify l k f) = keys l := by
  induction l with
  | nil => rfl
  | cons p t ih =>
    obtain ⟨k3, v⟩ := p
    simp only [modify]
    by_cases hk : k3 = k
    · rw [if_pos hk]
      simp [keys, ih, hk]
    · rw [if_neg hk]
      simp [keys, ih]


theorem length_modify (l : Tbl α) (k : Nat) (f : α → α) :
    (modify l k f).length = l.length := by
  induction l with
  | nil => rfl
  | cons p t ih =>
    obtain ⟨k3, v⟩ := p
    simp only [modify]
    by_cases hk : k3 = k
    · rw [if_pos hk]
      simp [ih]
    · rw [if_neg hk]
      simp [ih]

theorem mem_keys_of_lookup (l : Tbl α) (k : Nat) (e : α) (h : lookup l k = some e) :
    k ∈ keys l := by
  induction l with
  | nil => simp [lookup] at h
  | cons p t ih =>
    obtain ⟨k3, v⟩ := p
    by_cases h3 : k3 = k
    · subst h3; simp [keys]
    · simp only [lookup, if_neg h3] at h
      simp only [keys, List.mem_cons]
      exact Or.inr (ih h)

theorem lookup_eq_none_of_not_mem (l : Tbl α) (k : Nat) (h : k ∉ keys l) :
    lookup l k = none := by
  induction l with
  | nil => rfl
  | cons p t ih =>
    obtain ⟨k3, v⟩ := p
    simp only [keys, List.mem_cons, not_or] at h
    simp only [lookup, if_neg (Ne.symm h.1)]
    exact ih h.2

theorem keys_erase_sublist (l : Tbl α) (k : Nat) :
    List.Sublist (keys (erase l k)) (keys l) := by
  induction l with
  | nil => simp [erase]
  | cons p t ih =>
    obtain ⟨k3, v⟩ := p
    by_cases hk : k3 = k
    · simp only [erase, if_pos hk, keys]
      exact List.sublist_cons_self _ _
    · simp only [erase, if_neg hk, keys]
      exact List.Sublist.cons₂ _ ih

theorem nodup_keys_erase (l : Tbl α) (k : Nat) (h : (keys l).Nodup) :
    (keys (erase l k)).Nodup :=
  h.sublist (keys_erase_sublist l k)

theorem not_mem_keys_erase_self (l : Tbl α) (k : Nat) (h : (keys l).Nodup) :
    k ∉ keys (erase l k) := by
  induction l with
  | nil => simp [erase, keys]
  | cons p t ih =>
    obtain ⟨k3, v⟩ := p
    simp only [keys, List.nodup_cons] at h
    by_cases hk : k3 = k
    · subst hk
      simpa [erase, keys] using h.1
    · simp only [erase, if_neg hk, keys, List.mem_cons, not_or]
      exact ⟨fun h2 => hk h2.symm, ih h.2⟩

theorem nodup_keys_insert (l : Tbl α) (k : Nat) (v : α) (h : (keys l).Nodup) :
    (keys (insert l k v)).Nodup := by
  simp only [insert, keys, List.nodup_cons]
  exact ⟨not_mem_keys_erase_self l k h, nodup_keys_erase l k h⟩

theorem nodup_keys_modify (l : Tbl α) (k : Nat) (f : α → α) (h : (keys l).Nodup) :
    (keys (modify l k f)).Nodup := by
  rw [keys_modify]; exact h

theorem lookup_erase_self (l : Tbl α) (k : Nat) (h : (keys l).Nodup) :
    lookup (erase l k) k = none :=
  lookup_eq_none_of_not_mem _ _ (not_mem_keys_erase_self l k h)

end Tbl

/-! ## Claim C2: the insertion hint is computed against the pre-insertion state -/

namespace OrderBookSimulator

/-- Price of the level at the head of a side (0 when the side is empty or
the head dangles), used to state matching monotonicity. -/
def head_level_price (s : OrderBookSimulator) (is_ask : Bool) : Nat :=
  match Tbl.lookup s.price_levels
      (get_price_level_key (if is_ask then s.ask_head else s.bid_head) is_ask) with
  | some l => l.price
  | none => 0

end OrderBookSimulator

open OrderBookSimulator

/-- C2: `insert_limit_order` returns an `insert_after_price` computed
entirely against the pre-insertion state: the returned hint equals
`find_insert_position` evaluated on the state *before* level creation,
order insertion and matching; when a level with the composite key already
exists the hint is `price` itself, and when the key is fresh and the side
is empty the hint is zero (insert at head).  The walk cases (predecessor
price at the first level with `price ≤ L.price` on asks, `price ≥ L.price`
on bids, tail price on exhaustion) are the definition of
`find_insert_position`, mirrored from the source. -/
theorem C2_hint_precomputed (s : OrderBookSimulator) (order_id price amount : Nat)
    (is_ask : Bool) :
    (simulate_insert_order s order_id price amount is_ask).2 =
      find_insert_position s price is_ask ∧
    (Tbl.contains s.price_levels (get_price_level_key price is_ask) = true →
      find_insert_position s price is_ask = price) ∧
    (Tbl.contains s.price_levels (get_price_level_key price is_ask) = false →
      (if is_ask then s.ask_head else s.bid_head) = 0 →
      find_insert_position s price is_ask = 0) := by
  refine ⟨rfl, ?_, ?_⟩
  · intro h
    simp [find_insert_position, h]
  · intro h h2
    simp [find_insert_position, h, h2]

/-- C2 witness: concrete application of `C2_hint_precomputed`. -/
theorem C2_hint_precomputed_witness :
    Tbl.contains ((simulate_insert_order OrderBookSimulator.new 1 100 10 false).1.price_levels)
        (get_price_level_key 100 false) = true ∧
    find_insert_position (simulate_insert_order OrderBookSimulator.new 1 100 10 false).1
        100 false = 100 :=
  ⟨by decide,
   (C2_hint_precomputed (simulate_insert_order OrderBookSimulator.new 1 100 10 false).1
      2 100 5 false).2.1 (by decide)⟩

/-! ## Claim C3: volume accounting is broken by `simulate_remove_order` -/

/-- State for C3: insert bid order 1 (price 100, amount 10), insert bid
order 2 (price 100, amount 5), then remove order 1. -/
def c3_state : OrderBookSimulator :=
  (simulate_remove_order
    (simulate_insert_order
      (simulate_insert_order OrderBookSimulator.new 1 100 10 false).1 2 100 5 false).1
    1 false).1

/-- C3 (code bug): after removing resting order 1, the level at price 100
still records `total_volume = 15` while the orders linked in its list sum
to a remaining quantity of 5 — `remove_order_from_price_level` never
decrements `total_volume`, so the volume-accounting equation fails. -/
theorem C3_volume_accounting_broken :
    (Tbl.lookup c3_state.price_levels (get_price_level_key 100 false)).map
        SimPriceLevel.total_volume = some 15 ∧
    get_orders_at_price c3_state 100 false = [2] ∧
    remaining_sum c3_state (get_orders_at_price c3_state 100 false) = 5 := by
  decide

/-! ## Claim C4: new limit orders are prepended at the head, not appended at the tail -/

/-- State for C4: two bid orders at the same price 100. -/
def c4_state : OrderBookSimulator :=
  (simulate_insert_order
    (simulate_insert_order OrderBookSimulator.new 1 100 10 false).1 2 100 10 false).1

/-- C4 (code bug): after the second insertion at the same price, the new
order 2 is the level's *head* (order 1 remains the tail, `orders[2].next`
names order 1 and `orders[1].prev` names order 2): `simulate_insert_order`
passes `insert_after_order = 0`, which `insert_order_into_price_level`
treats as a head insertion, contradicting the append-at-tail behaviour the
call site's own comment and the chain-event handler describe. -/
theorem C4_insert_at_head_not_tail :
    (Tbl.lookup c4_state.price_levels (get_price_level_key 100 false)).map
        (fun l => (l.head_order_id, l.tail_order_id)) = some (2, 1) ∧
    (Tbl.lookup c4_state.orders 2).map
        (fun o => (o.next_order_id, o.prev_order_id)) = some (1, 0) ∧
    (Tbl.lookup c4_state.orders 1).map
        (fun o => (o.next_order_id, o.prev_order_id)) = some (0, 2) := by
  decide

/-! ## Claim C5: matching monotonicity -/

/-- State for C5: a zero-amount bid rests at 100, then an ask at 90 is
inserted; the trade amount is zero so the matching loop stops with the
book still crossed. -/
def c5_state : OrderBookSimulator :=
  (simulate_insert_order
    (simulate_insert_order OrderBookSimulator.new 1 100 0 false).1 2 90 10 true).1

/-- C5 counterexample: `c5_state` is reached from the empty simulator by
two `insert_limit_order` calls, yet after the post-insertion matching both
sides are nonempty and the bid head price (100) is not strictly below the
ask head price (90). -/
theorem C5_counterexample :
    ¬ (c5_state.bid_head = 0 ∨ c5_state.ask_head = 0 ∨
       head_level_price c5_state false < head_level_price c5_state true) := by
  decide

/-! ## Claim C6: side ordering of the price-level walks -/

/-- State for C6: a composite-key collision.  An ask at price `2^255 + 5`
is keyed by the price itself, which is also the bid composite key of
price 5; the sequence below exploits the collision to leave the ask-side
walk visiting prices `3, 2^255 + 5, 3, …`. -/
def c6_state : OrderBookSimulator :=
  (simulate_insert_order
    (simulate_insert_order
      (simulate_insert_order
        (simulate_remove_order
          (simulate_remove_order
            (simulate_insert_order
              (simulate_insert_order OrderBookSimulator.new 1 (2 ^ 255 + 5) 10 true).1
              2 5 10 false).1
            1 true).1
          2 false).1
        3 5 0 false).1
      4 3 0 false).1
    5 3 0 true).1

/-- Second failure state for C6: price `0` aliases the list-end
sentinel.  Inserting an ask at price `0` makes the new level the head,
so `ask_head` becomes `0` and the side looks empty; removing the two
orders then resurrects a dangling head pointer to the erased level at
price `5`, and after two further inserts the level at `7` still names
the erased `5` as successor, which the walk revisits. -/
def c6z_state : OrderBookSimulator :=
  (simulate_insert_order
    (simulate_insert_order
      (simulate_remove_order
        (simulate_remove_order
          (simulate_insert_order
            (simulate_insert_order OrderBookSimulator.new 1 5 10 true).1
            2 0 10 true).1
          1 true).1
        2 true).1
      3 3 10 true).1
    4 7 10 true).1

/-- C6 counterexample: both failure states are reached from the empty
simulator by `insert_limit_order` and `remove_order` operations only,
yet walking the ask side from `ask_head` via `next_price` visits the
prices `[3, 2^255 + 5, 3, 2^255 + 5]` (composite-key collision at
`2^255 + 5`) respectively `[3, 7, 5]` (sentinel aliasing at price `0`)
— neither strictly ascending. -/
theorem C6_counterexample :
    (get_price_levels c6_state true = [3, 2 ^ 255 + 5, 3, 2 ^ 255 + 5] ∧
      ascendingB (get_price_levels c6_state true) = false) ∧
    (get_price_levels c6z_state true = [3, 7, 5] ∧
      ascendingB (get_price_levels c6z_state true) = false) := by
  decide

/-! ## Amended matching-monotonicity: exit characterization of the limit loop -/

namespace OrderBookSimulator

/-- Stop condition of the limit-vs-limit matching loop, mirroring its
break branches: a side empty, a head level missing from the table, bid
head price below ask head price, a zero head-order id, or a trade
execution that reports no trade. -/
def match_stop (s : OrderBookSimulator) : Bool :=
  decide (s.bid_head = 0) || decide (s.ask_head = 0) ||
  (match Tbl.lookup s.price_levels (get_price_level_key s.bid_head false) with
   | none => true
   | some bid_level =>
     match Tbl.lookup s.price_levels (get_price_level_key s.ask_head true) with
     | none => true
     | some ask_level =>
       decide (bid_level.price < ask_level.price) ||
       decide (bid_level.head_order_id = 0) || decide (ask_level.head_order_id = 0) ||
       ! (execute_trade s bid_level.head_order_id ask_level.head_order_id).2)

/-- One forced iteration of the limit matching loop: trade between the
two head orders (identity when a head level is missing). -/
def match_step (s : OrderBookSimulator) : OrderBookSimulator :=
  match Tbl.lookup s.price_levels (get_price_level_key s.bid_head false) with
  | none => s
  | some bid_level =>
    match Tbl.lookup s.price_levels (get_price_level_key s.ask_head true) with
    | none => s
    | some ask_level =>
      (execute_trade s bid_level.head_order_id ask_level.head_order_id).1

/-- Iterated forced matching steps. -/
def iterate_match_step : Nat → OrderBookSimulator → OrderBookSimulator
  | 0, s => s
  | n + 1, s => iterate_match_step n (match_step s)

/-- A trade execution that returns `false` leaves the state unchanged. -/
theorem execute_trade_no_trade (s : OrderBookSimulator) (b a : Nat)
    (h : (execute_trade s b a).2 = false) : (execute_trade s b a).1 = s := by
  unfold execute_trade at *
  cases hb : Tbl.lookup s.orders b with
  | none => simp [hb]
  | some bo =>
    cases ha : Tbl.lookup s.orders a with
    | none => simp [hb, ha]
    | some ao =>
      simp only [hb, ha] at h ⊢
      by_cases ht : min (bo.amount - bo.filled_amount) (ao.amount - ao.filled_amount) = 0
      · simp [ht]
      · simp [ht] at h

end OrderBookSimulator

/-- C5 amended: when the limit-vs-limit matching loop returns, either its
stop condition holds at the final state — a side is empty, a head level is
missing, the bid head price is strictly below the ask head price, a head
order id is zero, or the head orders cannot trade — or the loop consumed
its entire iteration budget, performing one head-to-head trade per
iteration. -/
theorem C5_amended_match_loop_exit (fuel : Nat) (s : OrderBookSimulator) :
    match_stop (match_orders_internal fuel s) = true ∨
    match_orders_internal fuel s = iterate_match_step fuel s := by
  induction fuel generalizing s with
  | zero => exact Or.inr rfl
  | succ n ih =>
    by_cases h1 : s.bid_head = 0 ∨ s.ask_head = 0
    · left
      have hM : match_orders_internal (n + 1) s = s := by
        unfold match_orders_internal
        rw [if_pos h1]
      rw [hM]
      rcases h1 with h1 | h1 <;> simp [match_stop, h1]
    · have hcond := h1
      push_neg at h1
      obtain ⟨hb, ha⟩ := h1
      cases hbl : Tbl.lookup s.price_levels (get_price_level_key s.bid_head false) with
      | none =>
        left
        have hM : match_orders_internal (n + 1) s = s := by
          unfold match_orders_internal
          simp only [if_neg hcond, hbl]
        rw [hM]
        simp [match_stop, hb, ha, hbl]
      | some bid_level =>
        cases hal : Tbl.lookup s.price_levels (get_price_level_key s.ask_head true) with
        | none =>
          left
          have hM : match_orders_internal (n + 1) s = s := by
            unfold match_orders_internal
            simp only [if_neg hcond, hbl, hal]
          rw [hM]
          simp [match_stop, hb, ha, hbl, hal]
        | some ask_level =>
          by_cases hlt : bid_level.price < ask_level.price
          · left
            have hM : match_orders_internal (n + 1) s = s := by
              unfold match_orders_internal
              simp only [if_neg hcond, hbl, hal]
              simp [hlt]
            rw [hM]
            simp [match_stop, hb, ha, hbl, hal, hlt]
          · by_cases hho : bid_level.head_order_id = 0 ∨ ask_level.head_order_id = 0
            · left
              have hM : match_orders_internal (n + 1) s = s := by
                unfold match_orders_internal
                simp only [if_neg hcond, hbl, hal]
                simp [hlt, hho]
              rw [hM]
              rcases hho with hho | hho <;>
                simp [match_stop, hb, ha, hbl, hal, hlt, hho]
            · cases hr : (execute_trade s bid_level.head_order_id ask_level.head_order_id).2 with
              | false =>
                left
                have hM : match_orders_internal (n + 1) s = s := by
                  unfold match_orders_internal
                  simp only [if_neg hcond, hbl, hal]
                  simp [hlt, hho, hr, execute_trade_no_trade s _ _ hr]
                rw [hM]
                simp [match_stop, hb, ha, hbl, hal, hlt, hho, hr]
              | true =>
                have hM : match_orders_internal (n + 1) s =
                    match_orders_internal n
                      (execute_trade s bid_level.head_order_id ask_level.head_order_id).1 := by
                  simp only [match_orders_internal, if_neg hcond, hbl, hal]
                  simp [hlt, hho, hr]
                have hstep : match_step s =
                    (execute_trade s bid_level.head_order_id ask_level.head_order_id).1 := by
                  unfold match_step
                  rw [hbl, hal]
                rw [hM]
                rcases ih (execute_trade s bid_level.head_order_id ask_level.head_order_id).1 with
                  h | h
                · exact Or.inl h
                · right
                  rw [h]
                  show _ = iterate_match_step n (match_step s)
                  rw [hstep]

/-! ## Helper lemmas on the removal functions -/

namespace OrderBookSimulator

/-- A `modify` that preserves `total_volume` preserves the volume seen by
any lookup. -/
theorem lookup_map_vol_modify (tbl : Tbl SimPriceLevel) (k k2 : Nat)
    (f : SimPriceLevel → SimPriceLevel) (hf : ∀ l, (f l).total_volume = l.total_volume) :
    (Tbl.lookup (Tbl.modify tbl k f) k2).map SimPriceLevel.total_volume =
      (Tbl.lookup tbl k2).map SimPriceLevel.total_volume := by
  by_cases h : k2 = k
  · subst h
    rw [Tbl.lookup_modify_self]
    cases Tbl.lookup tbl k2 with
    | none => rfl
    | some l => simp [hf]
  · rw [Tbl.lookup_modify_ne _ _ _ _ h]

/-- `remove_price_level` never touches the orders table. -/
theorem remove_price_level_orders (s : OrderBookSimulator) (p : Nat) (ia : Bool) :
    (remove_price_level s p ia).orders = s.orders := by
  unfold remove_price_level
  simp only []
  cases Tbl.lookup s.price_levels (get_price_level_key p ia) with
  | none => rfl
  | some level =>
    simp only []
    split_ifs <;> rfl

/-- `remove_order_from_price_level` never changes the set of order keys. -/
theorem remove_order_from_price_level_orders_keys (s : OrderBookSimulator) (p oid : Nat)
    (ia : Bool) :
    Tbl.keys (remove_order_from_price_level s p oid ia).orders = Tbl.keys s.orders := by
  unfold remove_order_from_price_level
  simp only []
  cases Tbl.lookup s.orders oid with
  | none => rfl
  | some o =>
    simp only []
    split_ifs <;> simp [Tbl.keys_modify]

/-- `remove_order_from_price_level` leaves every order other than the
removed one's neighbours untouched. -/
theorem remove_order_from_price_level_lookup_other (s : OrderBookSimulator) (p oid k : Nat)
    (ia : Bool) (o : SimOrder) (ho : Tbl.lookup s.orders oid = some o)
    (hp : o.prev_order_id ≠ k) (hn : o.next_order_id ≠ k) :
    Tbl.lookup (remove_order_from_price_level s p oid ia).orders k =
      Tbl.lookup s.orders k := by
  unfold remove_order_from_price_level
  rw [ho]
  simp only []
  split_ifs <;>
    simp [Tbl.lookup_modify_ne _ _ _ _ (Ne.symm hp), Tbl.lookup_modify_ne _ _ _ _ (Ne.symm hn)]

/-- `remove_order_from_price_level` preserves every level's volume. -/
theorem remove_order_from_price_level_vol (s : OrderBookSimulator) (p oid k : Nat)
    (ia : Bool) :
    (Tbl.lookup (remove_order_from_price_level s p oid ia).price_levels k).map
        SimPriceLevel.total_volume =
      (Tbl.lookup s.price_levels k).map SimPriceLevel.total_volume := by
  unfold remove_order_from_price_level
  simp only []
  cases Tbl.lookup s.orders oid with
  | none => rfl
  | some o =>
    simp only []
    split_ifs <;> simp [lookup_map_vol_modify]

/-- `remove_price_level` preserves the volume of every level other than
the removed one. -/
theorem remove_price_level_vol_ne (s : OrderBookSimulator) (p k : Nat) (ia : Bool)
    (hk : k ≠ get_price_level_key p ia) :
    (Tbl.lookup (remove_price_level s p ia).price_levels k).map SimPriceLevel.total_volume =
      (Tbl.lookup s.price_levels k).map SimPriceLevel.total_volume := by
  unfold remove_price_level
  simp only []
  cases Tbl.lookup s.price_levels (get_price_level_key p ia) with
  | none => rfl
  | some level =>
    simp only []
    split_ifs <;>
      simp [lookup_map_vol_modify, Tbl.lookup_erase_ne _ _ _ hk]

/-- After `remove_filled_order` the removed order is gone from the table
(given distinct keys in the orders table). -/
theorem remove_filled_order_self (s : OrderBookSimulator) (oid : Nat) (ia : Bool)
    (o : SimOrder) (ho : Tbl.lookup s.orders oid = some o)
    (hnd : (Tbl.keys s.orders).Nodup) :
    Tbl.lookup (remove_filled_order s oid ia).orders oid = none := by
  unfold remove_filled_order
  rw [ho]
  simp only []
  have hkeys : Tbl.keys (remove_order_from_price_level s o.price_level oid ia).orders =
      Tbl.keys s.orders := remove_order_from_price_level_orders_keys _ _ _ _
  split
  · rw [remove_price_level_orders]
    apply Tbl.lookup_erase_self
    rw [hkeys]; exact hnd
  · apply Tbl.lookup_erase_self
    rw [hkeys]; exact hnd

/-- `remove_filled_order` leaves every order other than the removed one
and its neighbours untouched. -/
theorem remove_filled_order_lookup_other (s : OrderBookSimulator) (oid k : Nat) (ia : Bool)
    (o : SimOrder) (ho : Tbl.lookup s.orders oid = some o) (hk : k ≠ oid)
    (hp : o.prev_order_id ≠ k) (hn : o.next_order_id ≠ k) :
    Tbl.lookup (remove_filled_order s oid ia).orders k = Tbl.lookup s.orders k := by
  unfold remove_filled_order
  rw [ho]
  simp only []
  have hother := remove_order_from_price_level_lookup_other s o.price_level oid k ia o ho hp hn
  split
  · rw [remove_price_level_orders, Tbl.lookup_erase_ne _ _ _ hk, hother]
  · rw [Tbl.lookup_erase_ne _ _ _ hk, hother]

/-- `remove_filled_order` preserves the volume of every level other than
the removed order's level. -/
theorem remove_filled_order_vol_ne (s : OrderBookSimulator) (oid k : Nat) (ia : Bool)
    (o : SimOrder) (ho : Tbl.lookup s.orders oid = some o)
    (hk : k ≠ get_price_level_key o.price_level ia) :
    (Tbl.lookup (remove_filled_order s oid ia).price_levels k).map
        SimPriceLevel.total_volume =
      (Tbl.lookup s.price_levels k).map SimPriceLevel.total_volume := by
  unfold remove_filled_order
  rw [ho]
  simp only []
  split
  · rw [remove_price_level_vol_ne _ _ _ _ hk, remove_order_from_price_level_vol]
  · rw [remove_order_from_price_level_vol]

/-- `remove_filled_order` keeps the orders-table keys duplicate-free. -/
theorem remove_filled_order_keys_nodup (s : OrderBookSimulator) (oid : Nat) (ia : Bool)
    (h : (Tbl.keys s.orders).Nodup) :
    (Tbl.keys (remove_filled_order s oid ia).orders).Nodup := by
  unfold remove_filled_order
  cases ho : Tbl.lookup s.orders oid with
  | none => exact h
  | some o =>
    simp only []
    have hkeys : Tbl.keys (remove_order_from_price_level s o.price_level oid ia).orders =
        Tbl.keys s.orders := remove_order_from_price_level_orders_keys _ _ _ _
    split
    · rw [remove_price_level_orders]
      apply Tbl.nodup_keys_erase
      rw [hkeys]; exact h
    · apply Tbl.nodup_keys_erase
      rw [hkeys]; exact h

end OrderBookSimulator

/-! ## Claim C7: single trade execution -/

/-- State for C7's concrete scenario S4: a full cross at the same price. -/
def c7_state : OrderBookSimulator :=
  (simulate_insert_order
    (simulate_insert_order OrderBookSimulator.new 1 100 10 false).1 2 100 10 true).1

/-- C7: a single trade execution between the bid and ask head orders
computes `trade = min(bid remaining, ask remaining)`; a zero trade leaves
the state unchanged and returns `false` (signalling loop termination); a
positive trade returns `true`, increments both orders' `filled_amount` by
`trade` (the order surviving exactly when it is not fully filled),
decrements both containing levels' `total_volume` by `trade` with
saturation at zero (`Nat` subtraction), and removes an order reaching
`filled_amount = amount` from the orders table; consequently after
`insert(1, 100, 10, bid)` and `insert(2, 100, 10, ask)` both orders and
both price levels are gone and both sides are empty. -/
theorem C7_execute_trade_spec (s : OrderBookSimulator) (bid_id ask_id : Nat)
    (bo ao : SimOrder) (lb la : SimPriceLevel) (trade : Nat)
    (hb : Tbl.lookup s.orders bid_id = some bo)
    (ha : Tbl.lookup s.orders ask_id = some ao)
    (hne : bid_id ≠ ask_id)
    (hkey : get_price_level_key bo.price_level false ≠ get_price_level_key ao.price_level true)
    (hlb : Tbl.lookup s.price_levels (get_price_level_key bo.price_level false) = some lb)
    (hla : Tbl.lookup s.price_levels (get_price_level_key ao.price_level true) = some la)
    (hap : ao.prev_order_id ≠ bid_id) (han : ao.next_order_id ≠ bid_id)
    (hbp : bo.prev_order_id ≠ ask_id) (hbn : bo.next_order_id ≠ ask_id)
    (hnd : (Tbl.keys s.orders).Nodup)
    (htrade : trade = min (bo.amount - bo.filled_amount) (ao.amount - ao.filled_amount)) :
    (trade = 0 → execute_trade s bid_id ask_id = (s, false)) ∧
    (trade ≠ 0 → (execute_trade s bid_id ask_id).2 = true ∧
      (bo.filled_amount + trade < bo.amount →
        Tbl.lookup (execute_trade s bid_id ask_id).1.orders bid_id =
          some { bo with filled_amount := bo.filled_amount + trade } ∧
        (Tbl.lookup (execute_trade s bid_id ask_id).1.price_levels
            (get_price_level_key bo.price_level false)).map SimPriceLevel.total_volume =
          some (lb.total_volume - trade)) ∧
      (bo.amount ≤ bo.filled_amount + trade →
        Tbl.lookup (execute_trade s bid_id ask_id).1.orders bid_id = none) ∧
      (ao.filled_amount + trade < ao.amount →
        Tbl.lookup (execute_trade s bid_id ask_id).1.orders ask_id =
          some { ao with filled_amount := ao.filled_amount + trade } ∧
        (Tbl.lookup (execute_trade s bid_id ask_id).1.price_levels
            (get_price_level_key ao.price_level true)).map SimPriceLevel.total_volume =
          some (la.total_volume - trade)) ∧
      (ao.amount ≤ ao.filled_amount + trade →
        Tbl.lookup (execute_trade s bid_id ask_id).1.orders ask_id = none)) ∧
    (c7_state.orders = [] ∧ c7_state.price_levels = [] ∧
      c7_state.bid_head = 0 ∧ c7_state.ask_head = 0) := by
  have hbneq : ask_id ≠ bid_id := Ne.symm hne
  refine ⟨?_, ?_, by decide, by decide, by decide, by decide⟩
  · intro h0
    rw [htrade] at h0
    unfold execute_trade
    simp only [hb, ha]
    simp [h0]
  · intro hpos
    have hmin := htrade.symm
    unfold execute_trade
    simp only [hb, ha]
    rw [hmin]
    simp only [if_neg hpos]
    set fB : SimOrder → SimOrder :=
      fun o => { o with filled_amount := o.filled_amount + trade } with hfB
    set gL : SimPriceLevel → SimPriceLevel :=
      fun l => { l with total_volume := l.total_volume - trade } with hgL
    set bk := get_price_level_key bo.price_level false with hbk
    set ak := get_price_level_key ao.price_level true with hak
    set O4 := Tbl.modify (Tbl.modify s.orders bid_id fB) ask_id fB with hO4
    set L4 := Tbl.modify (Tbl.modify s.price_levels bk gL) ak gL with hL4
    set s4 : OrderBookSimulator := { s with price_levels := L4, orders := O4 } with hs4
    have hO4bid : Tbl.lookup O4 bid_id = some (fB bo) := by
      rw [hO4, Tbl.lookup_modify_ne _ _ _ _ hne, Tbl.lookup_modify_self, hb]; rfl
    have hO4ask : Tbl.lookup O4 ask_id = some (fB ao) := by
      rw [hO4, Tbl.lookup_modify_self, Tbl.lookup_modify_ne _ _ _ _ hbneq, ha]; rfl
    have hndO4 : (Tbl.keys O4).Nodup := by
      rw [hO4, Tbl.keys_modify, Tbl.keys_modify]; exact hnd
    have hL4bk : (Tbl.lookup L4 bk).map SimPriceLevel.total_volume =
        some (lb.total_volume - trade) := by
      rw [hL4, Tbl.lookup_modify_ne _ _ _ _ hkey, Tbl.lookup_modify_self, hlb]; rfl
    have hL4ak : (Tbl.lookup L4 ak).map SimPriceLevel.total_volume =
        some (la.total_volume - trade) := by
      rw [hL4, Tbl.lookup_modify_self, Tbl.lookup_modify_ne _ _ _ _ (Ne.symm hkey), hla]; rfl
    have hfB_amount : ∀ o : SimOrder, (fB o).amount = o.amount := fun _ => rfl
    have hfB_filled : ∀ o : SimOrder, (fB o).filled_amount = o.filled_amount + trade :=
      fun _ => rfl
    have hs4o : s4.orders = O4 := rfl
    have hs4pl : s4.price_levels = L4 := rfl
    simp only [hO4bid, hfB_amount, hfB_filled, decide_eq_true_eq]
    by_cases hbf : bo.amount ≤ bo.filled_amount + trade
    · rw [if_pos hbf]
      have hs5ask : Tbl.lookup (remove_filled_order s4 bid_id false).orders ask_id =
          some (fB ao) := by
        have h2 := remove_filled_order_lookup_other s4 bid_id ask_id false (fB bo)
          (by rw [hs4o]; exact hO4bid) hbneq hbp hbn
        rw [h2, hs4o]; exact hO4ask
      have hs5bid : Tbl.lookup (remove_filled_order s4 bid_id false).orders bid_id = none :=
        remove_filled_order_self s4 bid_id false (fB bo) (by rw [hs4o]; exact hO4bid)
          (by rw [hs4o]; exact hndO4)
      have hs5nd : (Tbl.keys (remove_filled_order s4 bid_id false).orders).Nodup :=
        remove_filled_order_keys_nodup s4 bid_id false (by rw [hs4o]; exact hndO4)
      have hs5vol_ak : (Tbl.lookup (remove_filled_order s4 bid_id false).price_levels ak).map
          SimPriceLevel.total_volume = some (la.total_volume - trade) := by
        have h2 := remove_filled_order_vol_ne s4 bid_id ak false (fB bo)
          (by rw [hs4o]; exact hO4bid) (Ne.symm hkey)
        rw [h2, hs4pl]; exact hL4ak
      simp only [hs5ask, hfB_amount, hfB_filled, decide_eq_true_eq]
      by_cases haf : ao.amount ≤ ao.filled_amount + trade
      · rw [if_pos haf]
        refine ⟨trivial, ?_, ?_, ?_, ?_⟩
        · intro h1; exact absurd hbf (Nat.not_le.mpr h1)
        · intro _
          have h2 := remove_filled_order_lookup_other
            (remove_filled_order s4 bid_id false) ask_id bid_id true (fB ao) hs5ask hne hap han
          rw [h2]; exact hs5bid
        · intro h1; exact absurd haf (Nat.not_le.mpr h1)
        · intro _
          exact remove_filled_order_self (remove_filled_order s4 bid_id false) ask_id true
            (fB ao) hs5ask hs5nd
      · rw [if_neg haf]
        refine ⟨trivial, ?_, ?_, ?_, ?_⟩
        · intro h1; exact absurd hbf (Nat.not_le.mpr h1)
        · intro _; exact hs5bid
        · intro _; exact ⟨hs5ask, hs5vol_ak⟩
        · intro h1; exact absurd h1 haf
    · rw [if_neg hbf]
      simp only [hO4ask, hfB_amount, hfB_filled, decide_eq_true_eq]
      by_cases haf : ao.amount ≤ ao.filled_amount + trade
      · rw [if_pos haf]
        refine ⟨trivial, ?_, ?_, ?_, ?_⟩
        · intro _
          constructor
          · have h2 := remove_filled_order_lookup_other s4 ask_id bid_id true (fB ao)
              (by rw [hs4o]; exact hO4ask) hne hap han
            rw [h2, hs4o]; exact hO4bid
          · have h2 := remove_filled_order_vol_ne s4 ask_id bk true (fB ao)
              (by rw [hs4o]; exact hO4ask) hkey
            rw [h2, hs4pl]; exact hL4bk
        · intro h1; exact absurd h1 hbf
        · intro h1; exact absurd haf (Nat.not_le.mpr h1)
        · intro _
          exact remove_filled_order_self s4 ask_id true (fB ao)
            (by rw [hs4o]; exact hO4ask) (by rw [hs4o]; exact hndO4)
      · rw [if_neg haf]
        refine ⟨trivial, ?_, ?_, ?_, ?_⟩
        · intro _
          refine ⟨?_, ?_⟩
          · rw [hs4o]; exact hO4bid
          · rw [hs4pl]; exact hL4bk
        · intro h1; exact absurd h1 hbf
        · intro _
          refine ⟨?_, ?_⟩
          · rw [hs4o]; exact hO4ask
          · rw [hs4pl]; exact hL4ak
        · intro h1; exact absurd h1 haf

/-- Concrete state for the C7 witness: a resting bid (id 1, price 100,
amount 10) and a resting ask (id 2, price 90, amount 4). -/
def c7w_state : OrderBookSimulator :=
  { ask_head := 90, ask_tail := 90, bid_head := 100, bid_tail := 100,
    market_ask_head := 0, market_ask_tail := 0, market_bid_head := 0, market_bid_tail := 0,
    price_levels :=
      [(get_price_level_key 90 true, ⟨90, 4, 2, 2, 0, 0⟩),
       (get_price_level_key 100 false, ⟨100, 10, 1, 1, 0, 0⟩)],
    orders := [(1, ⟨1, 10, 0, false, 100, 0, 0⟩), (2, ⟨2, 4, 0, false, 90, 0, 0⟩)] }

/-- C7 witness: concrete application of `C7_execute_trade_spec`. -/
theorem C7_execute_trade_spec_witness :
    (execute_trade c7w_state 1 2).2 = true ∧
    Tbl.lookup (execute_trade c7w_state 1 2).1.orders 1 =
      some ⟨1, 10, 4, false, 100, 0, 0⟩ ∧
    Tbl.lookup (execute_trade c7w_state 1 2).1.orders 2 = none ∧
    (Tbl.lookup (execute_trade c7w_state 1 2).1.price_levels
        (get_price_level_key 100 false)).map SimPriceLevel.total_volume = some 6 := by
  have h := C7_execute_trade_spec c7w_state 1 2
    ⟨1, 10, 0, false, 100, 0, 0⟩ ⟨2, 4, 0, false, 90, 0, 0⟩
    ⟨100, 10, 1, 1, 0, 0⟩ ⟨90, 4, 2, 2, 0, 0⟩ 4
    (by decide) (by decide) (by decide) (by decide) (by decide) (by decide)
    (by decide) (by decide) (by decide) (by decide) (by decide) (by decide)
  have h2 := h.2.1 (by decide)
  exact ⟨h2.1, (h2.2.1 (by decide)).1, h2.2.2.2.2 (by decide), (h2.2.1 (by decide)).2⟩

/-! ## Effect lemmas for the insertion pipeline -/

namespace OrderBookSimulator

/-- A `modify` that preserves a projection preserves that projection seen
by any lookup. -/
theorem lookup_map_modify {β : Type} (tbl : Tbl SimPriceLevel) (k k2 : Nat)
    (f : SimPriceLevel → SimPriceLevel) (g : SimPriceLevel → β)
    (hf : ∀ l, g (f l) = g l) :
    (Tbl.lookup (Tbl.modify tbl k f) k2).map g = (Tbl.lookup tbl k2).map g := by
  by_cases h : k2 = k
  · subst h
    rw [Tbl.lookup_modify_self]
    cases Tbl.lookup tbl k2 with
    | none => rfl
    | some l => simp [hf]
  · rw [Tbl.lookup_modify_ne _ _ _ _ h]

/-- Observation of a level ignored by list splicing: volume and the order
list bounds. -/
def lvl_obs (l : SimPriceLevel) : Nat × Nat × Nat :=
  (l.total_volume, l.head_order_id, l.tail_order_id)

/-- `insert_price_level_into_list` never touches the orders table. -/
theorem insert_price_level_into_list_orders (s : OrderBookSimulator) (p : Nat) (ia : Bool)
    (a : Nat) : (insert_price_level_into_list s p ia a).orders = s.orders := by
  unfold insert_price_level_into_list
  simp only []
  split_ifs <;> rfl

/-- `insert_price_level_into_list` preserves every level's volume and
order-list bounds. -/
theorem insert_price_level_into_list_obs (s : OrderBookSimulator) (p : Nat) (ia : Bool)
    (a k : Nat) :
    (Tbl.lookup (insert_price_level_into_list s p ia a).price_levels k).map lvl_obs =
      (Tbl.lookup s.price_levels k).map lvl_obs := by
  unfold insert_price_level_into_list
  simp only []
  split_ifs <;>
    simp [lookup_map_modify, lvl_obs]

/-- `insert_price_level_into_list` on the bid side leaves the ask head and
both market queues alone. -/
theorem insert_price_level_into_list_bid_heads (s : OrderBookSimulator) (p a : Nat) :
    (insert_price_level_into_list s p false a).ask_head = s.ask_head ∧
    (insert_price_level_into_list s p false a).market_ask_head = s.market_ask_head ∧
    (insert_price_level_into_list s p false a).market_bid_head = s.market_bid_head ∧
    (insert_price_level_into_list s p false a).market_bid_tail = s.market_bid_tail := by
  unfold insert_price_level_into_list
  simp only []
  split_ifs <;> simp_all

/-- `find_or_create_price_level` never touches the orders table. -/
theorem find_or_create_price_level_orders (s : OrderBookSimulator) (p : Nat) (ia : Bool)
    (a : Nat) : (find_or_create_price_level s p ia a).orders = s.orders := by
  unfold find_or_create_price_level
  simp only []
  split_ifs
  · rfl
  · rw [insert_price_level_into_list_orders]

/-- The level table of `find_or_create_price_level` on a fresh key, as
seen through `lvl_obs`: the new level is empty, the others keep their
observation. -/
theorem find_or_create_price_level_obs (s : OrderBookSimulator) (p : Nat) (ia : Bool)
    (a : Nat) (hfresh : Tbl.lookup s.price_levels (get_price_level_key p ia) = none) :
    (Tbl.lookup (find_or_create_price_level s p ia a).price_levels
        (get_price_level_key p ia)).map lvl_obs = some (0, 0, 0) ∧
    (∀ k, k ≠ get_price_level_key p ia →
      (Tbl.lookup (find_or_create_price_level s p ia a).price_levels k).map lvl_obs =
        (Tbl.lookup s.price_levels k).map lvl_obs) := by
  unfold find_or_create_price_level
  simp only []
  have hc : Tbl.contains s.price_levels (get_price_level_key p ia) = false := by
    simp [Tbl.contains, hfresh]
  rw [if_neg (by simp [hc])]
  constructor
  · rw [insert_price_level_into_list_obs]
    simp [Tbl.lookup_insert_self, lvl_obs]
  · intro k hk
    rw [insert_price_level_into_list_obs]
    simp [Tbl.lookup_insert_ne _ _ _ _ hk]

/-- `find_or_create_price_level` on the bid side leaves the ask head and
both market queues alone. -/
theorem find_or_create_price_level_bid_heads (s : OrderBookSimulator) (p a : Nat) :
    (find_or_create_price_level s p false a).ask_head = s.ask_head ∧
    (find_or_create_price_level s p false a).market_ask_head = s.market_ask_head ∧
    (find_or_create_price_level s p false a).market_bid_head = s.market_bid_head ∧
    (find_or_create_price_level s p false a).market_bid_tail = s.market_bid_tail := by
  unfold find_or_create_price_level
  simp only []
  split_ifs
  · exact ⟨rfl, rfl, rfl, rfl⟩
  · exact insert_price_level_into_list_bid_heads _ _ _

/-- The matching loop is a no-op when the ask side is empty. -/
theorem match_orders_internal_ask_empty (fuel : Nat) (s : OrderBookSimulator)
    (h : s.ask_head = 0) : match_orders_internal fuel s = s := by
  cases fuel with
  | zero => rfl
  | succ n =>
    unfold match_orders_internal
    rw [if_pos (Or.inr h)]

/-- The market-bid loop is a no-op when the ask side is empty. -/
theorem match_market_bid_loop_ask_empty (fuel : Nat) (s : OrderBookSimulator)
    (h : s.ask_head = 0) : match_market_bid_loop fuel s = (s, fuel) := by
  cases fuel with
  | zero => rfl
  | succ n =>
    unfold match_market_bid_loop
    rw [if_pos (Or.inr h)]

/-- The market-ask loop is a no-op when the market-ask queue is empty. -/
theorem match_market_ask_loop_empty (fuel : Nat) (s : OrderBookSimulator)
    (h : s.market_ask_head = 0) : match_market_ask_loop fuel s = s := by
  cases fuel with
  | zero => rfl
  | succ n =>
    unfold match_market_ask_loop
    rw [if_pos (Or.inl h)]

/-- Post-insertion matching is a no-op when the ask side and the
market-ask queue are empty. -/
theorem try_match_after_insertion_noop (s : OrderBookSimulator)
    (ha : s.ask_head = 0) (hm : s.market_ask_head = 0) :
    try_match_after_insertion s = s := by
  unfold try_match_after_insertion match_market_orders_internal
  rw [match_orders_internal_ask_empty 50 s ha]
  rw [match_market_bid_loop_ask_empty 50 s ha]
  simp only []
  exact match_market_ask_loop_empty 50 s hm

end OrderBookSimulator

namespace OrderBookSimulator

/-- `insert_order_into_price_level` with hint 0 into a level whose order
list is empty: the order becomes head and tail and the volume grows by its
amount; the orders table is untouched. -/
theorem insert_order_into_price_level_empty (s : OrderBookSimulator) (p oid : Nat)
    (ia : Bool) (o : SimOrder) (lvl : SimPriceLevel)
    (ho : Tbl.lookup s.orders oid = some o)
    (hl : Tbl.lookup s.price_levels (get_price_level_key p ia) = some lvl)
    (hh : lvl.head_order_id = 0) :
    (insert_order_into_price_level s p oid 0 ia).orders = s.orders ∧
    (Tbl.lookup (insert_order_into_price_level s p oid 0 ia).price_levels
        (get_price_level_key p ia)).map lvl_obs =
      some (lvl.total_volume + o.amount, oid, oid) ∧
    (∀ k, k ≠ get_price_level_key p ia →
      (Tbl.lookup (insert_order_into_price_level s p oid 0 ia).price_levels k).map lvl_obs =
        (Tbl.lookup s.price_levels k).map lvl_obs) ∧
    (insert_order_into_price_level s p oid 0 ia).ask_head = s.ask_head ∧
    (insert_order_into_price_level s p oid 0 ia).market_ask_head = s.market_ask_head ∧
    (insert_order_into_price_level s p oid 0 ia).market_bid_head = s.market_bid_head ∧
    (insert_order_into_price_level s p oid 0 ia).market_bid_tail = s.market_bid_tail := by
  unfold insert_order_into_price_level
  rw [ho]
  simp only [if_true]
  simp only [hl, hh]
  rw [if_neg (by simp)]
  refine ⟨rfl, ?_, ?_, rfl, rfl, rfl, rfl⟩
  · rw [Tbl.lookup_modify_self, Tbl.lookup_modify_self, Tbl.lookup_modify_self, hl]
    simp [lvl_obs]
  · intro k hk
    rw [Tbl.lookup_modify_ne _ _ _ _ hk, Tbl.lookup_modify_ne _ _ _ _ hk,
        Tbl.lookup_modify_ne _ _ _ _ hk]
end OrderBookSimulator

namespace OrderBookSimulator

/-- `insert_order_into_price_level` never changes any list head pointer of
the book. -/
theorem insert_order_into_price_level_heads (s : OrderBookSimulator) (p oid iao : Nat)
    (ia : Bool) :
    (insert_order_into_price_level s p oid iao ia).ask_head = s.ask_head ∧
    (insert_order_into_price_level s p oid iao ia).market_ask_head = s.market_ask_head := by
  unfold insert_order_into_price_level
  cases Tbl.lookup s.orders oid with
  | none => exact ⟨rfl, rfl⟩
  | some o =>
    simp only []
    split_ifs <;> exact ⟨rfl, rfl⟩

end OrderBookSimulator

/-! ## Claim C10: duplicate order ids silently overwrite -/

/-- C10: inserting a limit or market order whose `order_id` is already
present in the orders table silently overwrites the stored record with a
fresh one (new amount, `filled_amount` 0, fresh link fields) instead of
rejecting the duplicate or first unlinking the old record: no other order
is touched, and the levels keep their volume and order-list bounds, so
level pointers that named the old record now resolve to the new one.
Stated for a bid limit insertion at a fresh price level and for a market
bid insertion with an empty market queue, both with an empty opposite side
(so that post-insertion matching is a no-op). -/
theorem C10_duplicate_id_overwrites (s : OrderBookSimulator) (oid price amount : Nat)
    (o_old : SimOrder)
    (hdup : Tbl.lookup s.orders oid = some o_old)
    (hfresh : Tbl.lookup s.price_levels (get_price_level_key price false) = none)
    (hask : s.ask_head = 0) (hmask : s.market_ask_head = 0)
    (smkt : OrderBookSimulator) (moid mamount : Nat) (m_old : SimOrder)
    (hdup2 : Tbl.lookup smkt.orders moid = some m_old)
    (hask2 : smkt.ask_head = 0) (hmask2 : smkt.market_ask_head = 0)
    (htail2 : smkt.market_bid_tail = 0) :
    (Tbl.lookup (simulate_insert_order s oid price amount false).1.orders oid =
        some ⟨oid, amount, 0, false, price, 0, 0⟩ ∧
      (∀ k, k ≠ oid →
        Tbl.lookup (simulate_insert_order s oid price amount false).1.orders k =
          Tbl.lookup s.orders k) ∧
      (∀ k, k ≠ get_price_level_key price false →
        (Tbl.lookup (simulate_insert_order s oid price amount false).1.price_levels k).map
            lvl_obs = (Tbl.lookup s.price_levels k).map lvl_obs)) ∧
    (Tbl.lookup (simulate_insert_market_order smkt moid mamount false).orders moid =
        some ⟨moid, mamount, 0, true, 0, 0, 0⟩ ∧
      (∀ k, k ≠ moid →
        Tbl.lookup (simulate_insert_market_order smkt moid mamount false).orders k =
          Tbl.lookup smkt.orders k) ∧
      (simulate_insert_market_order smkt moid mamount false).price_levels =
        smkt.price_levels) := by
  constructor
  · set a := find_insert_position s price false with ha2
    set s1 := find_or_create_price_level s price false a with hs1
    set newo : SimOrder := ⟨oid, amount, 0, false, price, 0, 0⟩ with hnewo
    set s2 : OrderBookSimulator := { s1 with orders := Tbl.insert s1.orders oid newo } with hs2
    have h1heads := find_or_create_price_level_bid_heads s price a
    have h1obs := find_or_create_price_level_obs s price false a hfresh
    have hs2pl : s2.price_levels = s1.price_levels := rfl
    have hs2o : s2.orders = Tbl.insert s1.orders oid newo := rfl
    have h2lvl : (Tbl.lookup s2.price_levels (get_price_level_key price false)).map lvl_obs =
        some (0, 0, 0) := by
      rw [hs2pl, hs1]; exact h1obs.1
    obtain ⟨lvl, hlvl, hlobs⟩ : ∃ lvl,
        Tbl.lookup s2.price_levels (get_price_level_key price false) = some lvl ∧
          lvl_obs lvl = (0, 0, 0) := by
      cases hB : Tbl.lookup s2.price_levels (get_price_level_key price false) with
      | none => rw [hB] at h2lvl; simp at h2lvl
      | some lvl => rw [hB] at h2lvl; simp at h2lvl; exact ⟨lvl, rfl, h2lvl⟩
    have hhead0 : lvl.head_order_id = 0 := by
      have := congrArg (fun t => t.2.1) hlobs
      simpa [lvl_obs] using this
    have hvol0 : lvl.total_volume = 0 := by
      have := congrArg (fun t => t.1) hlobs
      simpa [lvl_obs] using this
    have ho2 : Tbl.lookup s2.orders oid = some newo := by
      rw [hs2o]; exact Tbl.lookup_insert_self _ _ _
    have hins := insert_order_into_price_level_empty s2 price oid false newo lvl ho2 hlvl hhead0
    have hinheads := insert_order_into_price_level_heads s2 price oid 0 false
    have hmain : (simulate_insert_order s oid price amount false).1 =
        insert_order_into_price_level s2 price oid 0 false := by
      unfold simulate_insert_order
      simp only []
      apply try_match_after_insertion_noop
      · rw [hinheads.1]
        show s1.ask_head = 0
        rw [hs1, h1heads.1, hask]
      · rw [hinheads.2]
        show s1.market_ask_head = 0
        rw [hs1, h1heads.2.1, hmask]
    rw [hmain]
    refine ⟨?_, ?_, ?_⟩
    · rw [hins.1, ho2]
    · intro k hk
      rw [hins.1, hs2o, Tbl.lookup_insert_ne _ _ _ _ hk, hs1,
          find_or_create_price_level_orders]
    · intro k hk
      rw [hins.2.2.1 k hk, hs2pl, hs1]
      exact h1obs.2 k hk
  · have hmain : simulate_insert_market_order smkt moid mamount false =
        { smkt with
          orders := Tbl.insert smkt.orders moid ⟨moid, mamount, 0, true, 0, 0, 0⟩,
          market_bid_head := moid, market_bid_tail := moid } := by
      unfold simulate_insert_market_order insert_market_order_at_tail
      simp only [Bool.false_eq_true, if_false]
      rw [if_pos htail2]
      apply try_match_after_insertion_noop
      · exact hask2
      · exact hmask2
    rw [hmain]
    refine ⟨Tbl.lookup_insert_self _ _ _, ?_, rfl⟩
    intro k hk
    exact Tbl.lookup_insert_ne _ _ _ _ hk

/-- Base state for the C10 witness: order 1 resting at bid level 100. -/
def c10_base : OrderBookSimulator :=
  (simulate_insert_order OrderBookSimulator.new 1 100 10 false).1

/-- C10 witness: concrete application of `C10_duplicate_id_overwrites`. -/
theorem C10_duplicate_id_overwrites_witness :
    Tbl.lookup (simulate_insert_order c10_base 1 50 7 false).1.orders 1 =
      some ⟨1, 7, 0, false, 50, 0, 0⟩ ∧
    Tbl.lookup (simulate_insert_market_order c10_base 1 3 false).orders 1 =
      some ⟨1, 3, 0, true, 0, 0, 0⟩ :=
  have h := C10_duplicate_id_overwrites c10_base 1 50 7 ⟨1, 10, 0, false, 100, 0, 0⟩
    (by decide) (by decide) (by decide) (by decide)
    c10_base 1 3 ⟨1, 10, 0, false, 100, 0, 0⟩ (by decide) (by decide) (by decide) (by decide)
  ⟨h.1.1, h.2.1⟩

/-! ## Shared request types (`types.rs`) -/

/-- Mirror of `RequestType` in `types.rs`. -/
inductive RequestType
  | PlaceOrder
  | RemoveOrder
deriving DecidableEq, Repr

/-- Mirror of `OrderType` in `types.rs`. -/
inductive OrderType
  | Limit
  | Market
deriving DecidableEq, Repr

/-- Mirror of `QueuedRequest` in `types.rs` (the 32-byte trading pair and
the trader address are embedded as numbers). -/
structure QueuedRequest where
  request_id : Nat
  request_type : RequestType
  trading_pair : Nat
  trader : Nat
  order_type : OrderType
  is_ask : Bool
  price : Nat
  amount : Nat
  order_id_to_remove : Nat
  next_request_id : Nat
deriving DecidableEq, Repr

/-- Mirror of `PriceLevel` in `types.rs`. -/
structure PriceLevel where
  price : Nat
  total_volume : Nat
  head_order_id : Nat
  tail_order_id : Nat
  next_price_level : Nat
  prev_price_level : Nat
deriving DecidableEq, Repr

/-- Mirror of `PriceLevelCache` in `types.rs`. -/
structure PriceLevelCache where
  price_to_level : Tbl Nat
  levels : Tbl PriceLevel
deriving DecidableEq, Repr

namespace PriceLevelCache

/-- Mirror of `PriceLevelCache::new`. -/
def new : PriceLevelCache := ⟨[], []⟩

/-- Mirror of `PriceLevelCache::insert`. -/
def insert (c : PriceLevelCache) (level_id : Nat) (level : PriceLevel) : PriceLevelCache :=
  { price_to_level := Tbl.insert c.price_to_level level.price level_id,
    levels := Tbl.insert c.levels level_id level }

/-- Mirror of `PriceLevelCache::get_level_by_price`. -/
def get_level_by_price (c : PriceLevelCache) (price : Nat) : Option Nat :=
  Tbl.lookup c.price_to_level price

/-- Mirror of `PriceLevelCache::get_level`. -/
def get_level (c : PriceLevelCache) (level_id : Nat) : Option PriceLevel :=
  Tbl.lookup c.levels level_id

end PriceLevelCache

/-- Mirror of `MatchResult` in `types.rs`: three parallel arrays. -/
structure MatchResult where
  order_ids : List Nat
  insert_after_price_levels : List Nat
  insert_after_orders : List Nat
deriving DecidableEq, Repr

/-- Mirror of `MatchResult::new`. -/
def MatchResult.new : MatchResult := ⟨[], [], []⟩

/-- Mirror of `MatchResult::add_order`. -/
def MatchResult.add_order (r : MatchResult) (order_id price_level order : Nat) : MatchResult :=
  ⟨r.order_ids ++ [order_id], r.insert_after_price_levels ++ [price_level],
   r.insert_after_orders ++ [order]⟩

/-! ## Dispatcher simulation pass (`matcher.rs`) -/

/-- Read surface of the chain used by `MatchingEngine::find_insert_position`:
`order_books(pair)` returns the book's eight boundary pointers and
`price_levels(level_id)` the stored level record (a Solidity mapping read,
hence total). -/
structure ChainOrderBookData where
  ask_head : Nat
  ask_tail : Nat
  bid_head : Nat
  bid_tail : Nat
  market_ask_head : Nat
  market_ask_tail : Nat
  market_bid_head : Nat
  market_bid_tail : Nat
deriving DecidableEq, Repr

/-- RPC read surface for the dispatcher. -/
structure ChainView where
  order_books : Nat → ChainOrderBookData
  price_levels : Nat → PriceLevel

namespace MatchingEngine

/-- Walk loop of `MatchingEngine::find_insert_position` (the
`while !current_level_id.is_zero()` loop), threading the request-local
cache; fuel models the unbounded `while`. -/
def find_insert_position_go (chain : ChainView) (price : Nat) (is_ask : Bool) :
    Nat → Nat → Nat → PriceLevelCache → Nat × PriceLevelCache
  | 0, _, prev_level_id, cache => (prev_level_id, cache)
  | fuel + 1, current_level_id, prev_level_id, cache =>
    if current_level_id = 0 then (prev_level_id, cache)
    else
      let lc : PriceLevel × PriceLevelCache :=
        match cache.get_level current_level_id with
        | some l => (l, cache)
        | none =>
          let l := chain.price_levels current_level_id
          (l, cache.insert current_level_id l)
      if (if is_ask then price ≤ lc.1.price else lc.1.price ≤ price) then
        (prev_level_id, lc.2)
      else
        find_insert_position_go chain price is_ask fuel lc.1.next_price_level
          current_level_id lc.2

/-- Mirror of `MatchingEngine::find_insert_position`: cache hit on the
price short-circuits; otherwise the chain's book head is read and the
level list walked via `next_price_level`, levels being read through the
cache (chain reads fill it). -/
def find_insert_position (chain : ChainView) (trading_pair : Nat) (price : Nat)
    (is_ask : Bool) (cache : PriceLevelCache) (fuel : Nat) : Nat × PriceLevelCache :=
  match cache.get_level_by_price price with
  | some level_id => (level_id, cache)
  | none =>
    let data := chain.order_books trading_pair
    let head := if is_ask then data.ask_head else data.bid_head
    if head = 0 then (0, cache)
    else find_insert_position_go chain price is_ask fuel head 0 cache

/-- Loop body of `MatchingEngine::calculate_insert_positions`: requests
that are not `PlaceOrder`/`Limit` are skipped (`continue`) without an
entry; a `PlaceOrder`/`Limit` request contributes
`(request_id, hint, 0)`.  `caches` models
`GlobalState::get_or_create_price_cache`, which returns a *clone* of the
per-pair `(bid, ask)` caches, so mutations do not carry over between
requests. -/
def calculate_insert_positions_go (chain : ChainView)
    (caches : Nat → PriceLevelCache × PriceLevelCache) (fuel : Nat) :
    List QueuedRequest → MatchResult → MatchResult
  | [], result => result
  | request :: rest, result =>
    if request.request_type = RequestType.PlaceOrder ∧
        request.order_type = OrderType.Limit then
      let pair_caches := caches request.trading_pair
      let cache := if request.is_ask then pair_caches.2 else pair_caches.1
      let hint := (find_insert_position chain request.trading_pair request.price
        request.is_ask cache fuel).1
      calculate_insert_positions_go chain caches fuel rest
        (result.add_order request.request_id hint 0)
    else
      calculate_insert_positions_go chain caches fuel rest result

/-- Mirror of `MatchingEngine::calculate_insert_positions`. -/
def calculate_insert_positions (chain : ChainView)
    (caches : Nat → PriceLevelCache × PriceLevelCache) (fuel : Nat)
    (requests : List QueuedRequest) : MatchResult :=
  calculate_insert_positions_go chain caches fuel requests MatchResult.new

end MatchingEngine

/-! ## Claim C1: entries emitted by the dispatcher simulation pass -/

/-- The only requests given a batch entry by `calculate_insert_positions`. -/
def isLimitPlace (q : QueuedRequest) : Bool :=
  decide (q.request_type = RequestType.PlaceOrder ∧ q.order_type = OrderType.Limit)

/-- The hint computed for a `PlaceOrder`/`Limit` request: per-pair cache
plus chain read, not a scratch simulator. -/
def matcherHint (chain : ChainView) (caches : Nat → PriceLevelCache × PriceLevelCache)
    (fuel : Nat) (q : QueuedRequest) : Nat :=
  (MatchingEngine.find_insert_position chain q.trading_pair q.price q.is_ask
    (if q.is_ask then (caches q.trading_pair).2 else (caches q.trading_pair).1) fuel).1

/-- All-zero chain view for the C1 counterexample. -/
def chain0 : ChainView :=
  { order_books := fun _ => ⟨0, 0, 0, 0, 0, 0, 0, 0⟩,
    price_levels := fun _ => ⟨0, 0, 0, 0, 0, 0⟩ }

/-- Empty per-pair caches for the C1 counterexample. -/
def caches0 : Nat → PriceLevelCache × PriceLevelCache :=
  fun _ => (PriceLevelCache.new, PriceLevelCache.new)

/-- C1 batch: a limit bid placement `r1` followed by a cancellation `r2`. -/
def c1_r1 : QueuedRequest := ⟨1, RequestType.PlaceOrder, 0, 0, OrderType.Limit,
  false, 100, 10, 0, 2⟩

/-- Cancellation request of the C1 batch. -/
def c1_r2 : QueuedRequest := ⟨2, RequestType.RemoveOrder, 0, 0, OrderType.Limit,
  false, 0, 0, 1, 0⟩

/-- C1 counterexample: on the batch `[place_limit(r1, 100, 10, bid),
cancel(r2, r1)]` the dispatcher's simulation pass emits the single entry
`(1, 0, 0)` — the `RemoveOrder` request is skipped by `continue` and gets
no `(r2, 0, 0)` entry, so the emitted order-id list is `[1]`, not
`[1, 2]`. -/
theorem C1_counterexample :
    MatchingEngine.calculate_insert_positions chain0 caches0 10 [c1_r1, c1_r2] =
      ⟨[1], [0], [0]⟩ ∧
    (MatchingEngine.calculate_insert_positions chain0 caches0 10
        [c1_r1, c1_r2]).order_ids ≠ [1, 2] := by
  constructor
  · rfl
  · intro h
    simp [MatchingEngine.calculate_insert_positions, MatchingEngine.calculate_insert_positions_go,
      c1_r1, c1_r2, MatchResult.new, MatchResult.add_order] at h

/-- Accumulator form of the C1 characterization. -/
theorem calculate_insert_positions_go_spec (chain : ChainView)
    (caches : Nat → PriceLevelCache × PriceLevelCache) (fuel : Nat)
    (requests : List QueuedRequest) (acc : MatchResult) :
    MatchingEngine.calculate_insert_positions_go chain caches fuel requests acc =
      ⟨acc.order_ids ++ (requests.filter isLimitPlace).map QueuedRequest.request_id,
       acc.insert_after_price_levels ++
         (requests.filter isLimitPlace).map (matcherHint chain caches fuel),
       acc.insert_after_orders ++
         List.replicate (requests.filter isLimitPlace).length 0⟩ := by
  induction requests generalizing acc with
  | nil => simp [MatchingEngine.calculate_insert_positions_go]
  | cons q rest ih =>
    by_cases hq : q.request_type = RequestType.PlaceOrder ∧ q.order_type = OrderType.Limit
    · rw [MatchingEngine.calculate_insert_positions_go]
      rw [if_pos hq, ih]
      have hflt : isLimitPlace q = true := by simp [isLimitPlace, hq]
      simp [List.filter, hflt, MatchResult.add_order, matcherHint, List.replicate]
    · rw [MatchingEngine.calculate_insert_positions_go]
      rw [if_neg hq, ih]
      have hflt : isLimitPlace q = false := by
        simp [isLimitPlace]
        intro h1 h2
        exact hq ⟨h1, h2⟩
      simp [List.filter, hflt]

/-- C1 amended: the simulation pass emits exactly one entry per
`PlaceOrder`/`Limit` request, in queue order — `(request_id, hint, 0)`
where the hint comes from the per-pair price-level cache and chain reads —
and no entry at all for `RemoveOrder` or `PlaceOrder`/`Market` requests;
in particular the batch `[place_limit(r1), cancel(r2, r1)]` yields the
single entry `(r1, 0, 0)`. -/
theorem C1_amended_entries (chain : ChainView)
    (caches : Nat → PriceLevelCache × PriceLevelCache) (fuel : Nat)
    (requests : List QueuedRequest) :
    MatchingEngine.calculate_insert_positions chain caches fuel requests =
      ⟨(requests.filter isLimitPlace).map QueuedRequest.request_id,
       (requests.filter isLimitPlace).map (matcherHint chain caches fuel),
       List.replicate (requests.filter isLimitPlace).length 0⟩ := by
  unfold MatchingEngine.calculate_insert_positions
  rw [calculate_insert_positions_go_spec]
  rfl

/-! ## Pending-change bookkeeping (`match_simulator.rs`) -/

/-- Mirror of `LocalOrder` in `match_simulator.rs`. -/
structure LocalOrder where
  id : Nat
  price : Nat
  amount : Nat
  filled_amount : Nat
  is_market : Bool
deriving DecidableEq, Repr

/-- Mirror of `LocalOrderBook` in `match_simulator.rs`. -/
structure LocalOrderBook where
  bids : List LocalOrder
  asks : List LocalOrder
  market_bids : List LocalOrder
  market_asks : List LocalOrder
deriving DecidableEq, Repr

/-- Mirror of `StateChange` in `match_simulator.rs`. -/
inductive StateChange
  | AddOrder (order : LocalOrder) (is_ask : Bool)
  | RemoveOrder (order_id : Nat) (is_ask : Bool) (is_market : Bool)
  | UpdateFilledAmount (order_id : Nat) (filled_amount : Nat) (is_ask : Bool)
deriving DecidableEq, Repr

/-- Mirror of `PendingChange` in `match_simulator.rs` (the `Instant`
timestamp is embedded as a tick count, irrelevant here). -/
structure PendingChange where
  tx_hash : Nat
  changes : List StateChange
  timestamp : Nat
deriving DecidableEq, Repr

/-- Mirror of `MatchSimulator` in `match_simulator.rs`. -/
structure MatchSimulator where
  local_orderbook : LocalOrderBook
  pending_changes : List PendingChange
deriving DecidableEq, Repr

/-- Mirror of `MatchSimulator::rollback_changes`: drop the first pending
entry recorded for the failed transaction hash; nothing else is touched. -/
def MatchSimulator.rollback_changes (m : MatchSimulator) (tx_hash : Nat) : MatchSimulator :=
  match List.findIdx? (fun c => c.tx_hash == tx_hash) m.pending_changes with
  | some pos => { m with pending_changes := m.pending_changes.eraseIdx pos }
  | none => m

/-! ## Batch receipt handling (`matcher.rs`, `execute_batch` steps 5 and 6) -/

/-- Outcome of awaiting the batch transaction: a receipt with a status
(`Ok(Some(receipt))`), a dropped transaction (`Ok(None)`), or an RPC
error (`Err(_)`). -/
inductive TxOutcome
  | confirmed (status : Nat)
  | dropped
  | rpcError
deriving DecidableEq, Repr

/-- The dispatcher-visible local state: the match simulator, the mirrored
request queue and its head (`GlobalState` in `state.rs`). -/
structure EngineState where
  simulator : MatchSimulator
  queued_requests : Tbl QueuedRequest
  queue_head : Nat
deriving DecidableEq, Repr

/-- Walk loop of `GlobalState::get_head_requests`. -/
def get_head_requests_go (st : EngineState) : Nat → Nat → List QueuedRequest
  | 0, _ => []
  | n + 1, current =>
    if current = 0 then []
    else
      match Tbl.lookup st.queued_requests current with
      | some request => request :: get_head_requests_go st n request.next_request_id
      | none => []

/-- Mirror of `GlobalState::get_head_requests`. -/
def get_head_requests (st : EngineState) (n : Nat) : List QueuedRequest :=
  if st.queue_head = 0 then [] else get_head_requests_go st n st.queue_head

/-- Mirror of steps 5 and 6 of `MatchingEngine::execute_batch`, after the
transaction has been sent and the predictions recorded as pending: await
the receipt; on failure, drop or RPC error, roll the pending entry back
and return early with an error (`false`) — the request-queue cleanup is
*not* reached; on success (status 1), keep the pending entry, remove the
processed requests from the local queue and reset the queue head. -/
def execute_batch_finish (st : EngineState) (tx_hash : Nat) (order_ids : List Nat)
    (outcome : TxOutcome) : EngineState × Bool :=
  match outcome with
  | TxOutcome.confirmed status =>
    if status ≠ 1 then
      ({ st with simulator := st.simulator.rollback_changes tx_hash }, false)
    else
      let st2 := { st with queued_requests := (List.foldl
        (fun q rid => Tbl.erase q rid) st.queued_requests order_ids) }
      match get_head_requests st2 1 with
      | first :: _ => ({ st2 with queue_head := first.request_id }, true)
      | [] => ({ st2 with queue_head := 0 }, true)
  | TxOutcome.dropped =>
    ({ st with simulator := st.simulator.rollback_changes tx_hash }, false)
  | TxOutcome.rpcError =>
    ({ st with simulator := st.simulator.rollback_changes tx_hash }, false)

/-! ## Claim C8: rollback on failed or dropped batch transactions -/

/-- Engine state for the C8 counterexample: one queued request (id 5) and
one pending entry for transaction 77. -/
def c8_state : EngineState :=
  { simulator :=
      { local_orderbook := ⟨[⟨9, 100, 10, 0, false⟩], [], [], []⟩,
        pending_changes := [⟨77, [StateChange.UpdateFilledAmount 9 10 false], 0⟩] },
    queued_requests := [(5, ⟨5, RequestType.PlaceOrder, 0, 0, OrderType.Limit, false, 100, 10, 0, 0⟩)],
    queue_head := 5 }

/-- C8 counterexample: when the receipt reports failure (status 0), the
pending entry for the transaction is discarded and the local order book is
untouched, but — contrary to the claim — the processed request is *not*
removed from the local queue and the head is *not* reset: `execute_batch`
returns the error before reaching its cleanup step. -/
theorem C8_counterexample :
    (execute_batch_finish c8_state 77 [5] (TxOutcome.confirmed 0)).2 = false ∧
    (execute_batch_finish c8_state 77 [5]
        (TxOutcome.confirmed 0)).1.simulator.pending_changes = [] ∧
    (execute_batch_finish c8_state 77 [5]
        (TxOutcome.confirmed 0)).1.simulator.local_orderbook =
      c8_state.simulator.local_orderbook ∧
    ¬ (Tbl.lookup (execute_batch_finish c8_state 77 [5]
        (TxOutcome.confirmed 0)).1.queued_requests 5 = none) ∧
    (execute_batch_finish c8_state 77 [5] (TxOutcome.confirmed 0)).1.queue_head = 5 := by
  decide

/-- C8 amended: on a failure receipt, a dropped transaction or an RPC
error, the dispatcher discards the first pending entry recorded for the
transaction hash without touching the local order book, and returns early
with an error, leaving the request queue and its head exactly as they
were; the processed requests are removed and the head reset only on the
success path. -/
theorem C8_amended_rollback (st : EngineState) (tx_hash : Nat) (order_ids : List Nat)
    (status : Nat) (hfail : status ≠ 1) :
    (execute_batch_finish st tx_hash order_ids (TxOutcome.confirmed status) =
      ({ st with simulator := st.simulator.rollback_changes tx_hash }, false)) ∧
    (execute_batch_finish st tx_hash order_ids TxOutcome.dropped =
      ({ st with simulator := st.simulator.rollback_changes tx_hash }, false)) ∧
    (execute_batch_finish st tx_hash order_ids TxOutcome.rpcError =
      ({ st with simulator := st.simulator.rollback_changes tx_hash }, false)) ∧
    ((st.simulator.rollback_changes tx_hash).local_orderbook =
      st.simulator.local_orderbook) ∧
    ((execute_batch_finish st tx_hash order_ids (TxOutcome.confirmed 1)).2 = true ∧
      (execute_batch_finish st tx_hash order_ids
          (TxOutcome.confirmed 1)).1.simulator = st.simulator ∧
      (execute_batch_finish st tx_hash order_ids
          (TxOutcome.confirmed 1)).1.queued_requests =
        List.foldl (fun q rid => Tbl.erase q rid) st.queued_requests order_ids) := by
  refine ⟨?_, ?_, ?_, ?_, ?_⟩
  · simp only [execute_batch_finish]
    rw [if_pos hfail]
  · simp only [execute_batch_finish]
  · simp only [execute_batch_finish]
  · unfold MatchSimulator.rollback_changes
    cases List.findIdx? (fun c => c.tx_hash == tx_hash) st.simulator.pending_changes <;> rfl
  · simp only [execute_batch_finish]
    rw [if_neg (by simp)]
    cases get_head_requests
        { st with queued_requests :=
          List.foldl (fun q rid => Tbl.erase q rid) st.queued_requests order_ids } 1 with
    | nil => exact ⟨rfl, rfl, rfl⟩
    | cons a t => exact ⟨rfl, rfl, rfl⟩

/-- C8 witness: concrete application of `C8_amended_rollback`. -/
theorem C8_amended_rollback_witness :
    execute_batch_finish c8_state 77 [5] (TxOutcome.confirmed 0) =
      ({ c8_state with simulator := c8_state.simulator.rollback_changes 77 }, false) :=
  (C8_amended_rollback c8_state 77 [5] 0 (by decide)).1

/-! ## Cold-sync queue walk (`sync.rs`, `sync_sequencer_state`) -/

/-- Tuple returned by the Sequencer contract's `queued_requests(id)` read:
`(trading_pair, trader, kind tag, order-type tag, is_ask, price, amount,
next id)`; the tags arrive as machine integers
(`try_into().unwrap_or(0)` in the source is the identity on them). -/
structure RawQueuedRequest where
  trading_pair : Nat
  trader : Nat
  request_type_u8 : Nat
  order_type_u8 : Nat
  is_ask : Bool
  price : Nat
  amount : Nat
  next_request_id : Nat
deriving DecidableEq, Repr

/-- Mirror of the queue walk in `StateSynchronizer::sync_sequencer_state`
(the `while !current_id.is_zero()` loop): each visited id is read from the
chain and decoded; an unknown *kind* tag logs a warning and breaks the
walk, while an unknown *order-type* tag falls through to `Limit` and the
walk continues.  Returns the decoded requests in the order they are added
to the mirror.  Fuel models the unbounded `while`. -/
def sync_sequencer_walk (chain : Nat → RawQueuedRequest) : Nat → Nat → List QueuedRequest
  | 0, _ => []
  | fuel + 1, current_id =>
    if current_id = 0 then []
    else
      let request_data := chain current_id
      let next_id := request_data.next_request_id
      match request_data.request_type_u8 with
      | 0 =>
        { request_id := current_id,
          request_type := RequestType.PlaceOrder,
          trading_pair := request_data.trading_pair,
          trader := request_data.trader,
          order_type := match request_data.order_type_u8 with
            | 0 => OrderType.Limit
            | 1 => OrderType.Market
            | _ => OrderType.Limit,
          is_ask := request_data.is_ask,
          price := request_data.price,
          amount := request_data.amount,
          order_id_to_remove := 0,
          next_request_id := next_id } :: sync_sequencer_walk chain fuel next_id
      | 1 =>
        { request_id := current_id,
          request_type := RequestType.RemoveOrder,
          trading_pair := request_data.trading_pair,
          trader := request_data.trader,
          order_type := match request_data.order_type_u8 with
            | 0 => OrderType.Limit
            | 1 => OrderType.Market
            | _ => OrderType.Limit,
          is_ask := request_data.is_ask,
          price := request_data.price,
          amount := request_data.amount,
          order_id_to_remove := request_data.price,
          next_request_id := next_id } :: sync_sequencer_walk chain fuel next_id
      | _ => []

/-! ## Claim C9: unknown enum tags during the cold-sync walk -/

/-- Chain queue for the C9 counterexample: request 1 has an unrecognized
order-type tag 7 and links to a normal request 2. -/
def c9_chain : Nat → RawQueuedRequest := fun i =>
  if i = 1 then ⟨0, 0, 0, 7, false, 100, 10, 2⟩
  else if i = 2 then ⟨0, 0, 0, 0, true, 50, 5, 0⟩
  else ⟨0, 0, 0, 0, false, 0, 0, 0⟩

/-- C9 counterexample: request 1 carries the unknown order-type tag 7, yet
the walk does not stop there — it silently decodes the request as `Limit`
and continues to request 2. -/
theorem C9_counterexample :
    (sync_sequencer_walk c9_chain 10 1).map
        (fun r => (r.request_id, r.order_type)) =
      [(1, OrderType.Limit), (2, OrderType.Limit)] := by
  decide

/-- Decoding of an order-type tag as the source performs it. -/
def decode_order_type (tag : Nat) : OrderType :=
  match tag with
  | 0 => OrderType.Limit
  | 1 => OrderType.Market
  | _ => OrderType.Limit

/-- C9 amended: during the cold-sync walk an unknown *kind* tag stops the
walk at that request (nothing is added from it onward), but an unknown
*order-type* tag is silently decoded as `Limit` and the walk continues:
every request the walk adds has a known kind tag (0 or 1), and its order
type is `Market` exactly for tag 1 and `Limit` for every other tag. -/
theorem C9_amended_tag_handling (chain : Nat → RawQueuedRequest) (fuel : Nat)
    (current_id : Nat) :
    (∀ r ∈ sync_sequencer_walk chain fuel current_id,
      ((chain r.request_id).request_type_u8 = 0 ∨
        (chain r.request_id).request_type_u8 = 1) ∧
      r.order_type = decode_order_type (chain r.request_id).order_type_u8) ∧
    (current_id ≠ 0 → 2 ≤ (chain current_id).request_type_u8 →
      sync_sequencer_walk chain fuel current_id = []) := by
  induction fuel generalizing current_id with
  | zero => exact ⟨by intro r hr; simp [sync_sequencer_walk] at hr, fun _ _ => rfl⟩
  | succ n ih =>
    constructor
    · intro r hr
      rw [sync_sequencer_walk] at hr
      by_cases hz : current_id = 0
      · rw [if_pos hz] at hr; simp at hr
      · rw [if_neg hz] at hr
        simp only [] at hr
        cases htag : (chain current_id).request_type_u8 with
        | zero =>
          rw [htag] at hr
          rcases List.mem_cons.mp hr with hr | hr
          · subst hr
            refine ⟨Or.inl htag, ?_⟩
            simp [decode_order_type]
          · exact (ih _).1 r hr
        | succ m =>
          cases m with
          | zero =>
            rw [htag] at hr
            rcases List.mem_cons.mp hr with hr | hr
            · subst hr
              refine ⟨Or.inr htag, ?_⟩
              simp [decode_order_type]
            · exact (ih _).1 r hr
          | succ m2 =>
            rw [htag] at hr
            simp at hr
    · intro hz htag
      rw [sync_sequencer_walk, if_neg hz]
      simp only []
      obtain ⟨m, hm⟩ : ∃ m, (chain current_id).request_type_u8 = m + 2 :=
        ⟨(chain current_id).request_type_u8 - 2, by omega⟩
      rw [hm]
      rfl

/-- C9 witness: concrete applications of `C9_amended_tag_handling` — the
request with unknown order-type tag 7 is decoded (as `Limit`) and a queue
whose head has the unknown kind tag 9 yields an empty walk. -/
theorem C9_amended_tag_handling_witness :
    (⟨1, RequestType.PlaceOrder, 0, 0, OrderType.Limit, false, 100, 10, 0, 2⟩ :
        QueuedRequest).order_type = decode_order_type (c9_chain 1).order_type_u8 ∧
    sync_sequencer_walk (fun _ => ⟨0, 0, 9, 0, false, 0, 0, 0⟩) 10 1 = [] :=
  ⟨((C9_amended_tag_handling c9_chain 10 1).1
      ⟨1, RequestType.PlaceOrder, 0, 0, OrderType.Limit, false, 100, 10, 0, 2⟩
      (by decide)).2,
   (C9_amended_tag_handling (fun _ => ⟨0, 0, 9, 0, false, 0, 0, 0⟩) 10 1).2
      (by decide) (by decide)⟩

/-! ## Side ordering (C6): invariant development -/

namespace OrderBookSimulator

/-- The bid-key tag bit: bid levels are keyed by `price ||| 2^255`. -/
def TOP : Nat := 2 ^ 255

theorem TOP_pos : 0 < TOP := Nat.pos_pow_of_pos 255 (by omega)

/-- Strict price order along a side: ascending for asks, descending for
bids. -/
def sideR : Bool → Nat → Nat → Prop
  | true, x, y => x < y
  | false, x, y => y < x

theorem sideR_trans {ia : Bool} {x y z : Nat} (h1 : sideR ia x y)
    (h2 : sideR ia y z) : sideR ia x z := by
  cases ia <;> simp only [sideR] at * <;> omega

theorem sideR_ne {ia : Bool} {x y : Nat} (h : sideR ia x y) : x ≠ y := by
  cases ia <;> simp only [sideR] at h <;> omega

theorem sideR_irrefl {ia : Bool} {x : Nat} (h : sideR ia x x) : False := by
  cases ia <;> simp only [sideR] at h <;> omega

theorem sideR_asymm {ia : Bool} {x y : Nat} (h1 : sideR ia x y)
    (h2 : sideR ia y x) : False :=
  sideR_irrefl (sideR_trans h1 h2)

/-- A number below `2^n` has no bit in common with `2^n`, so `lor` is
addition. -/
theorem lor_two_pow_of_lt {p n : Nat} (h : p < 2 ^ n) :
    Nat.lor p (2 ^ n) = p + 2 ^ n := by
  apply Nat.eq_of_testBit_eq
  intro i
  rw [show Nat.lor p (2 ^ n) = p ||| 2 ^ n from rfl]
  rw [Nat.testBit_or]
  rw [show p + 2 ^ n = 2 ^ n * 1 + p by omega]
  rw [Nat.testBit_mul_pow_two_add 1 h i]
  by_cases hi : i < n
  · rw [if_pos hi, Nat.testBit_two_pow_of_ne (by omega), Bool.or_false]
  · rw [if_neg hi]
    by_cases he : i = n
    · subst he
      rw [Nat.testBit_lt_two_pow h, Nat.testBit_two_pow_self, Nat.sub_self]
      rfl
    · have hn : n < i := by omega
      have hp2 : p < 2 ^ i :=
        Nat.lt_of_lt_of_le h (Nat.pow_le_pow_right (by omega) (by omega))
      rw [Nat.testBit_lt_two_pow hp2, Nat.testBit_two_pow_of_ne (by omega)]
      have h1 : (1 : Nat) < 2 ^ (i - n) :=
        Nat.one_lt_two_pow_iff.mpr (by omega)
      rw [Nat.testBit_lt_two_pow h1]
      rfl

theorem key_eq_ask (p : Nat) : get_price_level_key p true = p := rfl

theorem key_eq_bid {p : Nat} (h : p < TOP) :
    get_price_level_key p false = p + TOP := by
  unfold get_price_level_key
  rw [if_neg (by simp)]
  exact lor_two_pow_of_lt h

theorem key_inj_same {p q : Nat} {ia : Bool} (hp : p < TOP) (hq : q < TOP)
    (h : get_price_level_key p ia = get_price_level_key q ia) : p = q := by
  cases ia
  · rw [key_eq_bid hp, key_eq_bid hq] at h
    omega
  · rw [key_eq_ask, key_eq_ask] at h
    exact h

theorem key_ne_same {p q : Nat} {ia : Bool} (hp : p < TOP) (hq : q < TOP)
    (h : p ≠ q) : get_price_level_key p ia ≠ get_price_level_key q ia :=
  fun he => h (key_inj_same hp hq he)

theorem key_ne_cross {p q : Nat} (hp : p < TOP) (hq : q < TOP) :
    get_price_level_key p true ≠ get_price_level_key q false := by
  rw [key_eq_ask, key_eq_bid hq]
  omega

theorem key_ne_diff {p q : Nat} {ia ib : Bool} (hp : p < TOP) (hq : q < TOP)
    (hne : ia ≠ ib) : get_price_level_key p ia ≠ get_price_level_key q ib := by
  cases ia <;> cases ib
  · exact absurd rfl hne
  · exact (key_ne_cross hq hp).symm
  · exact key_ne_cross hp hq
  · exact absurd rfl hne

theorem key_in_range {p : Nat} (ia : Bool) (h0 : 0 < p) (h : p < TOP) :
    0 < get_price_level_key p ia ∧ get_price_level_key p ia < TOP ∨
    TOP < get_price_level_key p ia ∧ get_price_level_key p ia < 2 * TOP := by
  cases ia
  · rw [key_eq_bid h]
    right
    omega
  · rw [key_eq_ask]
    left
    exact ⟨h0, h⟩

end OrderBookSimulator

namespace Tbl

theorem mem_of_lookup (l : Tbl α) (k : Nat) (v : α) (h : lookup l k = some v) :
    (k, v) ∈ l := by
  induction l with
  | nil => simp [lookup] at h
  | cons p t ih =>
    obtain ⟨k2, v2⟩ := p
    by_cases h2 : k2 = k
    · have hv : v2 = v := by
        subst h2
        simp only [lookup] at h
        simpa using h
      subst h2
      subst hv
      exact List.mem_cons_self _ _
    · simp only [lookup, if_neg h2] at h
      exact List.mem_cons_of_mem _ (ih h)

theorem modify_of_not_mem (l : Tbl α) (k : Nat) (f : α → α)
    (h : k ∉ keys l) : modify l k f = l := by
  induction l with
  | nil => rfl
  | cons p t ih =>
    obtain ⟨k2, v⟩ := p
    simp only [keys, List.mem_cons, not_or] at h
    simp only [modify]
    rw [if_neg (fun he => h.1 he.symm), ih h.2]

theorem forall_mem_modify (l : Tbl α) (k : Nat) (f : α → α) (P : α → Prop)
    (hP : ∀ v, P v → P (f v)) (h : ∀ kv ∈ l, P (Prod.snd kv)) :
    ∀ kv ∈ modify l k f, P (Prod.snd kv) := by
  induction l with
  | nil => simp [modify]
  | cons p t ih =>
    obtain ⟨k2, v⟩ := p
    intro kv hkv
    simp only [modify] at hkv
    rcases List.mem_cons.mp hkv with hh | ht
    · subst hh
      by_cases h2 : k2 = k
      · rw [if_pos h2]
        exact hP v (h (k2, v) (List.mem_cons_self _ _))
      · rw [if_neg h2]
        exact h (k2, v) (List.mem_cons_self _ _)
    · exact ih (fun kv2 hkv2 => h kv2 (List.mem_cons_of_mem _ hkv2)) kv ht

theorem forall_mem_erase (l : Tbl α) (k : Nat) (P : α → Prop)
    (h : ∀ kv ∈ l, P (Prod.snd kv)) :
    ∀ kv ∈ erase l k, P (Prod.snd kv) := by
  induction l with
  | nil => simp [erase]
  | cons p t ih =>
    obtain ⟨k2, v⟩ := p
    intro kv hkv
    simp only [erase] at hkv
    by_cases h2 : k2 = k
    · rw [if_pos h2] at hkv
      exact h kv (List.mem_cons_of_mem _ hkv)
    · rw [if_neg h2] at hkv
      rcases List.mem_cons.mp hkv with hh | ht
      · subst hh
        exact h (k2, v) (List.mem_cons_self _ _)
      · exact ih (fun kv2 hkv2 => h kv2 (List.mem_cons_of_mem _ hkv2)) kv ht

end Tbl

/-- Filtering with a weaker predicate keeps at least as many elements. -/
theorem filter_length_mono {α : Type} (l : List α) (P Q : α → Bool)
    (h : ∀ x, Q x = true → P x = true) :
    (l.filter Q).length ≤ (l.filter P).length := by
  induction l with
  | nil => simp
  | cons a t ih =>
    by_cases hQ : Q a = true
    · have hP := h a hQ
      simp only [List.filter_cons, hP, hQ, if_true, List.length_cons]
      omega
    · simp only [Bool.not_eq_true] at hQ
      simp only [List.filter_cons, hQ]
      by_cases hP : P a = true
      · simp only [hP, if_true, Bool.false_eq_true, if_false, List.length_cons]
        omega
      · simp only [Bool.not_eq_true] at hP
        simp only [hP, Bool.false_eq_true, if_false]
        exact ih

/-- Filtering with a strictly weaker predicate (witnessed by a member
kept by `P` but not by `Q`) keeps strictly more elements. -/
theorem filter_length_lt {α : Type} (l : List α) (P Q : α → Bool)
    (h : ∀ x, Q x = true → P x = true) (x : α) (hx : x ∈ l)
    (hP : P x = true) (hQ : Q x = false) :
    (l.filter Q).length < (l.filter P).length := by
  induction l with
  | nil => simp at hx
  | cons a t ih =>
    rcases List.mem_cons.mp hx with hh | ht
    · subst hh
      simp only [List.filter_cons, hP, hQ, if_true, Bool.false_eq_true,
        if_false, List.length_cons]
      have := filter_length_mono t P Q h
      omega
    · by_cases hQa : Q a = true
      · have hPa := h a hQa
        simp only [List.filter_cons, hPa, hQa, if_true, List.length_cons]
        have := ih ht
        omega
      · simp only [Bool.not_eq_true] at hQa
        simp only [List.filter_cons, hQa, Bool.false_eq_true, if_false]
        by_cases hPa : P a = true
        · simp only [hPa, if_true, List.length_cons]
          have := ih ht
          omega
        · simp only [Bool.not_eq_true] at hPa
          simp only [hPa, Bool.false_eq_true, if_false]
          exact ih ht

namespace OrderBookSimulator

/-- Per-side structural well-formedness of the price-level table: the
entry stored under the side key of a nonzero price `p < 2^255` records
price `p`; a nonzero `next_price` names a strictly worse price (higher
for asks, lower for bids) whose entry exists and points back via
`prev_price`; symmetrically for a nonzero `prev_price`. -/
def SideInv (tbl : Tbl SimPriceLevel) (ia : Bool) : Prop :=
  ∀ p e, 0 < p → p < TOP →
    Tbl.lookup tbl (get_price_level_key p ia) = some e →
    e.price = p ∧
    (e.next_price ≠ 0 →
      e.next_price < TOP ∧ sideR ia p e.next_price ∧
      ∃ e2, Tbl.lookup tbl (get_price_level_key e.next_price ia) = some e2 ∧
        e2.prev_price = p) ∧
    (e.prev_price ≠ 0 →
      e.prev_price < TOP ∧ sideR ia e.prev_price p ∧
      ∃ e2, Tbl.lookup tbl (get_price_level_key e.prev_price ia) = some e2 ∧
        e2.next_price = p)

/-- A nonzero side head names an existing level with no predecessor. -/
def HeadInv (tbl : Tbl SimPriceLevel) (ia : Bool) (head : Nat) : Prop :=
  head ≠ 0 →
    head < TOP ∧
    ∃ e, Tbl.lookup tbl (get_price_level_key head ia) = some e ∧
      e.prev_price = 0

/-- The head pointer of a side. -/
def head_ptr (s : OrderBookSimulator) (ia : Bool) : Nat :=
  if ia then s.ask_head else s.bid_head

/-- The simulator invariant maintained by `insert_limit_order` (with a
price in `(0, 2^255)`) and `remove_order`: level keys are distinct and
stay inside the two side regions (never the sentinels `0` and `2^255`),
both sides are structurally well formed with well-formed heads, the
market queues are empty, and every order record names a price level
below `2^255`. -/
structure Inv (s : OrderBookSimulator) : Prop where
  nk : (Tbl.keys s.price_levels).Nodup
  kr : ∀ k ∈ Tbl.keys s.price_levels,
    0 < k ∧ k < TOP ∨ TOP < k ∧ k < 2 * TOP
  sa : SideInv s.price_levels true
  sb : SideInv s.price_levels false
  ha : HeadInv s.price_levels true s.ask_head
  hb : HeadInv s.price_levels false s.bid_head
  ma : s.market_ask_head = 0
  mb : s.market_bid_head = 0
  op : ∀ kv ∈ s.orders, (Prod.snd kv : SimOrder).price_level < TOP

theorem Inv.sideI {s : OrderBookSimulator} (h : Inv s) (ia : Bool) :
    SideInv s.price_levels ia := by
  cases ia
  · exact h.sb
  · exact h.sa

theorem Inv.headI {s : OrderBookSimulator} (h : Inv s) (ia : Bool) :
    HeadInv s.price_levels ia (head_ptr s ia) := by
  cases ia
  · exact h.hb
  · exact h.ha

theorem Inv.build {s2 : OrderBookSimulator}
    (hnk : (Tbl.keys s2.price_levels).Nodup)
    (hkr : ∀ k ∈ Tbl.keys s2.price_levels,
      0 < k ∧ k < TOP ∨ TOP < k ∧ k < 2 * TOP)
    (hside : ∀ ia, SideInv s2.price_levels ia)
    (hhead : ∀ ia, HeadInv s2.price_levels ia (head_ptr s2 ia))
    (hma : s2.market_ask_head = 0) (hmb : s2.market_bid_head = 0)
    (hop : ∀ kv ∈ s2.orders, (Prod.snd kv : SimOrder).price_level < TOP) :
    Inv s2 :=
  ⟨hnk, hkr, hside true, hside false, hhead true, hhead false, hma, hmb, hop⟩

/-- The side key of the sentinel price `0` is outside both key regions,
hence absent from a table satisfying the key-range invariant. -/
theorem lookup_zero_key (t : Tbl SimPriceLevel) (ia : Bool)
    (hkr : ∀ k ∈ Tbl.keys t, 0 < k ∧ k < TOP ∨ TOP < k ∧ k < 2 * TOP) :
    Tbl.lookup t (get_price_level_key 0 ia) = none := by
  apply Tbl.lookup_eq_none_of_not_mem
  intro hmem
  have := hkr _ hmem
  cases ia
  · rw [key_eq_bid TOP_pos] at this
    omega
  · rw [key_eq_ask] at this
    omega

theorem not_mem_zero_key (t : Tbl SimPriceLevel) (ia : Bool)
    (hkr : ∀ k ∈ Tbl.keys t, 0 < k ∧ k < TOP ∨ TOP < k ∧ k < 2 * TOP) :
    get_price_level_key 0 ia ∉ Tbl.keys t := by
  intro hmem
  have := hkr _ hmem
  cases ia
  · rw [key_eq_bid TOP_pos] at this
    omega
  · rw [key_eq_ask] at this
    omega

/-- Transport of `SideInv` along a lookup-preserving table change. -/
theorem SideInv_congr {t t2 : Tbl SimPriceLevel} {ia : Bool}
    (heq : ∀ q, q < TOP →
      Tbl.lookup t2 (get_price_level_key q ia) =
        Tbl.lookup t (get_price_level_key q ia))
    (h : SideInv t ia) : SideInv t2 ia := by
  intro p e hp0 hp hl
  rw [heq p hp] at hl
  obtain ⟨h1, h2, h3⟩ := h p e hp0 hp hl
  refine ⟨h1, fun hn => ?_, fun hv => ?_⟩
  · obtain ⟨ha1, hb1, e2, he2, hbk⟩ := h2 hn
    exact ⟨ha1, hb1, e2, by rw [heq _ ha1]; exact he2, hbk⟩
  · obtain ⟨ha1, hb1, e2, he2, hbk⟩ := h3 hv
    exact ⟨ha1, hb1, e2, by rw [heq _ ha1]; exact he2, hbk⟩

/-- Transport of `HeadInv` along a lookup-preserving table change. -/
theorem HeadInv_congr {t t2 : Tbl SimPriceLevel} {ia : Bool} {head : Nat}
    (heq : ∀ q, q < TOP →
      Tbl.lookup t2 (get_price_level_key q ia) =
        Tbl.lookup t (get_price_level_key q ia))
    (h : HeadInv t ia head) : HeadInv t2 ia head := by
  intro h0
  obtain ⟨h1, e, he, hp⟩ := h h0
  exact ⟨h1, e, by rw [heq _ h1]; exact he, hp⟩

/-- `SideInv` only observes the `price`, `next_price` and `prev_price`
fields, so a `modify` that preserves those preserves it. -/
theorem SideInv_modify {t : Tbl SimPriceLevel} {ia : Bool} (k : Nat)
    (f : SimPriceLevel → SimPriceLevel)
    (hf : ∀ l, (f l).price = l.price ∧ (f l).next_price = l.next_price ∧
      (f l).prev_price = l.prev_price)
    (h : SideInv t ia) : SideInv (Tbl.modify t k f) ia := by
  have tr : ∀ key e2, Tbl.lookup t key = some e2 →
      ∃ e3, Tbl.lookup (Tbl.modify t k f) key = some e3 ∧
        e3.price = e2.price ∧ e3.next_price = e2.next_price ∧
        e3.prev_price = e2.prev_price := by
    intro key e2 hl2
    rw [Tbl.lookup_modify]
    by_cases h2 : key = k
    · rw [if_pos h2, hl2]
      exact ⟨f e2, rfl, (hf e2).1, (hf e2).2.1, (hf e2).2.2⟩
    · rw [if_neg h2]
      exact ⟨e2, hl2, rfl, rfl, rfl⟩
  intro p e hp0 hp hl
  rw [Tbl.lookup_modify] at hl
  have main : ∃ e0, Tbl.lookup t (get_price_level_key p ia) = some e0 ∧
      e.price = e0.price ∧ e.next_price = e0.next_price ∧
      e.prev_price = e0.prev_price := by
    by_cases h2 : get_price_level_key p ia = k
    · rw [if_pos h2] at hl
      cases hl0 : Tbl.lookup t (get_price_level_key p ia) with
      | none => rw [hl0] at hl; simp at hl
      | some e0 =>
        rw [hl0] at hl
        simp only [Option.map_some', Option.some.injEq] at hl
        subst hl
        exact ⟨e0, rfl, (hf e0).1, (hf e0).2.1, (hf e0).2.2⟩
    · rw [if_neg h2] at hl
      exact ⟨e, hl, rfl, rfl, rfl⟩
  obtain ⟨e0, hl0, hpr, hnx, hpv⟩ := main
  obtain ⟨h1, h2, h3⟩ := h p e0 hp0 hp hl0
  rw [hpr, hnx, hpv]
  refine ⟨h1, fun hn => ?_, fun hv => ?_⟩
  · obtain ⟨ha1, hb1, e2, he2, hbk⟩ := h2 hn
    obtain ⟨e3, he3, _, _, hpv3⟩ := tr _ _ he2
    exact ⟨ha1, hb1, e3, he3, by rw [hpv3]; exact hbk⟩
  · obtain ⟨ha1, hb1, e2, he2, hbk⟩ := h3 hv
    obtain ⟨e3, he3, _, hnx3, _⟩ := tr _ _ he2
    exact ⟨ha1, hb1, e3, he3, by rw [hnx3]; exact hbk⟩

/-- `HeadInv` analog of `SideInv_modify`. -/
theorem HeadInv_modify {t : Tbl SimPriceLevel} {ia : Bool} {head : Nat}
    (k : Nat) (f : SimPriceLevel → SimPriceLevel)
    (hf : ∀ l, (f l).prev_price = l.prev_price)
    (h : HeadInv t ia head) : HeadInv (Tbl.modify t k f) ia head := by
  intro h0
  obtain ⟨h1, e, he, hp⟩ := h h0
  rw [Tbl.lookup_modify]
  by_cases h2 : get_price_level_key head ia = k
  · rw [if_pos h2, he]
    exact ⟨h1, f e, rfl, by rw [hf e]; exact hp⟩
  · rw [if_neg h2]
    exact ⟨h1, e, he, hp⟩

/-- Invariant preservation by a link-preserving price-level `modify`. -/
theorem Inv_set_levels_modify (s : OrderBookSimulator) (k : Nat)
    (f : SimPriceLevel → SimPriceLevel)
    (hf : ∀ l, (f l).price = l.price ∧ (f l).next_price = l.next_price ∧
      (f l).prev_price = l.prev_price)
    (h : Inv s) :
    Inv { s with price_levels := Tbl.modify s.price_levels k f } := by
  refine ⟨?_, ?_, ?_, ?_, ?_, ?_, h.ma, h.mb, h.op⟩
  · exact Tbl.nodup_keys_modify _ _ _ h.nk
  · intro k2 hk2
    rw [Tbl.keys_modify] at hk2
    exact h.kr k2 hk2
  · exact SideInv_modify k f hf h.sa
  · exact SideInv_modify k f hf h.sb
  · exact HeadInv_modify k f (fun l => (hf l).2.2) h.ha
  · exact HeadInv_modify k f (fun l => (hf l).2.2) h.hb

/-- Invariant preservation by a `price_level`-preserving orders `modify`. -/
theorem Inv_set_orders_modify (s : OrderBookSimulator) (k : Nat)
    (f : SimOrder → SimOrder)
    (hf : ∀ o, (f o).price_level = o.price_level)
    (h : Inv s) :
    Inv { s with orders := Tbl.modify s.orders k f } := by
  refine ⟨h.nk, h.kr, h.sa, h.sb, h.ha, h.hb, h.ma, h.mb, ?_⟩
  exact Tbl.forall_mem_modify _ _ _ (fun o : SimOrder => o.price_level < TOP)
    (fun v hv => by show (f v).price_level < TOP; rw [hf v]; exact hv) h.op

/-- Invariant preservation by inserting an order record that names a
price level below `2^255`. -/
theorem Inv_set_orders_insert (s : OrderBookSimulator) (k : Nat)
    (v : SimOrder) (hv : v.price_level < TOP) (h : Inv s) :
    Inv { s with orders := Tbl.insert s.orders k v } := by
  refine ⟨h.nk, h.kr, h.sa, h.sb, h.ha, h.hb, h.ma, h.mb, ?_⟩
  intro kv hkv
  rcases List.mem_cons.mp hkv with hh | ht
  · subst hh
    exact hv
  · exact Tbl.forall_mem_erase _ _ (fun o : SimOrder => o.price_level < TOP) h.op kv ht

/-- Invariant preservation by erasing an order record. -/
theorem Inv_set_orders_erase (s : OrderBookSimulator) (k : Nat)
    (h : Inv s) : Inv { s with orders := Tbl.erase s.orders k } := by
  refine ⟨h.nk, h.kr, h.sa, h.sb, h.ha, h.hb, h.ma, h.mb, ?_⟩
  exact Tbl.forall_mem_erase _ _ (fun o : SimOrder => o.price_level < TOP) h.op

/-- The empty simulator satisfies the invariant. -/
theorem Inv_new : Inv OrderBookSimulator.new := by
  refine ⟨List.nodup_nil, ?_, ?_, ?_, ?_, ?_, rfl, rfl, ?_⟩
  · intro k hk
    simp [new, Tbl.keys] at hk
  · intro p e _ _ hl
    simp [new, Tbl.lookup] at hl
  · intro p e _ _ hl
    simp [new, Tbl.lookup] at hl
  · intro h0
    exact absurd rfl h0
  · intro h0
    exact absurd rfl h0
  · intro kv hkv
    simp [new] at hkv

end OrderBookSimulator

namespace OrderBookSimulator

/-- The price-level table produced by `remove_price_level` when the
level `(p, ia)` stores entry `e`: patch the predecessor's `next_price`,
the successor's `prev_price`, and erase the level (a `modify` at the
side key of price `0` is the identity on well-ranged tables, matching
the source's skipped branch). -/
def unspliceTbl (t : Tbl SimPriceLevel) (ia : Bool) (p : Nat)
    (e : SimPriceLevel) : Tbl SimPriceLevel :=
  Tbl.erase
    (Tbl.modify
      (Tbl.modify t (get_price_level_key e.prev_price ia)
        (fun l => { l with next_price := e.next_price }))
      (get_price_level_key e.next_price ia)
        (fun l => { l with prev_price := e.prev_price }))
    (get_price_level_key p ia)

/-- Entry-level facts about an unspliced level, from the side invariant. -/
theorem unsplice_facts (t : Tbl SimPriceLevel) (ia : Bool) (p : Nat)
    (e : SimPriceLevel) (hsi : SideInv t ia) (hp0 : 0 < p) (hp : p < TOP)
    (hlk : Tbl.lookup t (get_price_level_key p ia) = some e) :
    e.price = p ∧ e.next_price < TOP ∧ e.prev_price < TOP ∧
    (e.next_price ≠ 0 → sideR ia p e.next_price) ∧
    (e.prev_price ≠ 0 → sideR ia e.prev_price p) := by
  obtain ⟨h1, h2, h3⟩ := hsi p e hp0 hp hlk
  refine ⟨h1, ?_, ?_, fun hn => (h2 hn).2.1, fun hv => (h3 hv).2.1⟩
  · by_cases hn : e.next_price = 0
    · rw [hn]
      exact TOP_pos
    · exact (h2 hn).1
  · by_cases hv : e.prev_price = 0
    · rw [hv]
      exact TOP_pos
    · exact (h3 hv).1

theorem unsplice_lookup_self (t : Tbl SimPriceLevel) (ia : Bool) (p : Nat)
    (e : SimPriceLevel) (hnk : (Tbl.keys t).Nodup) :
    Tbl.lookup (unspliceTbl t ia p e) (get_price_level_key p ia) = none := by
  unfold unspliceTbl
  apply Tbl.lookup_erase_self
  rw [Tbl.keys_modify, Tbl.keys_modify]
  exact hnk

theorem unsplice_lookup_other (t : Tbl SimPriceLevel) (ia : Bool) (p : Nat)
    (e : SimPriceLevel) (hsi : SideInv t ia) (hp0 : 0 < p) (hp : p < TOP)
    (hlk : Tbl.lookup t (get_price_level_key p ia) = some e)
    (q : Nat) (hq : q < TOP) (hqp : q ≠ p) (hqn : q ≠ e.next_price)
    (hqv : q ≠ e.prev_price) :
    Tbl.lookup (unspliceTbl t ia p e) (get_price_level_key q ia) =
      Tbl.lookup t (get_price_level_key q ia) := by
  obtain ⟨_, hnpT, hpvT, _, _⟩ := unsplice_facts t ia p e hsi hp0 hp hlk
  unfold unspliceTbl
  rw [Tbl.lookup_erase_ne _ _ _ (key_ne_same hq hp hqp),
    Tbl.lookup_modify_ne _ _ _ _ (key_ne_same hq hnpT hqn),
    Tbl.lookup_modify_ne _ _ _ _ (key_ne_same hq hpvT hqv)]

theorem unsplice_lookup_np (t : Tbl SimPriceLevel) (ia : Bool) (p : Nat)
    (e : SimPriceLevel) (hsi : SideInv t ia) (hp0 : 0 < p) (hp : p < TOP)
    (hlk : Tbl.lookup t (get_price_level_key p ia) = some e)
    (hn0 : e.next_price ≠ 0) :
    Tbl.lookup (unspliceTbl t ia p e) (get_price_level_key e.next_price ia) =
      (Tbl.lookup t (get_price_level_key e.next_price ia)).map
        (fun l => { l with prev_price := e.prev_price }) := by
  obtain ⟨hep, hnpT, hpvT, hRn, hRv⟩ := unsplice_facts t ia p e hsi hp0 hp hlk
  have hnp_ne_p : e.next_price ≠ p := fun h => sideR_ne (hRn hn0) h.symm
  have hnp_ne_pv : e.next_price ≠ e.prev_price := by
    by_cases hv : e.prev_price = 0
    · rw [hv]
      exact hn0
    · exact fun h => sideR_asymm (hRn hn0) (by rw [h]; exact hRv hv)
  unfold unspliceTbl
  rw [Tbl.lookup_erase_ne _ _ _ (key_ne_same hnpT hp hnp_ne_p),
    Tbl.lookup_modify_self,
    Tbl.lookup_modify_ne _ _ _ _ (key_ne_same hnpT hpvT hnp_ne_pv)]

theorem unsplice_lookup_pv (t : Tbl SimPriceLevel) (ia : Bool) (p : Nat)
    (e : SimPriceLevel) (hsi : SideInv t ia) (hp0 : 0 < p) (hp : p < TOP)
    (hlk : Tbl.lookup t (get_price_level_key p ia) = some e)
    (hv0 : e.prev_price ≠ 0) :
    Tbl.lookup (unspliceTbl t ia p e) (get_price_level_key e.prev_price ia) =
      (Tbl.lookup t (get_price_level_key e.prev_price ia)).map
        (fun l => { l with next_price := e.next_price }) := by
  obtain ⟨hep, hnpT, hpvT, hRn, hRv⟩ := unsplice_facts t ia p e hsi hp0 hp hlk
  have hpv_ne_p : e.prev_price ≠ p := sideR_ne (hRv hv0)
  have hpv_ne_np : e.prev_price ≠ e.next_price := by
    by_cases hn : e.next_price = 0
    · rw [hn]
      exact hv0
    · exact fun h => sideR_asymm (hRv hv0) (by rw [h]; exact hRn hn)
  unfold unspliceTbl
  rw [Tbl.lookup_erase_ne _ _ _ (key_ne_same hpvT hp hpv_ne_p),
    Tbl.lookup_modify_ne _ _ _ _ (key_ne_same hpvT hnpT hpv_ne_np),
    Tbl.lookup_modify_self]

end OrderBookSimulator

namespace OrderBookSimulator

/-- Unsplicing a level preserves the side invariant of its own side. -/
theorem unsplice_side_same (t : Tbl SimPriceLevel) (ia : Bool) (p : Nat)
    (e : SimPriceLevel) (hnk : (Tbl.keys t).Nodup) (hsi : SideInv t ia)
    (hp0 : 0 < p) (hp : p < TOP)
    (hlk : Tbl.lookup t (get_price_level_key p ia) = some e) :
    SideInv (unspliceTbl t ia p e) ia := by
  obtain ⟨hep, hnpT, hpvT, hRn, hRv⟩ := unsplice_facts t ia p e hsi hp0 hp hlk
  have hpv_ne_np : e.next_price ≠ 0 → e.prev_price ≠ e.next_price := by
    intro hn0
    by_cases hv : e.prev_price = 0
    · rw [hv]
      exact Ne.symm hn0
    · exact fun h => sideR_asymm (hRv hv) (by rw [h]; exact hRn hn0)
  obtain ⟨_, henC, hevC⟩ := hsi p e hp0 hp hlk
  intro q eq hq0 hq hlq
  have hq_ne_p : q ≠ p := by
    intro h
    rw [h, unsplice_lookup_self t ia p e hnk] at hlq
    exact Option.noConfusion hlq
  by_cases hqn : q = e.next_price
  · -- the successor of the removed level
    subst hqn
    have hn0 : e.next_price ≠ 0 := by omega
    obtain ⟨_, hRpn, en, hen, hbkn⟩ := henC hn0
    rw [unsplice_lookup_np t ia p e hsi hp0 hp hlk hn0, hen] at hlq
    simp only [Option.map_some', Option.some.injEq] at hlq
    subst hlq
    obtain ⟨hprn, hnnC, hnvC⟩ := hsi e.next_price en hq0 hq hen
    simp only []
    refine ⟨hprn, fun hn2 => ?_, fun hv2 => ?_⟩
    · have hn2' : en.next_price ≠ 0 := hn2
      obtain ⟨hT3, hR3, e3, he3, hbk3⟩ := hnnC hn2'
      have d1 : en.next_price ≠ p := by
        intro hcase
        rw [hcase, hlk] at he3
        injection he3 with he3
        subst he3
        exact hpv_ne_np hn0 hbk3
      have d2 : en.next_price ≠ e.next_price := Ne.symm (sideR_ne hR3)
      have d3 : en.next_price ≠ e.prev_price := by
        intro hcase
        have hv0 : e.prev_price ≠ 0 := by rw [← hcase]; exact hn2'
        exact sideR_asymm (sideR_trans (hRv hv0) (hRn hn0))
          (by rw [← hcase]; exact hR3)
      refine ⟨hT3, hR3, e3, ?_, hbk3⟩
      rw [unsplice_lookup_other t ia p e hsi hp0 hp hlk _ hT3 d1 d2 d3]
      exact he3
    · have hv2' : e.prev_price ≠ 0 := hv2
      obtain ⟨_, hRvp, epv, hepv, hfw⟩ := hevC hv2'
      refine ⟨hpvT, sideR_trans (hRv hv2') (hRn hn0),
        { epv with next_price := e.next_price }, ?_, rfl⟩
      show Tbl.lookup (unspliceTbl t ia p e)
        (get_price_level_key e.prev_price ia) =
          some { epv with next_price := e.next_price }
      rw [unsplice_lookup_pv t ia p e hsi hp0 hp hlk hv2', hepv]
      rfl
  · by_cases hqv : q = e.prev_price
    · -- the predecessor of the removed level
      subst hqv
      have hv0 : e.prev_price ≠ 0 := by omega
      obtain ⟨_, hRvp, epv, hepv, hfw⟩ := hevC hv0
      rw [unsplice_lookup_pv t ia p e hsi hp0 hp hlk hv0, hepv] at hlq
      simp only [Option.map_some', Option.some.injEq] at hlq
      subst hlq
      obtain ⟨hprv, hvnC, hvvC⟩ := hsi e.prev_price epv hq0 hq hepv
      simp only []
      refine ⟨hprv, fun hn2 => ?_, fun hv2 => ?_⟩
      · have hn2' : e.next_price ≠ 0 := hn2
        obtain ⟨_, hRpn, en, hen, hbkn⟩ := henC hn2'
        refine ⟨hnpT, sideR_trans (hRv hv0) (hRn hn2'),
          { en with prev_price := e.prev_price }, ?_, rfl⟩
        show Tbl.lookup (unspliceTbl t ia p e)
          (get_price_level_key e.next_price ia) =
            some { en with prev_price := e.prev_price }
        rw [unsplice_lookup_np t ia p e hsi hp0 hp hlk hn2', hen]
        rfl
      · have hv2' : epv.prev_price ≠ 0 := hv2
        obtain ⟨hT3, hR3, e3, he3, hbk3⟩ := hvvC hv2'
        have d1 : epv.prev_price ≠ p := by
          intro hcase
          rw [hcase, hlk] at he3
          injection he3 with he3
          subst he3
          exact hpv_ne_np (by rw [hbk3]; exact hv0) hbk3.symm
        have d2 : epv.prev_price ≠ e.next_price := by
          intro hcase
          have hn0 : e.next_price ≠ 0 := by rw [← hcase]; exact hv2'
          exact sideR_asymm (hcase ▸ hR3) (sideR_trans (hRv hv0) (hRn hn0))
        have d3 : epv.prev_price ≠ e.prev_price := sideR_ne hR3
        refine ⟨hT3, hR3, e3, ?_, hbk3⟩
        rw [unsplice_lookup_other t ia p e hsi hp0 hp hlk _ hT3 d1 d2 d3]
        exact he3
    · -- a level unrelated to the removed one
      rw [unsplice_lookup_other t ia p e hsi hp0 hp hlk q hq hq_ne_p hqn hqv]
        at hlq
      obtain ⟨h1, h2C, h3C⟩ := hsi q eq hq0 hq hlq
      refine ⟨h1, fun hn => ?_, fun hv => ?_⟩
      · obtain ⟨hT3, hR3, e3, he3, hbk3⟩ := h2C hn
        by_cases d1 : eq.next_price = p
        · rw [d1, hlk] at he3
          injection he3 with he3
          subst he3
          exact absurd hbk3.symm hqv
        by_cases d2 : eq.next_price = e.next_price
        · have hn0 : e.next_price ≠ 0 := by rw [← d2]; exact hn
          obtain ⟨_, hRpn, en, hen, hbkn⟩ := henC hn0
          rw [d2, hen] at he3
          injection he3 with he3
          subst he3
          exact absurd (hbk3.symm.trans hbkn) hq_ne_p
        by_cases d3 : eq.next_price = e.prev_price
        · have hv0 : e.prev_price ≠ 0 := by rw [← d3]; exact hn
          obtain ⟨_, hRvp, epv, hepv, hfw⟩ := hevC hv0
          rw [d3, hepv] at he3
          injection he3 with he3
          subst he3
          refine ⟨hT3, hR3, { epv with next_price := e.next_price }, ?_, hbk3⟩
          rw [d3, unsplice_lookup_pv t ia p e hsi hp0 hp hlk hv0, hepv]
          rfl
        · refine ⟨hT3, hR3, e3, ?_, hbk3⟩
          rw [unsplice_lookup_other t ia p e hsi hp0 hp hlk _ hT3 d1 d2 d3]
          exact he3
      · obtain ⟨hT3, hR3, e3, he3, hbk3⟩ := h3C hv
        by_cases d1 : eq.prev_price = p
        · rw [d1, hlk] at he3
          injection he3 with he3
          subst he3
          exact absurd hbk3.symm hqn
        by_cases d3 : eq.prev_price = e.prev_price
        · have hv0 : e.prev_price ≠ 0 := by rw [← d3]; exact hv
          obtain ⟨_, hRvp, epv, hepv, hfw⟩ := hevC hv0
          rw [d3, hepv] at he3
          injection he3 with he3
          subst he3
          exact absurd (hbk3.symm.trans hfw) hq_ne_p
        by_cases d2 : eq.prev_price = e.next_price
        · have hn0 : e.next_price ≠ 0 := by rw [← d2]; exact hv
          obtain ⟨_, hRpn, en, hen, hbkn⟩ := henC hn0
          rw [d2, hen] at he3
          injection he3 with he3
          subst he3
          refine ⟨hT3, hR3, { en with prev_price := e.prev_price }, ?_, hbk3⟩
          rw [d2, unsplice_lookup_np t ia p e hsi hp0 hp hlk hn0, hen]
          rfl
        · refine ⟨hT3, hR3, e3, ?_, hbk3⟩
          rw [unsplice_lookup_other t ia p e hsi hp0 hp hlk _ hT3 d1 d2 d3]
          exact he3

end OrderBookSimulator

namespace OrderBookSimulator

/-- Unsplicing a level leaves every lookup of the opposite side's keys
unchanged. -/
theorem unsplice_lookup_cross (t : Tbl SimPriceLevel) (ia : Bool) (p : Nat)
    (e : SimPriceLevel) (hsi : SideInv t ia) (hp0 : 0 < p) (hp : p < TOP)
    (hlk : Tbl.lookup t (get_price_level_key p ia) = some e)
    (ib : Bool) (hib : ib ≠ ia) (r : Nat) (hr : r < TOP) :
    Tbl.lookup (unspliceTbl t ia p e) (get_price_level_key r ib) =
      Tbl.lookup t (get_price_level_key r ib) := by
  obtain ⟨_, hnpT, hpvT, _, _⟩ := unsplice_facts t ia p e hsi hp0 hp hlk
  unfold unspliceTbl
  rw [Tbl.lookup_erase_ne _ _ _ (key_ne_diff hr hp hib),
    Tbl.lookup_modify_ne _ _ _ _ (key_ne_diff hr hnpT hib),
    Tbl.lookup_modify_ne _ _ _ _ (key_ne_diff hr hpvT hib)]

theorem unsplice_side_other (t : Tbl SimPriceLevel) (ia : Bool) (p : Nat)
    (e : SimPriceLevel) (hsi : SideInv t ia) (hp0 : 0 < p) (hp : p < TOP)
    (hlk : Tbl.lookup t (get_price_level_key p ia) = some e)
    (ib : Bool) (hib : ib ≠ ia) (hso : SideInv t ib) :
    SideInv (unspliceTbl t ia p e) ib :=
  SideInv_congr
    (fun r hr => unsplice_lookup_cross t ia p e hsi hp0 hp hlk ib hib r hr) hso

theorem unsplice_head_other (t : Tbl SimPriceLevel) (ia : Bool) (p : Nat)
    (e : SimPriceLevel) (hsi : SideInv t ia) (hp0 : 0 < p) (hp : p < TOP)
    (hlk : Tbl.lookup t (get_price_level_key p ia) = some e)
    (ib : Bool) (hib : ib ≠ ia) (hd : Nat) (hh : HeadInv t ib hd) :
    HeadInv (unspliceTbl t ia p e) ib hd :=
  HeadInv_congr
    (fun r hr => unsplice_lookup_cross t ia p e hsi hp0 hp hlk ib hib r hr) hh

/-- When the removed level has a predecessor, the side head is unchanged
and keeps its properties. -/
theorem unsplice_head_keep (t : Tbl SimPriceLevel) (ia : Bool) (p : Nat)
    (e : SimPriceLevel) (hsi : SideInv t ia)
    (hp0 : 0 < p) (hp : p < TOP)
    (hlk : Tbl.lookup t (get_price_level_key p ia) = some e)
    (hpv : e.prev_price ≠ 0) (hd : Nat) (hh : HeadInv t ia hd) :
    HeadInv (unspliceTbl t ia p e) ia hd := by
  obtain ⟨hep, hnpT, hpvT, hRn, hRv⟩ := unsplice_facts t ia p e hsi hp0 hp hlk
  intro h0
  obtain ⟨hhT, ehd, hehd, hhp⟩ := hh h0
  refine ⟨hhT, ?_⟩
  have hd_ne_p : hd ≠ p := by
    intro hcase
    rw [hcase, hlk] at hehd
    injection hehd with hehd
    subst hehd
    exact hpv hhp
  by_cases hdn : hd = e.next_price
  · -- impossible: the successor has the removed level as predecessor
    exfalso
    have hn0 : e.next_price ≠ 0 := by rw [← hdn]; exact h0
    obtain ⟨_, h2, _⟩ := hsi p e hp0 hp hlk
    obtain ⟨_, _, en, hen, hbkn⟩ := h2 hn0
    rw [hdn, hen] at hehd
    injection hehd with hehd
    subst hehd
    rw [hhp] at hbkn
    omega
  · by_cases hdv : hd = e.prev_price
    · refine ⟨{ ehd with next_price := e.next_price }, ?_, hhp⟩
      rw [hdv] at hehd ⊢
      rw [unsplice_lookup_pv t ia p e hsi hp0 hp hlk hpv, hehd]
      rfl
    · refine ⟨ehd, ?_, hhp⟩
      rw [unsplice_lookup_other t ia p e hsi hp0 hp hlk hd hhT hd_ne_p hdn hdv]
      exact hehd

/-- When the removed level has no predecessor, its successor becomes a
well-formed head. -/
theorem unsplice_head_new (t : Tbl SimPriceLevel) (ia : Bool) (p : Nat)
    (e : SimPriceLevel) (hsi : SideInv t ia) (hp0 : 0 < p) (hp : p < TOP)
    (hlk : Tbl.lookup t (get_price_level_key p ia) = some e)
    (hpv : e.prev_price = 0) :
    HeadInv (unspliceTbl t ia p e) ia e.next_price := by
  intro h0
  obtain ⟨_, h2, _⟩ := hsi p e hp0 hp hlk
  obtain ⟨hnpT, _, en, hen, _⟩ := h2 h0
  refine ⟨hnpT, { en with prev_price := e.prev_price }, ?_, hpv⟩
  rw [unsplice_lookup_np t ia p e hsi hp0 hp hlk h0, hen]
  rfl

theorem unsplice_nodup (t : Tbl SimPriceLevel) (ia : Bool) (p : Nat)
    (e : SimPriceLevel) (hnk : (Tbl.keys t).Nodup) :
    (Tbl.keys (unspliceTbl t ia p e)).Nodup := by
  unfold unspliceTbl
  apply Tbl.nodup_keys_erase
  rw [Tbl.keys_modify, Tbl.keys_modify]
  exact hnk

theorem unsplice_range (t : Tbl SimPriceLevel) (ia : Bool) (p : Nat)
    (e : SimPriceLevel)
    (hkr : ∀ k ∈ Tbl.keys t, 0 < k ∧ k < TOP ∨ TOP < k ∧ k < 2 * TOP) :
    ∀ k ∈ Tbl.keys (unspliceTbl t ia p e),
      0 < k ∧ k < TOP ∨ TOP < k ∧ k < 2 * TOP := by
  intro k hk
  apply hkr
  unfold unspliceTbl at hk
  have h1 := (Tbl.keys_erase_sublist _ _).subset hk
  rw [Tbl.keys_modify, Tbl.keys_modify] at h1
  exact h1

end OrderBookSimulator

namespace OrderBookSimulator

theorem remove_price_level_orders_eq (s : OrderBookSimulator) (p : Nat)
    (ia : Bool) : (remove_price_level s p ia).orders = s.orders := by
  unfold remove_price_level
  simp only []
  cases hlk : Tbl.lookup s.price_levels (get_price_level_key p ia) with
  | none => rfl
  | some e =>
    simp only []
    split_ifs <;> rfl

theorem remove_price_level_market (s : OrderBookSimulator) (p : Nat)
    (ia : Bool) :
    (remove_price_level s p ia).market_ask_head = s.market_ask_head ∧
    (remove_price_level s p ia).market_bid_head = s.market_bid_head := by
  unfold remove_price_level
  simp only []
  cases hlk : Tbl.lookup s.price_levels (get_price_level_key p ia) with
  | none => exact ⟨rfl, rfl⟩
  | some e =>
    simp only []
    constructor <;> (split_ifs <;> rfl)

theorem remove_price_level_tbl (s : OrderBookSimulator) (p : Nat) (ia : Bool)
    (e : SimPriceLevel)
    (hlk : Tbl.lookup s.price_levels (get_price_level_key p ia) = some e)
    (h0 : get_price_level_key 0 ia ∉ Tbl.keys s.price_levels) :
    (remove_price_level s p ia).price_levels =
      unspliceTbl s.price_levels ia p e := by
  unfold remove_price_level
  simp only []
  rw [hlk]
  simp only []
  cases ia <;> by_cases h1 : e.prev_price = 0 <;>
    by_cases h2 : e.next_price = 0 <;>
      simp [unspliceTbl, h1, h2, Tbl.modify_of_not_mem, Tbl.keys_modify, h0]

theorem remove_price_level_head_same (s : OrderBookSimulator) (p : Nat)
    (ia : Bool) (e : SimPriceLevel)
    (hlk : Tbl.lookup s.price_levels (get_price_level_key p ia) = some e) :
    head_ptr (remove_price_level s p ia) ia =
      (if e.prev_price = 0 then e.next_price else head_ptr s ia) := by
  unfold remove_price_level
  simp only []
  rw [hlk]
  simp only []
  cases ia <;> by_cases h1 : e.prev_price = 0 <;>
    by_cases h2 : e.next_price = 0 <;> simp [head_ptr, h1, h2]

theorem remove_price_level_head_other (s : OrderBookSimulator) (p : Nat)
    (ia : Bool) (e : SimPriceLevel)
    (hlk : Tbl.lookup s.price_levels (get_price_level_key p ia) = some e)
    (ib : Bool) (hib : ib ≠ ia) :
    head_ptr (remove_price_level s p ia) ib = head_ptr s ib := by
  unfold remove_price_level
  simp only []
  rw [hlk]
  simp only []
  cases ia <;> cases ib <;> first
    | exact absurd rfl hib
    | (by_cases h1 : e.prev_price = 0 <;> by_cases h2 : e.next_price = 0 <;>
        simp [head_ptr, h1, h2])

end OrderBookSimulator

namespace OrderBookSimulator

/-- `remove_price_level` preserves the simulator invariant for any
target price below `2^255` (including absent prices and the sentinel
price `0`, for which it is a no-op). -/
theorem Inv_remove_price_level (s : OrderBookSimulator) (p : Nat) (ia : Bool)
    (hp : p < TOP) (h : Inv s) : Inv (remove_price_level s p ia) := by
  cases hlk : Tbl.lookup s.price_levels (get_price_level_key p ia) with
  | none =>
    have hnone : remove_price_level s p ia = s := by
      unfold remove_price_level
      simp only []
      rw [hlk]
    rw [hnone]
    exact h
  | some e =>
    have hp0 : 0 < p := by
      by_contra h0
      have hp00 : p = 0 := by omega
      subst hp00
      rw [lookup_zero_key s.price_levels ia h.kr] at hlk
      exact Option.noConfusion hlk
    have h0 := not_mem_zero_key s.price_levels ia h.kr
    have htbl := remove_price_level_tbl s p ia e hlk h0
    have hsi := h.sideI ia
    apply Inv.build
    · rw [htbl]
      exact unsplice_nodup _ _ _ _ h.nk
    · rw [htbl]
      exact unsplice_range _ _ _ _ h.kr
    · intro ib
      by_cases hib : ib = ia
    
      · subst hib
        rw [htbl]
        exact unsplice_side_same _ _ _ _ h.nk hsi hp0 hp hlk
      · rw [htbl]
        exact unsplice_side_other _ _ _ _ hsi hp0 hp hlk ib hib (h.sideI ib)
    · intro ib
      by_cases hib : ib = ia
      · subst hib
        rw [htbl, remove_price_level_head_same s p ib e hlk]
        by_cases hpv : e.prev_price = 0
        · rw [if_pos hpv]
          exact unsplice_head_new _ _ _ _ hsi hp0 hp hlk hpv
        · rw [if_neg hpv]
          exact unsplice_head_keep _ _ _ _ hsi hp0 hp hlk hpv _ (h.headI ib)
      · rw [htbl, remove_price_level_head_other s p ia e hlk ib hib]
        exact unsplice_head_other _ _ _ _ hsi hp0 hp hlk ib hib _ (h.headI ib)
    · rw [(remove_price_level_market s p ia).1]
      exact h.ma
    · rw [(remove_price_level_market s p ia).2]
      exact h.mb
    · rw [remove_price_level_orders_eq]
      exact h.op

end OrderBookSimulator

namespace OrderBookSimulator

theorem sideR_of_cond {ia : Bool} {p c : Nat} (hne : p ≠ c)
    (hcond : if ia then p ≤ c else c ≤ p) : sideR ia p c := by
  cases ia
  · rw [if_neg (by simp)] at hcond
    simp only [sideR]
    omega
  · rw [if_pos rfl] at hcond
    simp only [sideR]
    omega

theorem sideR_of_not_cond {ia : Bool} {p c : Nat}
    (hcond : ¬(if ia then p ≤ c else c ≤ p)) : sideR ia c p := by
  cases ia
  · rw [if_neg (by simp)] at hcond
    simp only [sideR]
    omega
  · rw [if_pos rfl] at hcond
    simp only [sideR]
    omega

/-- Termination measure of the `find_insert_position` walk: the number
of stored levels between the walk position and the end of its side. -/
def msr : Bool → Nat → Tbl SimPriceLevel → Nat
  | true, cur, t => (t.filter (fun kv => decide (cur ≤ kv.1 ∧ kv.1 < TOP))).length
  | false, cur, t =>
    (t.filter (fun kv => decide (TOP < kv.1 ∧ kv.1 ≤ cur + TOP))).length

theorem msr_le (ia : Bool) (cur : Nat) (t : Tbl SimPriceLevel) :
    msr ia cur t ≤ t.length := by
  cases ia <;> simp only [msr] <;> exact List.length_filter_le _ _

/-- Advancing the walk to a strictly worse price shrinks the measure. -/
theorem msr_lt (t : Tbl SimPriceLevel) (ia : Bool) (cur nxt : Nat)
    (ec : SimPriceLevel) (h0c : 0 < cur) (hcT : cur < TOP)
    (hlc : Tbl.lookup t (get_price_level_key cur ia) = some ec)
    (hR : sideR ia cur nxt) (hnT : nxt < TOP) :
    msr ia nxt t < msr ia cur t := by
  cases ia
  · simp only [sideR] at hR
    simp only [msr]
    apply filter_length_lt t _ _ ?_ (get_price_level_key cur false, ec)
      (Tbl.mem_of_lookup _ _ _ hlc) ?_ ?_
    · intro x hx
      simp only [decide_eq_true_eq] at hx ⊢
      omega
    · simp only [decide_eq_true_eq, key_eq_bid hcT]
      omega
    · simp only [decide_eq_false_iff_not, decide_eq_true_eq, key_eq_bid hcT]
      omega
  · simp only [sideR] at hR
    simp only [msr]
    apply filter_length_lt t _ _ ?_ (get_price_level_key cur true, ec)
      (Tbl.mem_of_lookup _ _ _ hlc) ?_ ?_
    · intro x hx
      simp only [decide_eq_true_eq] at hx ⊢
      omega
    · simp only [decide_eq_true_eq, key_eq_ask]
      omega
    · simp only [decide_eq_false_iff_not, decide_eq_true_eq, key_eq_ask]
      omega

/-- Full characterization of the `find_insert_position` walk loop under
the invariant, for a fresh price: it returns `0` only from an empty
prefix (insert at head, before a strictly worse head), otherwise it
returns an existing level strictly better than `p` whose successor, if
any, is strictly worse than `p`. -/
theorem find_insert_position_go_spec (s : OrderBookSimulator) (ia : Bool)
    (p : Nat) (h : Inv s) (hp0 : 0 < p) (hp : p < TOP)
    (hfresh : Tbl.lookup s.price_levels (get_price_level_key p ia) = none) :
    ∀ fuel cur prev, cur ≠ 0 → cur < TOP →
      (∃ ec, Tbl.lookup s.price_levels (get_price_level_key cur ia) = some ec) →
      (prev = 0 ∨ (prev ≠ 0 ∧ prev < TOP ∧ sideR ia prev p ∧
        ∃ ep, Tbl.lookup s.price_levels (get_price_level_key prev ia) = some ep ∧
          ep.next_price = cur)) →
      msr ia cur s.price_levels < fuel →
      (find_insert_position_go s ia p fuel cur prev = 0 ∧ prev = 0 ∧
        sideR ia p cur) ∨
      (find_insert_position_go s ia p fuel cur prev ≠ 0 ∧
        find_insert_position_go s ia p fuel cur prev < TOP ∧
        ∃ er, Tbl.lookup s.price_levels
            (get_price_level_key (find_insert_position_go s ia p fuel cur prev) ia) =
              some er ∧
          sideR ia (find_insert_position_go s ia p fuel cur prev) p ∧
          (er.next_price ≠ 0 → sideR ia p er.next_price)) := by
  intro fuel
  induction fuel with
  | zero =>
    intro cur prev _ _ _ _ hfuel
    omega
  | succ n ih =>
    intro cur prev hc0 hcT hce hprev hfuel
    obtain ⟨ec, hec⟩ := hce
    have hcpos : 0 < cur := Nat.pos_of_ne_zero hc0
    obtain ⟨hpr, hnC, hvC⟩ := h.sideI ia cur ec hcpos hcT hec
    simp only [find_insert_position_go]
    rw [if_neg hc0, hec]
    simp only []
    by_cases hcond : (if ia then p ≤ ec.price else ec.price ≤ p)
    · rw [if_pos hcond]
      have hne : p ≠ cur := by
        intro hcase
        rw [hcase, hec] at hfresh
        exact Option.noConfusion hfresh
      have hRpc : sideR ia p cur :=
        sideR_of_cond hne (by rw [hpr] at hcond; exact hcond)
      rcases hprev with h0 | ⟨hpne, hpT, hRpp, ep, hep, hepc⟩
      · subst h0
        exact Or.inl ⟨rfl, rfl, hRpc⟩
      · refine Or.inr ⟨hpne, hpT, ep, hep, hRpp, fun _ => ?_⟩
        rw [hepc]
        exact hRpc
    · rw [if_neg hcond]
      have hRcp : sideR ia cur p :=
        sideR_of_not_cond (by rw [hpr] at hcond; exact hcond)
      by_cases hnx : ec.next_price = 0
      · have hres : find_insert_position_go s ia p n ec.next_price cur = cur := by
          rw [hnx]
          cases n with
          | zero => rfl
          | succ m => simp [find_insert_position_go]
        rw [hres]
        exact Or.inr ⟨hc0, hcT, ec, hec, hRcp, fun hn => absurd hnx hn⟩
      · obtain ⟨hnT, hRcn, en, hen, hbk⟩ := hnC hnx
        have hdec := msr_lt s.price_levels ia cur ec.next_price ec hcpos hcT
          hec hRcn hnT
        rcases ih ec.next_price cur hnx hnT ⟨en, hen⟩
          (Or.inr ⟨hc0, hcT, hRcp, ec, hec, rfl⟩) (by omega) with
          ⟨_, hcur0, _⟩ | hr
        · exact absurd hcur0 hc0
        · exact Or.inr hr

/-- Characterization of `find_insert_position` for a fresh price under
the invariant. -/
theorem find_insert_position_spec (s : OrderBookSimulator) (ia : Bool)
    (p : Nat) (h : Inv s) (hp0 : 0 < p) (hp : p < TOP)
    (hfresh : Tbl.lookup s.price_levels (get_price_level_key p ia) = none) :
    (find_insert_position s p ia = 0 ∧
      (head_ptr s ia = 0 ∨
        (head_ptr s ia ≠ 0 ∧ sideR ia p (head_ptr s ia)))) ∨
    (find_insert_position s p ia ≠ 0 ∧ find_insert_position s p ia < TOP ∧
      ∃ er, Tbl.lookup s.price_levels
          (get_price_level_key (find_insert_position s p ia) ia) = some er ∧
        sideR ia (find_insert_position s p ia) p ∧
        (er.next_price ≠ 0 → sideR ia p er.next_price)) := by
  have hcont : Tbl.contains s.price_levels (get_price_level_key p ia) = false := by
    unfold Tbl.contains
    rw [hfresh]
    rfl
  unfold find_insert_position
  simp only []
  rw [hcont]
  simp only [Bool.false_eq_true, if_false]
  by_cases hh : head_ptr s ia = 0
  · rw [show (if ia then s.ask_head else s.bid_head) = head_ptr s ia from rfl,
      if_pos hh]
    exact Or.inl ⟨rfl, Or.inl hh⟩
  · rw [show (if ia then s.ask_head else s.bid_head) = head_ptr s ia from rfl,
      if_neg hh]
    obtain ⟨hhT, eh, heh, hhp⟩ := h.headI ia hh
    have hmsr : msr ia (head_ptr s ia) s.price_levels <
        s.price_levels.length + 1 :=
      Nat.lt_succ_of_le (msr_le _ _ _)
    rcases find_insert_position_go_spec s ia p h hp0 hp hfresh
      (s.price_levels.length + 1) (head_ptr s ia) 0 hh hhT ⟨eh, heh⟩
      (Or.inl rfl) hmsr with ⟨hz, _, hR⟩ | hr
    · exact Or.inl ⟨hz, Or.inr ⟨hh, hR⟩⟩
    · exact Or.inr hr

end OrderBookSimulator

namespace OrderBookSimulator

/-- Table produced by a head splice of fresh price `p` before old head
`oldh`. -/
def spliceHeadTbl (t : Tbl SimPriceLevel) (ia : Bool) (p oldh : Nat) :
    Tbl SimPriceLevel :=
  Tbl.modify
    (Tbl.modify (Tbl.insert t (get_price_level_key p ia) ⟨p, 0, 0, 0, 0, 0⟩)
      (get_price_level_key oldh ia) (fun l => { l with prev_price := p }))
    (get_price_level_key p ia) (fun l => { l with next_price := oldh })

/-- Table produced by splicing fresh price `p` after anchor `a` whose
successor is `n` (the `n`-modify is the identity when `n = 0`, matching
the source's skipped branch on a well-ranged table). -/
def spliceAfterTbl (t : Tbl SimPriceLevel) (ia : Bool) (p a n : Nat) :
    Tbl SimPriceLevel :=
  Tbl.modify
    (Tbl.modify
      (Tbl.modify (Tbl.insert t (get_price_level_key p ia) ⟨p, 0, 0, 0, 0, 0⟩)
        (get_price_level_key p ia)
          (fun l => { l with prev_price := a, next_price := n }))
      (get_price_level_key a ia) (fun l => { l with next_price := p }))
    (get_price_level_key n ia) (fun l => { l with prev_price := p })

theorem keys_insert_fresh (t : Tbl SimPriceLevel) (ia : Bool) (p : Nat)
    (hp0 : 0 < p) (hp : p < TOP)
    (h0 : get_price_level_key 0 ia ∉ Tbl.keys t) (v : SimPriceLevel) :
    get_price_level_key 0 ia ∉
      Tbl.keys (Tbl.insert t (get_price_level_key p ia) v) := by
  intro hm
  rcases List.mem_cons.mp hm with hh | ht
  · exact key_ne_same TOP_pos hp (by omega) hh
  · exact h0 ((Tbl.keys_erase_sublist _ _).subset ht)

/-- `find_or_create_price_level` on a fresh price with hint `0` into an
empty side: the record changes. -/
theorem foc_parts_head_empty (s : OrderBookSimulator) (p : Nat) (ia : Bool)
    (hfresh : Tbl.lookup s.price_levels (get_price_level_key p ia) = none)
    (hh : head_ptr s ia = 0) :
    (find_or_create_price_level s p ia 0).price_levels =
      Tbl.insert s.price_levels (get_price_level_key p ia) ⟨p, 0, 0, 0, 0, 0⟩ ∧
    head_ptr (find_or_create_price_level s p ia 0) ia = p ∧
    (∀ ib, ib ≠ ia → head_ptr (find_or_create_price_level s p ia 0) ib =
      head_ptr s ib) ∧
    (find_or_create_price_level s p ia 0).orders = s.orders ∧
    (find_or_create_price_level s p ia 0).market_ask_head = s.market_ask_head ∧
    (find_or_create_price_level s p ia 0).market_bid_head = s.market_bid_head := by
  have hcont : Tbl.contains s.price_levels (get_price_level_key p ia) = false := by
    unfold Tbl.contains
    rw [hfresh]
    rfl
  unfold find_or_create_price_level insert_price_level_into_list
  simp only []
  rw [hcont]
  simp only [Bool.false_eq_true, if_false]
  refine ⟨?_, ?_, ?_, ?_, ?_, ?_⟩ <;>
    (cases ia <;> simp_all [head_ptr]) <;> (intro ib hib; cases ib <;> simp_all)

/-- `find_or_create_price_level` on a fresh price with hint `0` into a
nonempty side: head splice. -/
theorem foc_parts_head_nonempty (s : OrderBookSimulator) (p : Nat) (ia : Bool)
    (hfresh : Tbl.lookup s.price_levels (get_price_level_key p ia) = none)
    (hh : head_ptr s ia ≠ 0) :
    (find_or_create_price_level s p ia 0).price_levels =
      spliceHeadTbl s.price_levels ia p (head_ptr s ia) ∧
    head_ptr (find_or_create_price_level s p ia 0) ia = p ∧
    (∀ ib, ib ≠ ia → head_ptr (find_or_create_price_level s p ia 0) ib =
      head_ptr s ib) ∧
    (find_or_create_price_level s p ia 0).orders = s.orders ∧
    (find_or_create_price_level s p ia 0).market_ask_head = s.market_ask_head ∧
    (find_or_create_price_level s p ia 0).market_bid_head = s.market_bid_head := by
  have hcont : Tbl.contains s.price_levels (get_price_level_key p ia) = false := by
    unfold Tbl.contains
    rw [hfresh]
    rfl
  unfold find_or_create_price_level insert_price_level_into_list
  simp only []
  rw [hcont]
  simp only [Bool.false_eq_true, if_false]
  refine ⟨?_, ?_, ?_, ?_, ?_, ?_⟩ <;>
    (cases ia <;> simp_all [head_ptr, spliceHeadTbl]) <;>
      (intro ib hib; cases ib <;> simp_all)

/-- `find_or_create_price_level` on a fresh price with a nonzero anchor
hint: splice after the anchor. -/
theorem foc_parts_after (s : OrderBookSimulator) (p : Nat) (ia : Bool)
    (a : Nat) (ea : SimPriceLevel)
    (hfresh : Tbl.lookup s.price_levels (get_price_level_key p ia) = none)
    (hp0 : 0 < p) (hp : p < TOP)
    (h0 : get_price_level_key 0 ia ∉ Tbl.keys s.price_levels)
    (ha0 : a ≠ 0) (haT : a < TOP) (hap : a ≠ p)
    (hlka : Tbl.lookup s.price_levels (get_price_level_key a ia) = some ea) :
    (find_or_create_price_level s p ia a).price_levels =
      spliceAfterTbl s.price_levels ia p a ea.next_price ∧
    (∀ ib, head_ptr (find_or_create_price_level s p ia a) ib =
      head_ptr s ib) ∧
    (find_or_create_price_level s p ia a).orders = s.orders ∧
    (find_or_create_price_level s p ia a).market_ask_head = s.market_ask_head ∧
    (find_or_create_price_level s p ia a).market_bid_head = s.market_bid_head := by
  have hcont : Tbl.contains s.price_levels (get_price_level_key p ia) = false := by
    unfold Tbl.contains
    rw [hfresh]
    rfl
  have hK0 := keys_insert_fresh s.price_levels ia p hp0 hp h0
    (⟨p, 0, 0, 0, 0, 0⟩ : SimPriceLevel)
  have hlka2 : Tbl.lookup
      (Tbl.insert s.price_levels (get_price_level_key p ia)
        (⟨p, 0, 0, 0, 0, 0⟩ : SimPriceLevel)) (get_price_level_key a ia) =
      some ea := by
    rw [Tbl.lookup_insert_ne _ _ _ _ (key_ne_same haT hp hap)]
    exact hlka
  unfold find_or_create_price_level insert_price_level_into_list
  simp only []
  rw [hcont]
  simp only [Bool.false_eq_true, if_false]
  rw [if_neg ha0]
  rw [hlka2]
  simp only []
  refine ⟨?_, ?_, ?_, ?_, ?_⟩ <;>
    (cases ia <;> by_cases hn : ea.next_price = 0 <;>
      simp_all [head_ptr, spliceAfterTbl, Tbl.modify_of_not_mem,
        Tbl.keys_modify]) <;> (intro ib; cases ib <;> simp_all)

end OrderBookSimulator

namespace OrderBookSimulator

/-- Inserting a fresh, empty level record preserves both side
invariants: the new level has no links, and no existing level links to
an absent price. -/
theorem insert_fresh_side (t : Tbl SimPriceLevel) (ia : Bool) (p : Nat)
    (hfresh : Tbl.lookup t (get_price_level_key p ia) = none)
    (hp0 : 0 < p) (hp : p < TOP) (ib : Bool) (hs : SideInv t ib) :
    SideInv (Tbl.insert t (get_price_level_key p ia)
      (⟨p, 0, 0, 0, 0, 0⟩ : SimPriceLevel)) ib := by
  intro q eq hq0 hq hlq
  by_cases hqk : get_price_level_key q ib = get_price_level_key p ia
  · have hqp : q = p := by
      by_cases hib : ib = ia
      · rw [hib] at hqk
        exact key_inj_same hq hp hqk
      · exact absurd hqk (key_ne_diff hq hp hib)
    rw [hqk, Tbl.lookup_insert_self] at hlq
    injection hlq with hlq
    subst hlq
    exact ⟨hqp.symm, fun hn => absurd rfl hn, fun hv => absurd rfl hv⟩
  · rw [Tbl.lookup_insert_ne _ _ _ _ hqk] at hlq
    obtain ⟨h1, h2, h3⟩ := hs q eq hq0 hq hlq
    refine ⟨h1, fun hn => ?_, fun hv => ?_⟩
    · obtain ⟨hT3, hR3, e2, he2, hbk⟩ := h2 hn
      have hne2 : get_price_level_key eq.next_price ib ≠
          get_price_level_key p ia := by
        intro hk
        rw [hk, hfresh] at he2
        exact Option.noConfusion he2
      exact ⟨hT3, hR3, e2,
        by rw [Tbl.lookup_insert_ne _ _ _ _ hne2]; exact he2, hbk⟩
    · obtain ⟨hT3, hR3, e2, he2, hbk⟩ := h3 hv
      have hne2 : get_price_level_key eq.prev_price ib ≠
          get_price_level_key p ia := by
        intro hk
        rw [hk, hfresh] at he2
        exact Option.noConfusion he2
      exact ⟨hT3, hR3, e2,
        by rw [Tbl.lookup_insert_ne _ _ _ _ hne2]; exact he2, hbk⟩

theorem insert_fresh_head (t : Tbl SimPriceLevel) (ia : Bool) (p : Nat)
    (hfresh : Tbl.lookup t (get_price_level_key p ia) = none)
    (ib : Bool) (hd : Nat) (hh : HeadInv t ib hd) :
    HeadInv (Tbl.insert t (get_price_level_key p ia)
      (⟨p, 0, 0, 0, 0, 0⟩ : SimPriceLevel)) ib hd := by
  intro h0
  obtain ⟨hT, e, he, hp'⟩ := hh h0
  have hne : get_price_level_key hd ib ≠ get_price_level_key p ia := by
    intro hk
    rw [hk, hfresh] at he
    exact Option.noConfusion he
  exact ⟨hT, e, by rw [Tbl.lookup_insert_ne _ _ _ _ hne]; exact he, hp'⟩

theorem insert_fresh_range (t : Tbl SimPriceLevel) (ia : Bool) (p : Nat)
    (hp0 : 0 < p) (hp : p < TOP)
    (hkr : ∀ k ∈ Tbl.keys t, 0 < k ∧ k < TOP ∨ TOP < k ∧ k < 2 * TOP)
    (v : SimPriceLevel) :
    ∀ k ∈ Tbl.keys (Tbl.insert t (get_price_level_key p ia) v),
      0 < k ∧ k < TOP ∨ TOP < k ∧ k < 2 * TOP := by
  intro k hk
  rcases List.mem_cons.mp hk with hh | ht
  · subst hh
    exact key_in_range ia hp0 hp
  · exact hkr _ ((Tbl.keys_erase_sublist _ _).subset ht)

end OrderBookSimulator

namespace OrderBookSimulator

theorem splice_head_lookup_self (t : Tbl SimPriceLevel) (ia : Bool)
    (p oldh : Nat) (hp : p < TOP) (hhT : oldh < TOP) (hph : p ≠ oldh) :
    Tbl.lookup (spliceHeadTbl t ia p oldh) (get_price_level_key p ia) =
      some ⟨p, 0, 0, 0, oldh, 0⟩ := by
  unfold spliceHeadTbl
  rw [Tbl.lookup_modify_self,
    Tbl.lookup_modify_ne _ _ _ _ (key_ne_same hp hhT hph),
    Tbl.lookup_insert_self]
  rfl

theorem splice_head_lookup_h (t : Tbl SimPriceLevel) (ia : Bool)
    (p oldh : Nat) (hp : p < TOP) (hhT : oldh < TOP) (hph : p ≠ oldh)
    (eh : SimPriceLevel)
    (hleh : Tbl.lookup t (get_price_level_key oldh ia) = some eh) :
    Tbl.lookup (spliceHeadTbl t ia p oldh) (get_price_level_key oldh ia) =
      some { eh with prev_price := p } := by
  unfold spliceHeadTbl
  rw [Tbl.lookup_modify_ne _ _ _ _ (key_ne_same hhT hp (Ne.symm hph)),
    Tbl.lookup_modify_self,
    Tbl.lookup_insert_ne _ _ _ _ (key_ne_same hhT hp (Ne.symm hph)), hleh]
  rfl

theorem splice_head_lookup_other (t : Tbl SimPriceLevel) (ia : Bool)
    (p oldh : Nat) (hp : p < TOP) (hhT : oldh < TOP) (r : Nat) (hr : r < TOP)
    (hrp : r ≠ p) (hrh : r ≠ oldh) :
    Tbl.lookup (spliceHeadTbl t ia p oldh) (get_price_level_key r ia) =
      Tbl.lookup t (get_price_level_key r ia) := by
  unfold spliceHeadTbl
  rw [Tbl.lookup_modify_ne _ _ _ _ (key_ne_same hr hp hrp),
    Tbl.lookup_modify_ne _ _ _ _ (key_ne_same hr hhT hrh),
    Tbl.lookup_insert_ne _ _ _ _ (key_ne_same hr hp hrp)]

theorem splice_head_lookup_cross (t : Tbl SimPriceLevel) (ia : Bool)
    (p oldh : Nat) (hp : p < TOP) (hhT : oldh < TOP) (ib : Bool)
    (hib : ib ≠ ia) (r : Nat) (hr : r < TOP) :
    Tbl.lookup (spliceHeadTbl t ia p oldh) (get_price_level_key r ib) =
      Tbl.lookup t (get_price_level_key r ib) := by
  unfold spliceHeadTbl
  rw [Tbl.lookup_modify_ne _ _ _ _ (key_ne_diff hr hp hib),
    Tbl.lookup_modify_ne _ _ _ _ (key_ne_diff hr hhT hib),
    Tbl.lookup_insert_ne _ _ _ _ (key_ne_diff hr hp hib)]

/-- A head splice of a fresh price before a strictly worse head
preserves the side invariant of its own side. -/
theorem splice_head_side (t : Tbl SimPriceLevel) (ia : Bool) (p oldh : Nat)
    (hfresh : Tbl.lookup t (get_price_level_key p ia) = none)
    (hp0 : 0 < p) (hp : p < TOP) (hh0 : oldh ≠ 0) (hhT : oldh < TOP)
    (eh : SimPriceLevel)
    (hleh : Tbl.lookup t (get_price_level_key oldh ia) = some eh)
    (hhp : eh.prev_price = 0) (hRph : sideR ia p oldh) (hS : SideInv t ia) :
    SideInv (spliceHeadTbl t ia p oldh) ia := by
  have hph : p ≠ oldh := sideR_ne hRph
  intro q eq hq0 hq hlq
  by_cases hqp : q = p
  · subst hqp
    rw [splice_head_lookup_self t ia q oldh hq hhT hph] at hlq
    injection hlq with hlq
    subst hlq
    refine ⟨rfl, fun _ => ?_, fun hv => absurd rfl hv⟩
    exact ⟨hhT, hRph, { eh with prev_price := q }, 
      splice_head_lookup_h t ia q oldh hq hhT hph eh hleh, rfl⟩
  · by_cases hqh : q = oldh
    · subst hqh
      rw [splice_head_lookup_h t ia p q hp hq (fun h => hqp h.symm) eh hleh]
        at hlq
      injection hlq with hlq
      subst hlq
      obtain ⟨hpr, hnC, hvC⟩ := hS q eh hq0 hq hleh
      refine ⟨hpr, fun hn => ?_, fun _ => ?_⟩
      · have hn' : eh.next_price ≠ 0 := hn
        obtain ⟨hT3, hR3, e2, he2, hbk⟩ := hnC hn'
        have d1 : eh.next_price ≠ p := by
          intro hcase
          rw [hcase, hfresh] at he2
          exact Option.noConfusion he2
        have d2 : eh.next_price ≠ q := Ne.symm (sideR_ne hR3)
        exact ⟨hT3, hR3, e2,
          by rw [splice_head_lookup_other t ia p q hp hq _ hT3 d1 d2]
             exact he2, hbk⟩
      · exact ⟨hp, hRph, ⟨p, 0, 0, 0, q, 0⟩,
          splice_head_lookup_self t ia p q hp hq hph, rfl⟩
    · rw [splice_head_lookup_other t ia p oldh hp hhT q hq hqp hqh] at hlq
      obtain ⟨h1, h2, h3⟩ := hS q eq hq0 hq hlq
      refine ⟨h1, fun hn => ?_, fun hv => ?_⟩
      · obtain ⟨hT3, hR3, e2, he2, hbk⟩ := h2 hn
        have d1 : eq.next_price ≠ p := by
          intro hcase
          rw [hcase, hfresh] at he2
          exact Option.noConfusion he2
        by_cases d2 : eq.next_price = oldh
        · exfalso
          rw [d2, hleh] at he2
          injection he2 with he2
          subst he2
          rw [hhp] at hbk
          omega
        · exact ⟨hT3, hR3, e2,
            by rw [splice_head_lookup_other t ia p oldh hp hhT _ hT3 d1 d2]
               exact he2, hbk⟩
      · obtain ⟨hT3, hR3, e2, he2, hbk⟩ := h3 hv
        have d1 : eq.prev_price ≠ p := by
          intro hcase
          rw [hcase, hfresh] at he2
          exact Option.noConfusion he2
        by_cases d2 : eq.prev_price = oldh
        · rw [d2, hleh] at he2
          injection he2 with he2
          subst he2
          refine ⟨hT3, hR3, { eh with prev_price := p }, ?_, hbk⟩
          rw [d2]
          exact splice_head_lookup_h t ia p oldh hp hhT hph eh hleh
        · exact ⟨hT3, hR3, e2,
            by rw [splice_head_lookup_other t ia p oldh hp hhT _ hT3 d1 d2]
               exact he2, hbk⟩

theorem splice_head_nodup (t : Tbl SimPriceLevel) (ia : Bool) (p oldh : Nat)
    (hnk : (Tbl.keys t).Nodup) :
    (Tbl.keys (spliceHeadTbl t ia p oldh)).Nodup := by
  unfold spliceHeadTbl
  rw [Tbl.keys_modify, Tbl.keys_modify]
  exact Tbl.nodup_keys_insert _ _ _ hnk

theorem splice_head_range (t : Tbl SimPriceLevel) (ia : Bool) (p oldh : Nat)
    (hp0 : 0 < p) (hp : p < TOP)
    (hkr : ∀ k ∈ Tbl.keys t, 0 < k ∧ k < TOP ∨ TOP < k ∧ k < 2 * TOP) :
    ∀ k ∈ Tbl.keys (spliceHeadTbl t ia p oldh),
      0 < k ∧ k < TOP ∨ TOP < k ∧ k < 2 * TOP := by
  intro k hk
  unfold spliceHeadTbl at hk
  rw [Tbl.keys_modify, Tbl.keys_modify] at hk
  exact insert_fresh_range t ia p hp0 hp hkr _ k hk

end OrderBookSimulator

namespace OrderBookSimulator

theorem splice_after_lookup_self (t : Tbl SimPriceLevel) (ia : Bool)
    (p a n : Nat) (hp : p < TOP) (haT : a < TOP) (hnT : n < TOP)
    (hpa : p ≠ a) (hpn : p ≠ n) :
    Tbl.lookup (spliceAfterTbl t ia p a n) (get_price_level_key p ia) =
      some ⟨p, 0, 0, 0, n, a⟩ := by
  unfold spliceAfterTbl
  rw [Tbl.lookup_modify_ne _ _ _ _ (key_ne_same hp hnT hpn),
    Tbl.lookup_modify_ne _ _ _ _ (key_ne_same hp haT hpa),
    Tbl.lookup_modify_self, Tbl.lookup_insert_self]
  rfl

theorem splice_after_lookup_a (t : Tbl SimPriceLevel) (ia : Bool)
    (p a n : Nat) (hp : p < TOP) (haT : a < TOP) (hnT : n < TOP)
    (hpa : p ≠ a) (han : a ≠ n) (ea : SimPriceLevel)
    (hlka : Tbl.lookup t (get_price_level_key a ia) = some ea) :
    Tbl.lookup (spliceAfterTbl t ia p a n) (get_price_level_key a ia) =
      some { ea with next_price := p } := by
  unfold spliceAfterTbl
  rw [Tbl.lookup_modify_ne _ _ _ _ (key_ne_same haT hnT han),
    Tbl.lookup_modify_self,
    Tbl.lookup_modify_ne _ _ _ _ (key_ne_same haT hp (Ne.symm hpa)),
    Tbl.lookup_insert_ne _ _ _ _ (key_ne_same haT hp (Ne.symm hpa)), hlka]
  rfl

theorem splice_after_lookup_n (t : Tbl SimPriceLevel) (ia : Bool)
    (p a n : Nat) (hp : p < TOP) (haT : a < TOP) (hnT : n < TOP)
    (hpn : p ≠ n) (han : a ≠ n) (en : SimPriceLevel)
    (hlen : Tbl.lookup t (get_price_level_key n ia) = some en) :
    Tbl.lookup (spliceAfterTbl t ia p a n) (get_price_level_key n ia) =
      some { en with prev_price := p } := by
  unfold spliceAfterTbl
  rw [Tbl.lookup_modify_self,
    Tbl.lookup_modify_ne _ _ _ _ (key_ne_same hnT haT (Ne.symm han)),
    Tbl.lookup_modify_ne _ _ _ _ (key_ne_same hnT hp (Ne.symm hpn)),
    Tbl.lookup_insert_ne _ _ _ _ (key_ne_same hnT hp (Ne.symm hpn)), hlen]
  rfl

theorem splice_after_lookup_other (t : Tbl SimPriceLevel) (ia : Bool)
    (p a n : Nat) (hp : p < TOP) (haT : a < TOP) (hnT : n < TOP)
    (r : Nat) (hr : r < TOP) (hrp : r ≠ p) (hra : r ≠ a) (hrn : r ≠ n) :
    Tbl.lookup (spliceAfterTbl t ia p a n) (get_price_level_key r ia) =
      Tbl.lookup t (get_price_level_key r ia) := by
  unfold spliceAfterTbl
  rw [Tbl.lookup_modify_ne _ _ _ _ (key_ne_same hr hnT hrn),
    Tbl.lookup_modify_ne _ _ _ _ (key_ne_same hr haT hra),
    Tbl.lookup_modify_ne _ _ _ _ (key_ne_same hr hp hrp),
    Tbl.lookup_insert_ne _ _ _ _ (key_ne_same hr hp hrp)]

theorem splice_after_lookup_cross (t : Tbl SimPriceLevel) (ia : Bool)
    (p a n : Nat) (hp : p < TOP) (haT : a < TOP) (hnT : n < TOP)
    (ib : Bool) (hib : ib ≠ ia) (r : Nat) (hr : r < TOP) :
    Tbl.lookup (spliceAfterTbl t ia p a n) (get_price_level_key r ib) =
      Tbl.lookup t (get_price_level_key r ib) := by
  unfold spliceAfterTbl
  rw [Tbl.lookup_modify_ne _ _ _ _ (key_ne_diff hr hnT hib),
    Tbl.lookup_modify_ne _ _ _ _ (key_ne_diff hr haT hib),
    Tbl.lookup_modify_ne _ _ _ _ (key_ne_diff hr hp hib),
    Tbl.lookup_insert_ne _ _ _ _ (key_ne_diff hr hp hib)]

theorem splice_after_nodup (t : Tbl SimPriceLevel) (ia : Bool) (p a n : Nat)
    (hnk : (Tbl.keys t).Nodup) :
    (Tbl.keys (spliceAfterTbl t ia p a n)).Nodup := by
  unfold spliceAfterTbl
  rw [Tbl.keys_modify, Tbl.keys_modify, Tbl.keys_modify]
  exact Tbl.nodup_keys_insert _ _ _ hnk

theorem splice_after_range (t : Tbl SimPriceLevel) (ia : Bool) (p a n : Nat)
    (hp0 : 0 < p) (hp : p < TOP)
    (hkr : ∀ k ∈ Tbl.keys t, 0 < k ∧ k < TOP ∨ TOP < k ∧ k < 2 * TOP) :
    ∀ k ∈ Tbl.keys (spliceAfterTbl t ia p a n),
      0 < k ∧ k < TOP ∨ TOP < k ∧ k < 2 * TOP := by
  intro k hk
  unfold spliceAfterTbl at hk
  rw [Tbl.keys_modify, Tbl.keys_modify, Tbl.keys_modify] at hk
  exact insert_fresh_range t ia p hp0 hp hkr _ k hk

end OrderBookSimulator

namespace OrderBookSimulator

/-- Splicing a fresh price after a strictly better anchor preserves the
side invariant of its own side. -/
theorem splice_after_side (t : Tbl SimPriceLevel) (ia : Bool) (p a : Nat)
    (ea : SimPriceLevel)
    (hfresh : Tbl.lookup t (get_price_level_key p ia) = none)
    (hp0 : 0 < p) (hp : p < TOP) (ha0 : a ≠ 0) (haT : a < TOP)
    (hRap : sideR ia a p)
    (hRpn : ea.next_price ≠ 0 → sideR ia p ea.next_price)
    (hlka : Tbl.lookup t (get_price_level_key a ia) = some ea)
    (hS : SideInv t ia) :
    SideInv (spliceAfterTbl t ia p a ea.next_price) ia := by
  have hap : a ≠ p := sideR_ne hRap
  obtain ⟨hpra, hnCa, hvCa⟩ := hS a ea (Nat.pos_of_ne_zero ha0) haT hlka
  have hnT : ea.next_price < TOP := by
    by_cases hn : ea.next_price = 0
    · rw [hn]
      exact TOP_pos
    · exact (hnCa hn).1
  have hpn : p ≠ ea.next_price := by
    by_cases hn : ea.next_price = 0
    · rw [hn]
      omega
    · exact sideR_ne (hRpn hn)
  have han : a ≠ ea.next_price := by
    by_cases hn : ea.next_price = 0
    · rw [hn]
      exact ha0
    · exact sideR_ne (sideR_trans hRap (hRpn hn))
  intro q eq hq0 hq hlq
  by_cases hqp : q = p
  · subst hqp
    rw [splice_after_lookup_self t ia q a ea.next_price hq haT hnT
      (Ne.symm hap) hpn] at hlq
    injection hlq with hlq
    subst hlq
    refine ⟨rfl, fun hn => ?_, fun _ => ?_⟩
    · have hn' : ea.next_price ≠ 0 := hn
      obtain ⟨hnT2, hRan, en, hlen, hbkn⟩ := hnCa hn'
      exact ⟨hnT, hRpn hn', { en with prev_price := q },
        splice_after_lookup_n t ia q a ea.next_price hq haT hnT hpn han
          en hlen, rfl⟩
    · exact ⟨haT, hRap, { ea with next_price := q },
        splice_after_lookup_a t ia q a ea.next_price hq haT hnT
          (Ne.symm hap) han ea hlka, rfl⟩
  · by_cases hqa : q = a
    · subst hqa
      rw [splice_after_lookup_a t ia p q ea.next_price hp hq hnT
        (Ne.symm hap) han ea hlka] at hlq
      injection hlq with hlq
      subst hlq
      refine ⟨hpra, fun _ => ?_, fun hv => ?_⟩
      · exact ⟨hp, hRap, ⟨p, 0, 0, 0, ea.next_price, q⟩,
          splice_after_lookup_self t ia p q ea.next_price hp hq hnT
            (Ne.symm hap) hpn, rfl⟩
      · have hv' : ea.prev_price ≠ 0 := hv
        obtain ⟨hT3, hR3, e2, he2, hbk⟩ := hvCa hv'
        have d1 : ea.prev_price ≠ p := by
          intro hcase
          rw [hcase, hfresh] at he2
          exact Option.noConfusion he2
        have d2 : ea.prev_price ≠ q := sideR_ne hR3
        have d3 : ea.prev_price ≠ ea.next_price := by
          intro hcase
          have hn' : ea.next_price ≠ 0 := by
            rw [← hcase]
            exact hv'
          exact sideR_asymm (sideR_trans hRap (hRpn hn'))
            (by rw [← hcase]; exact hR3)
        exact ⟨hT3, hR3, e2,
          by rw [splice_after_lookup_other t ia p q ea.next_price hp hq hnT
               _ hT3 d1 d2 d3]
             exact he2, hbk⟩
    · by_cases hqn : q = ea.next_price
      · have hn' : ea.next_price ≠ 0 := by
          rw [← hqn]
          omega
        obtain ⟨hnT2, hRan, en, hlen, hbkn⟩ := hnCa hn'
        subst hqn
        rw [splice_after_lookup_n t ia p a _ hp haT hnT hpn han en hlen]
          at hlq
        injection hlq with hlq
        subst hlq
        obtain ⟨hpren, hnCn, hvCn⟩ := hS ea.next_price en hq0 hq hlen
        refine ⟨hpren, fun hn2 => ?_, fun _ => ?_⟩
        · have hn2' : en.next_price ≠ 0 := hn2
          obtain ⟨hT3, hR3, e2, he2, hbk⟩ := hnCn hn2'
          have d1 : en.next_price ≠ p := by
            intro hcase
            rw [hcase, hfresh] at he2
            exact Option.noConfusion he2
          have d2 : en.next_price ≠ a := by
            intro hcase
            exact sideR_asymm (sideR_trans hRap (hRpn hn'))
              (by rw [← hcase]; exact hR3)
          have d3 : en.next_price ≠ ea.next_price := Ne.symm (sideR_ne hR3)
          exact ⟨hT3, hR3, e2,
            by rw [splice_after_lookup_other t ia p a ea.next_price hp haT
                 hnT _ hT3 d1 d2 d3]
               exact he2, hbk⟩
        · exact ⟨hp, hRpn hn', ⟨p, 0, 0, 0, ea.next_price, a⟩,
            splice_after_lookup_self t ia p a ea.next_price hp haT hnT
              (Ne.symm hap) hpn, rfl⟩
      · rw [splice_after_lookup_other t ia p a ea.next_price hp haT hnT q hq
          hqp hqa hqn] at hlq
        obtain ⟨h1, h2, h3⟩ := hS q eq hq0 hq hlq
        refine ⟨h1, fun hn => ?_, fun hv => ?_⟩
        · obtain ⟨hT3, hR3, e2, he2, hbk⟩ := h2 hn
          have d1 : eq.next_price ≠ p := by
            intro hcase
            rw [hcase, hfresh] at he2
            exact Option.noConfusion he2
          by_cases d2 : eq.next_price = a
          · rw [d2, hlka] at he2
            injection he2 with he2
            subst he2
            refine ⟨hT3, hR3, { ea with next_price := p }, ?_, hbk⟩
            rw [d2]
            exact splice_after_lookup_a t ia p a ea.next_price hp haT hnT
              (Ne.symm hap) han ea hlka
          · by_cases d3 : eq.next_price = ea.next_price
            · have hn' : ea.next_price ≠ 0 := by
                rw [← d3]
                exact hn
              obtain ⟨_, _, en, hlen, hbkn⟩ := hnCa hn'
              rw [d3, hlen] at he2
              injection he2 with he2
              subst he2
              exact absurd (hbk.symm.trans hbkn) hqa
            · exact ⟨hT3, hR3, e2,
                by rw [splice_after_lookup_other t ia p a ea.next_price hp
                     haT hnT _ hT3 d1 d2 d3]
                   exact he2, hbk⟩
        · obtain ⟨hT3, hR3, e2, he2, hbk⟩ := h3 hv
          have d1 : eq.prev_price ≠ p := by
            intro hcase
            rw [hcase, hfresh] at he2
            exact Option.noConfusion he2
          by_cases d2 : eq.prev_price = a
          · rw [d2, hlka] at he2
            injection he2 with he2
            subst he2
            exact absurd hbk.symm hqn
          · by_cases d3 : eq.prev_price = ea.next_price
            · have hn' : ea.next_price ≠ 0 := by
                rw [← d3]
                exact hv
              obtain ⟨_, _, en, hlen, hbkn⟩ := hnCa hn'
              rw [d3, hlen] at he2
              injection he2 with he2
              subst he2
              refine ⟨hT3, hR3, { en with prev_price := p }, ?_, hbk⟩
              rw [d3]
              exact splice_after_lookup_n t ia p a ea.next_price hp haT hnT
                hpn han en hlen
            · exact ⟨hT3, hR3, e2,
                by rw [splice_after_lookup_other t ia p a ea.next_price hp
                     haT hnT _ hT3 d1 d2 d3]
                   exact he2, hbk⟩

/-- Splicing after an anchor never disturbs a well-formed head. -/
theorem splice_after_head (t : Tbl SimPriceLevel) (ia : Bool) (p a : Nat)
    (ea : SimPriceLevel)
    (hfresh : Tbl.lookup t (get_price_level_key p ia) = none)
    (hp0 : 0 < p) (hp : p < TOP) (ha0 : a ≠ 0) (haT : a < TOP)
    (hRap : sideR ia a p)
    (hRpn : ea.next_price ≠ 0 → sideR ia p ea.next_price)
    (hlka : Tbl.lookup t (get_price_level_key a ia) = some ea)
    (hS : SideInv t ia) (hd : Nat) (hh : HeadInv t ia hd) :
    HeadInv (spliceAfterTbl t ia p a ea.next_price) ia hd := by
  have hap : a ≠ p := sideR_ne hRap
  obtain ⟨hpra, hnCa, hvCa⟩ := hS a ea (Nat.pos_of_ne_zero ha0) haT hlka
  have hnT : ea.next_price < TOP := by
    by_cases hn : ea.next_price = 0
    · rw [hn]
      exact TOP_pos
    · exact (hnCa hn).1
  have hpn : p ≠ ea.next_price := by
    by_cases hn : ea.next_price = 0
    · rw [hn]
      omega
    · exact sideR_ne (hRpn hn)
  have han : a ≠ ea.next_price := by
    by_cases hn : ea.next_price = 0
    · rw [hn]
      exact ha0
    · exact sideR_ne (sideR_trans hRap (hRpn hn))
  intro h0
  obtain ⟨hhT, ehd, hehd, hhp⟩ := hh h0
  refine ⟨hhT, ?_⟩
  have hd1 : hd ≠ p := by
    intro hcase
    rw [hcase, hfresh] at hehd
    exact Option.noConfusion hehd
  by_cases hd2 : hd = a
  · subst hd2
    rw [hlka] at hehd
    injection hehd with hehd
    subst hehd
    exact ⟨{ ea with next_price := p },
      splice_after_lookup_a t ia p hd ea.next_price hp hhT hnT
        (Ne.symm hap) han ea hlka, hhp⟩
  · by_cases hd3 : hd = ea.next_price
    · exfalso
      have hn' : ea.next_price ≠ 0 := by
        rw [← hd3]
        exact h0
      obtain ⟨_, _, en, hlen, hbkn⟩ := hnCa hn'
      rw [hd3, hlen] at hehd
      injection hehd with hehd
      subst hehd
      rw [hhp] at hbkn
      exact ha0 hbkn.symm
    · exact ⟨ehd,
        by rw [splice_after_lookup_other t ia p a ea.next_price hp haT hnT
             hd hhT hd1 hd2 hd3]
           exact hehd, hhp⟩

end OrderBookSimulator

namespace OrderBookSimulator

/-- `find_or_create_price_level`, fed its own `find_insert_position`
hint as the source does, preserves the simulator invariant for a fresh
or existing price in `(0, 2^255)`. -/
theorem Inv_find_or_create (s : OrderBookSimulator) (p : Nat) (ia : Bool)
    (h : Inv s) (hp0 : 0 < p) (hp : p < TOP) :
    Inv (find_or_create_price_level s p ia (find_insert_position s p ia)) := by
  cases hlk : Tbl.lookup s.price_levels (get_price_level_key p ia) with
  | some e0 =>
    have hc : Tbl.contains s.price_levels (get_price_level_key p ia) = true := by
      unfold Tbl.contains
      rw [hlk]
      rfl
    have heq : find_or_create_price_level s p ia
        (find_insert_position s p ia) = s := by
      unfold find_or_create_price_level
      simp only []
      rw [hc]
      simp
    rw [heq]
    exact h
  | none =>
    rcases find_insert_position_spec s ia p h hp0 hp hlk with
      ⟨ha, hh0 | ⟨hhne, hRph⟩⟩ | ⟨ha0, haT, er, hler, hRa, hRn⟩
    · rw [ha]
      obtain ⟨htbl, hhd, hhd2, hord, hma', hmb'⟩ :=
        foc_parts_head_empty s p ia hlk hh0
      apply Inv.build
      · rw [htbl]
        exact Tbl.nodup_keys_insert _ _ _ h.nk
      · rw [htbl]
        exact insert_fresh_range _ _ _ hp0 hp h.kr _
      · intro ib
        rw [htbl]
        exact insert_fresh_side _ _ _ hlk hp0 hp ib (h.sideI ib)
      · intro ib
        by_cases hib : ib = ia
        · subst hib
          rw [htbl, hhd]
          intro _
          exact ⟨hp, ⟨p, 0, 0, 0, 0, 0⟩, Tbl.lookup_insert_self _ _ _, rfl⟩
        · rw [htbl, hhd2 ib hib]
          exact insert_fresh_head _ _ _ hlk ib _ (h.headI ib)
      · rw [hma']
        exact h.ma
      · rw [hmb']
        exact h.mb
      · rw [hord]
        exact h.op
    · rw [ha]
      obtain ⟨htbl, hhd, hhd2, hord, hma', hmb'⟩ :=
        foc_parts_head_nonempty s p ia hlk hhne
      obtain ⟨hhT, eh, hleh, hhp⟩ := h.headI ia hhne
      apply Inv.build
      · rw [htbl]
        exact splice_head_nodup _ _ _ _ h.nk
      · rw [htbl]
        exact splice_head_range _ _ _ _ hp0 hp h.kr
      · intro ib
        by_cases hib : ib = ia
        · subst hib
          rw [htbl]
          exact splice_head_side _ _ _ _ hlk hp0 hp hhne hhT eh hleh hhp
            hRph (h.sideI ib)
        · rw [htbl]
          exact SideInv_congr
            (fun r hr => splice_head_lookup_cross _ _ _ _ hp hhT ib hib r hr)
            (h.sideI ib)
      · intro ib
        by_cases hib : ib = ia
        · subst hib
          rw [htbl, hhd]
          intro _
          exact ⟨hp, ⟨p, 0, 0, 0, head_ptr s ib, 0⟩,
            splice_head_lookup_self _ _ _ _ hp hhT (sideR_ne hRph), rfl⟩
        · rw [htbl, hhd2 ib hib]
          exact HeadInv_congr
            (fun r hr => splice_head_lookup_cross _ _ _ _ hp hhT ib hib r hr)
            (h.headI ib)
      · rw [hma']
        exact h.ma
      · rw [hmb']
        exact h.mb
      · rw [hord]
        exact h.op
    · have hap : find_insert_position s p ia ≠ p := sideR_ne hRa
      obtain ⟨htbl, hhd, hord, hma', hmb'⟩ :=
        foc_parts_after s p ia (find_insert_position s p ia) er hlk hp0 hp
          (not_mem_zero_key _ ia h.kr) ha0 haT hap hler
      obtain ⟨hpra, hnCa, hvCa⟩ :=
        h.sideI ia _ er (Nat.pos_of_ne_zero ha0) haT hler
      have hnT : er.next_price < TOP := by
        by_cases hn : er.next_price = 0
        · rw [hn]
          exact TOP_pos
        · exact (hnCa hn).1
      apply Inv.build
      · rw [htbl]
        exact splice_after_nodup _ _ _ _ _ h.nk
      · rw [htbl]
        exact splice_after_range _ _ _ _ _ hp0 hp h.kr
      · intro ib
        by_cases hib : ib = ia
        · subst hib
          rw [htbl]
          exact splice_after_side _ _ _ _ er hlk hp0 hp ha0 haT hRa hRn
            hler (h.sideI ib)
        · rw [htbl]
          exact SideInv_congr
            (fun r hr => splice_after_lookup_cross _ _ _ _ _ hp haT hnT ib
              hib r hr) (h.sideI ib)
      · intro ib
        by_cases hib : ib = ia
        · subst hib
          rw [htbl, hhd ib]
          exact splice_after_head _ _ _ _ er hlk hp0 hp ha0 haT hRa hRn
            hler (h.sideI ib) _ (h.headI ib)
        · rw [htbl, hhd ib]
          exact HeadInv_congr
            (fun r hr => splice_after_lookup_cross _ _ _ _ _ hp haT hnT ib
              hib r hr) (h.headI ib)
      · rw [hma']
        exact h.ma
      · rw [hmb']
        exact h.mb
      · rw [hord]
        exact h.op

end OrderBookSimulator

namespace OrderBookSimulator

/-- The fields of a price level that the side invariant observes. -/
def lvlLinks (l : SimPriceLevel) : Nat × Nat × Nat :=
  (l.price, l.next_price, l.prev_price)

theorem links_some {t t2 : Tbl SimPriceLevel}
    (hlks : ∀ k, (Tbl.lookup t2 k).map lvlLinks =
      (Tbl.lookup t k).map lvlLinks)
    {k : Nat} {e : SimPriceLevel} (he : Tbl.lookup t2 k = some e) :
    ∃ e0, Tbl.lookup t k = some e0 ∧ e0.price = e.price ∧
      e0.next_price = e.next_price ∧ e0.prev_price = e.prev_price := by
  have h := hlks k
  rw [he] at h
  cases hl : Tbl.lookup t k with
  | none =>
    rw [hl] at h
    exact Option.noConfusion h
  | some e0 =>
    rw [hl] at h
    injection h with h
    simp only [lvlLinks, Prod.mk.injEq] at h
    exact ⟨e0, rfl, h.1.symm, h.2.1.symm, h.2.2.symm⟩

/-- The side invariant only observes `lvlLinks`. -/
theorem SideInv_of_links {t t2 : Tbl SimPriceLevel} {ia : Bool}
    (hlks : ∀ k, (Tbl.lookup t2 k).map lvlLinks =
      (Tbl.lookup t k).map lvlLinks)
    (hs : SideInv t ia) : SideInv t2 ia := by
  intro q eq hq0 hq hlq
  obtain ⟨e0, hl0, hp1, hp2, hp3⟩ := links_some hlks hlq
  obtain ⟨h1, h2, h3⟩ := hs q e0 hq0 hq hl0
  refine ⟨by rw [← hp1]; exact h1, fun hn => ?_, fun hv => ?_⟩
  · have hn0 : e0.next_price ≠ 0 := by rw [hp2]; exact hn
    obtain ⟨hT3, hR3, e2, he2, hbk⟩ := h2 hn0
    obtain ⟨e2', he2', c1, c2, c3⟩ :=
      links_some (fun k => (hlks k).symm) he2
    rw [hp2] at hT3 hR3 he2
    refine ⟨hT3, hR3, e2', ?_, by rw [c3]; exact hbk⟩
    rw [← hp2]
    exact he2'
  · have hv0 : e0.prev_price ≠ 0 := by rw [hp3]; exact hv
    obtain ⟨hT3, hR3, e2, he2, hbk⟩ := h3 hv0
    obtain ⟨e2', he2', c1, c2, c3⟩ :=
      links_some (fun k => (hlks k).symm) he2
    rw [hp3] at hT3 hR3 he2
    refine ⟨hT3, hR3, e2', ?_, by rw [c2]; exact hbk⟩
    rw [← hp3]
    exact he2'

theorem HeadInv_of_links {t t2 : Tbl SimPriceLevel} {ia : Bool} {hd : Nat}
    (hlks : ∀ k, (Tbl.lookup t2 k).map lvlLinks =
      (Tbl.lookup t k).map lvlLinks)
    (hh : HeadInv t ia hd) : HeadInv t2 ia hd := by
  intro h0
  obtain ⟨hT, e, he, hp'⟩ := hh h0
  obtain ⟨e', he', c1, c2, c3⟩ := links_some (fun k => (hlks k).symm) he
  exact ⟨hT, e', he', by rw [c3]; exact hp'⟩

/-- Invariant preservation for any state update that keeps the head
pointers, keeps every level's links and key set, and keeps all order
records' price levels in range. -/
theorem Inv_update (s : OrderBookSimulator) (pl : Tbl SimPriceLevel)
    (od : Tbl SimOrder) (h : Inv s)
    (hkeys : Tbl.keys pl = Tbl.keys s.price_levels)
    (hlks : ∀ k, (Tbl.lookup pl k).map lvlLinks =
      (Tbl.lookup s.price_levels k).map lvlLinks)
    (hod : ∀ kv ∈ od, (Prod.snd kv : SimOrder).price_level < TOP) :
    Inv { s with price_levels := pl, orders := od } := by
  refine ⟨?_, ?_, ?_, ?_, ?_, ?_, h.ma, h.mb, hod⟩
  · rw [hkeys]
    exact h.nk
  · intro k hk
    rw [hkeys] at hk
    exact h.kr k hk
  · exact SideInv_of_links hlks h.sa
  · exact SideInv_of_links hlks h.sb
  · exact HeadInv_of_links hlks h.ha
  · exact HeadInv_of_links hlks h.hb

end OrderBookSimulator

namespace OrderBookSimulator

theorem lookup_links_modify_head (t : Tbl SimPriceLevel) (k k2 : Nat)
    (g : SimPriceLevel → Nat) :
    (Tbl.lookup (Tbl.modify t k
        (fun l => { l with head_order_id := g l })) k2).map lvlLinks =
      (Tbl.lookup t k2).map lvlLinks :=
  lookup_map_modify _ _ _ _ _ (fun _ => rfl)

theorem lookup_links_modify_tail (t : Tbl SimPriceLevel) (k k2 : Nat)
    (g : SimPriceLevel → Nat) :
    (Tbl.lookup (Tbl.modify t k
        (fun l => { l with tail_order_id := g l })) k2).map lvlLinks =
      (Tbl.lookup t k2).map lvlLinks :=
  lookup_map_modify _ _ _ _ _ (fun _ => rfl)

theorem lookup_links_modify_vol (t : Tbl SimPriceLevel) (k k2 : Nat)
    (g : SimPriceLevel → Nat) :
    (Tbl.lookup (Tbl.modify t k
        (fun l => { l with total_volume := g l })) k2).map lvlLinks =
      (Tbl.lookup t k2).map lvlLinks :=
  lookup_map_modify _ _ _ _ _ (fun _ => rfl)

theorem OrdBound_modify (l : Tbl SimOrder) (k : Nat) (f : SimOrder → SimOrder)
    (hf : ∀ o, (f o).price_level = o.price_level)
    (h : ∀ kv ∈ l, (Prod.snd kv : SimOrder).price_level < TOP) :
    ∀ kv ∈ Tbl.modify l k f, (Prod.snd kv : SimOrder).price_level < TOP :=
  Tbl.forall_mem_modify _ _ _ (fun o : SimOrder => o.price_level < TOP)
    (fun v hv => by show (f v).price_level < TOP; rw [hf v]; exact hv) h

/-- `insert_order_into_price_level` preserves the invariant: it only
rewires order links and level head/tail/volume fields. -/
theorem Inv_insert_order_into_price_level (s : OrderBookSimulator)
    (p oid iao : Nat) (ia : Bool) (h : Inv s) :
    Inv (insert_order_into_price_level s p oid iao ia) := by
  unfold insert_order_into_price_level
  simp only []
  cases hlo : Tbl.lookup s.orders oid with
  | none => exact h
  | some o =>
    simp only []
    split_ifs <;>
      (apply Inv_update s _ _ h
       · simp only [Tbl.keys_modify]
       · intro k
         simp only [lookup_links_modify_head, lookup_links_modify_tail,
           lookup_links_modify_vol]
       · first
         | exact h.op
         | exact OrdBound_modify _ _ _ (fun _ => rfl) h.op
         | exact OrdBound_modify _ _ _ (fun _ => rfl)
             (OrdBound_modify _ _ _ (fun _ => rfl) h.op)
         | exact OrdBound_modify _ _ _ (fun _ => rfl)
             (OrdBound_modify _ _ _ (fun _ => rfl)
               (OrdBound_modify _ _ _ (fun _ => rfl) h.op)))

/-- `remove_order_from_price_level` preserves the invariant. -/
theorem Inv_remove_order_from_price_level (s : OrderBookSimulator)
    (p oid : Nat) (ia : Bool) (h : Inv s) :
    Inv (remove_order_from_price_level s p oid ia) := by
  unfold remove_order_from_price_level
  simp only []
  cases hlo : Tbl.lookup s.orders oid with
  | none => exact h
  | some o =>
    simp only []
    split_ifs <;>
      (apply Inv_update s _ _ h
       · simp only [Tbl.keys_modify]
       · intro k
         simp only [lookup_links_modify_head, lookup_links_modify_tail,
           lookup_links_modify_vol]
       · first
         | exact h.op
         | exact OrdBound_modify _ _ _ (fun _ => rfl) h.op
         | exact OrdBound_modify _ _ _ (fun _ => rfl)
             (OrdBound_modify _ _ _ (fun _ => rfl) h.op))

/-- `remove_filled_order` preserves the invariant. -/
theorem Inv_remove_filled_order (s : OrderBookSimulator) (oid : Nat)
    (ia : Bool) (h : Inv s) : Inv (remove_filled_order s oid ia) := by
  unfold remove_filled_order
  simp only []
  cases hlo : Tbl.lookup s.orders oid with
  | none => exact h
  | some o =>
    simp only []
    have hpl : o.price_level < TOP := h.op (oid, o) (Tbl.mem_of_lookup _ _ _ hlo)
    have h1 : Inv (remove_order_from_price_level s o.price_level oid ia) :=
      Inv_remove_order_from_price_level _ _ _ _ h
    split_ifs with hsr
    · exact Inv_set_orders_erase _ _ (Inv_remove_price_level _ _ _ hpl h1)
    · exact Inv_set_orders_erase _ _ h1

/-- `execute_trade` preserves the invariant. -/
theorem Inv_execute_trade (s : OrderBookSimulator) (b a : Nat) (h : Inv s) :
    Inv (execute_trade s b a).1 := by
  unfold execute_trade
  simp only []
  cases hlb : Tbl.lookup s.orders b with
  | none => exact h
  | some bo =>
    cases hla : Tbl.lookup s.orders a with
    | none => exact h
    | some ao =>
      simp only []
      by_cases ht : min (bo.amount - bo.filled_amount)
          (ao.amount - ao.filled_amount) = 0
      · rw [if_pos ht]
        exact h
      · rw [if_neg ht]
        simp only []
        split_ifs <;>
          first
          | exact Inv_remove_filled_order _ _ _
              (Inv_remove_filled_order _ _ _
                (Inv_update s _ _ h (by simp only [Tbl.keys_modify])
                  (fun k => by
                    simp only [lookup_links_modify_vol])
                  (OrdBound_modify _ _ _ (fun _ => rfl)
                    (OrdBound_modify _ _ _ (fun _ => rfl) h.op))))
          | exact Inv_remove_filled_order _ _ _
              (Inv_update s _ _ h (by simp only [Tbl.keys_modify])
                (fun k => by
                  simp only [lookup_links_modify_vol])
                (OrdBound_modify _ _ _ (fun _ => rfl)
                  (OrdBound_modify _ _ _ (fun _ => rfl) h.op)))
          | exact Inv_update s _ _ h (by simp only [Tbl.keys_modify])
              (fun k => by
                simp only [lookup_links_modify_vol])
              (OrdBound_modify _ _ _ (fun _ => rfl)
                (OrdBound_modify _ _ _ (fun _ => rfl) h.op))

/-- The limit-vs-limit matching loop preserves the invariant. -/
theorem Inv_match_orders_internal (fuel : Nat) (s : OrderBookSimulator)
    (h : Inv s) : Inv (match_orders_internal fuel s) := by
  induction fuel generalizing s with
  | zero => exact h
  | succ n ih =>
    simp only [match_orders_internal]
    by_cases h1 : s.bid_head = 0 ∨ s.ask_head = 0
    · rw [if_pos h1]
      exact h
    · rw [if_neg h1]
      cases hbl : Tbl.lookup s.price_levels
          (get_price_level_key s.bid_head false) with
      | none => exact h
      | some bl =>
        cases hal : Tbl.lookup s.price_levels
            (get_price_level_key s.ask_head true) with
        | none => exact h
        | some al =>
          simp only []
          split_ifs
          · exact h
          · exact h
          · exact ih _ (Inv_execute_trade _ _ _ h)
          · exact Inv_execute_trade _ _ _ h

theorem match_market_bid_loop_mb_zero (fuel : Nat) (s : OrderBookSimulator)
    (h : s.market_bid_head = 0) :
    match_market_bid_loop fuel s = (s, fuel) := by
  cases fuel with
  | zero => rfl
  | succ n =>
    unfold match_market_bid_loop
    rw [if_pos (Or.inl h)]

/-- Post-insertion matching preserves the invariant: the limit loop does
by induction, and the market loops are no-ops since the market queues
stay empty. -/
theorem Inv_try_match_after_insertion (s : OrderBookSimulator) (h : Inv s) :
    Inv (try_match_after_insertion s) := by
  unfold try_match_after_insertion match_market_orders_internal
  have h1 : Inv (match_orders_internal 50 s) :=
    Inv_match_orders_internal _ _ h
  rw [match_market_bid_loop_mb_zero 50 _ h1.mb]
  simp only []
  rw [match_market_ask_loop_empty 50 _ h1.ma]
  exact h1

/-- `simulate_insert_order` with a price in `(0, 2^255)` preserves the
invariant. -/
theorem Inv_simulate_insert_order (s : OrderBookSimulator)
    (oid p amt : Nat) (ia : Bool) (h : Inv s) (hp0 : 0 < p) (hp : p < TOP) :
    Inv (simulate_insert_order s oid p amt ia).1 := by
  unfold simulate_insert_order
  simp only []
  apply Inv_try_match_after_insertion
  apply Inv_insert_order_into_price_level
  exact Inv_set_orders_insert _ _ _ hp (Inv_find_or_create s p ia h hp0 hp)

/-- `simulate_remove_order` preserves the invariant. -/
theorem Inv_simulate_remove_order (s : OrderBookSimulator) (oid : Nat)
    (ia : Bool) (h : Inv s) : Inv (simulate_remove_order s oid ia).1 := by
  unfold simulate_remove_order
  simp only []
  cases hlo : Tbl.lookup s.orders oid with
  | none => exact h
  | some o =>
    simp only []
    have hpl : o.price_level < TOP := h.op (oid, o) (Tbl.mem_of_lookup _ _ _ hlo)
    have h1 : Inv (remove_order_from_price_level s o.price_level oid ia) :=
      Inv_remove_order_from_price_level _ _ _ _ h
    split_ifs with hsr
    · exact Inv_set_orders_erase _ _ (Inv_remove_price_level _ _ _ hpl h1)
    · exact Inv_set_orders_erase _ _ h1

end OrderBookSimulator

namespace OrderBookSimulator

theorem ascendingB_cons (a : Nat) (l : List Nat) (hl : ascendingB l = true)
    (hh : ∀ b t, l = b :: t → a < b) : ascendingB (a :: l) = true := by
  cases l with
  | nil => rfl
  | cons b t =>
    simp only [ascendingB, Bool.and_eq_true, decide_eq_true_eq]
    exact ⟨hh b t rfl, hl⟩

theorem descendingB_cons (a : Nat) (l : List Nat) (hl : descendingB l = true)
    (hh : ∀ b t, l = b :: t → b < a) : descendingB (a :: l) = true := by
  cases l with
  | nil => rfl
  | cons b t =>
    simp only [descendingB, Bool.and_eq_true, decide_eq_true_eq]
    exact ⟨hh b t rfl, hl⟩

theorem go_head (s : OrderBookSimulator) (ia : Bool) (fuel c : Nat) :
    get_price_levels_go s ia fuel c = [] ∨
    ∃ t, get_price_levels_go s ia fuel c = c :: t := by
  cases fuel with
  | zero => exact Or.inl rfl
  | succ n =>
    by_cases hc : c = 0
    · subst hc
      exact Or.inl rfl
    · right
      simp only [get_price_levels_go]
      rw [if_neg hc]
      exact ⟨_, rfl⟩

/-- Under the side invariant, the ask-side walk yields strictly
ascending prices, for any fuel. -/
theorem go_sorted_ask (s : OrderBookSimulator)
    (hS : SideInv s.price_levels true) :
    ∀ fuel c, c < TOP →
      ascendingB (get_price_levels_go s true fuel c) = true := by
  intro fuel
  induction fuel with
  | zero => intro c _; rfl
  | succ n ih =>
    intro c hc
    by_cases hc0 : c = 0
    · subst hc0
      rfl
    · simp only [get_price_levels_go]
      rw [if_neg hc0]
      cases hlc : Tbl.lookup s.price_levels (get_price_level_key c true) with
      | none => rfl
      | some e =>
        simp only []
        obtain ⟨hpr, hnC, _⟩ := hS c e (Nat.pos_of_ne_zero hc0) hc hlc
        by_cases hn : e.next_price = 0
        · have hnil : get_price_levels_go s true n e.next_price = [] := by
            rw [hn]
            cases n with
            | zero => rfl
            | succ m => rfl
          rw [hnil]
          rfl
        · obtain ⟨hnT, hRn, _, _, _⟩ := hnC hn
          have hrest := ih e.next_price hnT
          rcases go_head s true n e.next_price with hnil | ⟨t2, hcons⟩
          · rw [hnil]
            rfl
          · refine ascendingB_cons c _ hrest (fun b t hbt => ?_)
            rw [hcons] at hbt
            injection hbt with h1 h2
            subst h1
            simpa [sideR] using hRn

/-- Under the side invariant, the bid-side walk yields strictly
descending prices, for any fuel. -/
theorem go_sorted_bid (s : OrderBookSimulator)
    (hS : SideInv s.price_levels false) :
    ∀ fuel c, c < TOP →
      descendingB (get_price_levels_go s false fuel c) = true := by
  intro fuel
  induction fuel with
  | zero => intro c _; rfl
  | succ n ih =>
    intro c hc
    by_cases hc0 : c = 0
    · subst hc0
      rfl
    · simp only [get_price_levels_go]
      rw [if_neg hc0]
      cases hlc : Tbl.lookup s.price_levels (get_price_level_key c false) with
      | none => rfl
      | some e =>
        simp only []
        obtain ⟨hpr, hnC, _⟩ := hS c e (Nat.pos_of_ne_zero hc0) hc hlc
        by_cases hn : e.next_price = 0
        · have hnil : get_price_levels_go s false n e.next_price = [] := by
            rw [hn]
            cases n with
            | zero => rfl
            | succ m => rfl
          rw [hnil]
          rfl
        · obtain ⟨hnT, hRn, _, _, _⟩ := hnC hn
          have hrest := ih e.next_price hnT
          rcases go_head s false n e.next_price with hnil | ⟨t2, hcons⟩
          · rw [hnil]
            rfl
          · refine descendingB_cons c _ hrest (fun b t hbt => ?_)
            rw [hcons] at hbt
            injection hbt with h1 h2
            subst h1
            simpa [sideR] using hRn

end OrderBookSimulator

/-- States reachable from the empty simulator by `insert_limit_order`
operations with prices strictly between `0` and `2^255`, and arbitrary
`remove_order` operations. -/
inductive ReachableLim : OrderBookSimulator → Prop where
  | empty : ReachableLim OrderBookSimulator.new
  | insert (s : OrderBookSimulator) (oid p amt : Nat) (ia : Bool) :
      ReachableLim s → 0 < p → p < 2 ^ 255 →
      ReachableLim (OrderBookSimulator.simulate_insert_order s oid p amt ia).1
  | remove (s : OrderBookSimulator) (oid : Nat) (ia : Bool) :
      ReachableLim s →
      ReachableLim (OrderBookSimulator.simulate_remove_order s oid ia).1

/-- Every reachable state satisfies the simulator invariant. -/
theorem Inv_reachable (s : OrderBookSimulator) (h : ReachableLim s) :
    OrderBookSimulator.Inv s := by
  induction h with
  | empty => exact OrderBookSimulator.Inv_new
  | insert s oid p amt ia _ hp0 hp ih =>
    exact OrderBookSimulator.Inv_simulate_insert_order s oid p amt ia ih hp0 hp
  | remove s oid ia _ ih =>
    exact OrderBookSimulator.Inv_simulate_remove_order s oid ia ih

open OrderBookSimulator in
/-- C6 (amended): after any sequence of `insert_limit_order` operations
with prices strictly between `0` and `2^255` and arbitrary
`remove_order` operations starting from the empty simulator, walking
the ask side from `ask_head` via `next_price` visits strictly ascending
prices and walking the bid side from `bid_head` visits strictly
descending prices — for every walk fuel, in particular for
`get_price_levels`.  (The price bounds are necessary: `C6_counterexample`
breaks the ordering both with a price at or above `2^255`, whose bid
composite key collides with an ask key, and with price `0`, which
aliases the list-end sentinel.) -/
theorem C6_amended_side_ordering (s : OrderBookSimulator)
    (h : ReachableLim s) :
    (∀ fuel, ascendingB (get_price_levels_go s true fuel s.ask_head) = true) ∧
    (∀ fuel, descendingB (get_price_levels_go s false fuel s.bid_head) = true) ∧
    ascendingB (get_price_levels s true) = true ∧
    descendingB (get_price_levels s false) = true := by
  have hI := Inv_reachable s h
  have hask : ∀ fuel,
      ascendingB (get_price_levels_go s true fuel s.ask_head) = true := by
    intro fuel
    by_cases hh : s.ask_head = 0
    · rw [hh]
      cases fuel <;> rfl
    · exact go_sorted_ask s hI.sa fuel s.ask_head (hI.ha hh).1
  have hbid : ∀ fuel,
      descendingB (get_price_levels_go s false fuel s.bid_head) = true := by
    intro fuel
    by_cases hh : s.bid_head = 0
    · rw [hh]
      cases fuel <;> rfl
    · exact go_sorted_bid s hI.sb fuel s.bid_head (hI.hb hh).1
  exact ⟨hask, hbid, hask _, hbid _⟩

open OrderBookSimulator in
/-- Witness for the amended C6 at a concrete reachable state: two ask
inserts and a remove, prices `5`, `3`. -/
theorem C6_amended_side_ordering_witness :
    ascendingB (get_price_levels
      (OrderBookSimulator.simulate_remove_order
        (OrderBookSimulator.simulate_insert_order
          (OrderBookSimulator.simulate_insert_order
            OrderBookSimulator.new 1 5 10 true).1 2 3 7 false).1 1 true).1
      true) = true ∧
    descendingB (get_price_levels
      (OrderBookSimulator.simulate_remove_order
        (OrderBookSimulator.simulate_insert_order
          (OrderBookSimulator.simulate_insert_order
            OrderBookSimulator.new 1 5 10 true).1 2 3 7 false).1 1 true).1
      false) = true := by
  have h := C6_amended_side_ordering _
    (ReachableLim.remove _ 1 true
      (ReachableLim.insert _ 2 3 7 false
        (ReachableLim.insert _ 1 5 10 true ReachableLim.empty
          (by decide) (by decide))
        (by decide) (by decide)))
  exact ⟨h.2.2.1, h.2.2.2⟩
